import Mathlib

/-! # Verification development for `server.js`

A shallow embedding of the request handlers of `src/server.js` (an Express server that
mediates between HTTP clients, a hosted database, a mail relay and a text-generation
endpoint), followed by theorems about them.

Conventions of the embedding

* JavaScript values are the inductive type `JSValue`. Numbers are the integers (the number
  tokens the handlers meet are identifiers and timestamps); strings are lists of Unicode
  scalar values (`List Char`), so a lone surrogate code unit is outside the embedding.
* Objects are association lists in property enumeration order.
* Every call that leaves the process (database, mail relay, inference endpoint, clock,
  file deletion) is an explicit input of the handler: its outcome is a field of a "world"
  structure, and the handler returns, next to the response, the list of external calls it
  issued, in order.
* The middleware installed in front of the handlers is library code: whether it hands a
  request to its handler or ends it with an error is an input too (`Incoming`).
-/

namespace Server

/-! ## JavaScript values -/

/-- A JavaScript string. -/
abbrev JSString := List Char

/-- JavaScript values as they occur in request bodies, database rows and responses. -/
inductive JSValue where
  | undefined : JSValue
  | null : JSValue
  | bool (b : Bool) : JSValue
  | num (n : Int) : JSValue
  | str (s : JSString) : JSValue
  | arr (xs : List JSValue) : JSValue
  | obj (kvs : List (JSString × JSValue)) : JSValue

/-- A plain object: its own enumerable properties, in enumeration order. -/
abbrev Row := List (JSString × JSValue)

instance : Inhabited JSValue := ⟨JSValue.undefined⟩

/-- Property read `o.k` on a plain object: `undefined` when the property is absent. -/
def getProp : Row → JSString → JSValue
  | [], _ => JSValue.undefined
  | (k, v) :: rest, key => if k = key then v else getProp rest key

/-- Property write `o.k = v` on a plain object: an existing property keeps its place, a new
one is added last. -/
def setProp : Row → JSString → JSValue → Row
  | [], key, v => [(key, v)]
  | (k, w) :: rest, key, v => if k = key then (k, v) :: rest else (k, w) :: setProp rest key v

/-- The keys of a plain object. -/
def keysOf (o : Row) : List JSString := o.map Prod.fst

/-- The operator `typeof x === "string"`. -/
def isString : JSValue → Bool
  | JSValue.str _ => true
  | _ => false

/-- The builtin `Array.isArray`. -/
def isArray : JSValue → Bool
  | JSValue.arr _ => true
  | _ => false

/-- The abstract operation ToBoolean: the falsy values are `undefined`, `null`, `false`,
`0` and the empty string. -/
def truthy : JSValue → Bool
  | JSValue.undefined => false
  | JSValue.null => false
  | JSValue.bool b => b
  | JSValue.num n => n != 0
  | JSValue.str s => !s.isEmpty
  | JSValue.arr _ => true
  | JSValue.obj _ => true

/-! ## Strings: trimming, decimal numerals -/

/-- The characters `String.prototype.trim` removes: WhiteSpace and LineTerminator of the
ECMAScript grammar. -/
def isJSWhiteSpace (c : Char) : Bool :=
  let n := c.toNat
  n = 0x09 || n = 0x0A || n = 0x0B || n = 0x0C || n = 0x0D || n = 0x20 || n = 0xA0 ||
  n = 0x1680 || (0x2000 ≤ n && n ≤ 0x200A) || n = 0x2028 || n = 0x2029 || n = 0x202F ||
  n = 0x205F || n = 0x3000 || n = 0xFEFF

/-- The method `String.prototype.trim`. -/
def trim (s : JSString) : JSString :=
  (s.dropWhile isJSWhiteSpace).rdropWhile isJSWhiteSpace

/-- The method `String.prototype.startsWith`. -/
def startsWith (s p : JSString) : Bool := p.isPrefixOf s

/-- The decimal digit character of `d < 10`. -/
def digitChar (d : Nat) : Char := Char.ofNat (48 + d)

/-- Decimal digits of `n`, most significant first, in front of `acc`. -/
def decimalAux : Nat → Nat → List Char → List Char
  | 0, _, acc => acc
  | fuel + 1, n, acc =>
    if n < 10 then digitChar n :: acc
    else decimalAux fuel (n / 10) (digitChar (n % 10) :: acc)

/-- Number-to-string conversion of a non-negative integer (below `10^21`, where JavaScript
switches to exponent form). -/
def natToString (n : Nat) : JSString := decimalAux (n + 1) n []

/-- Number-to-string conversion of an integer. -/
def intToString : Int → JSString
  | Int.ofNat n => natToString n
  | Int.negSucc n => '-' :: natToString (n + 1)

/-! ## The builtin `JSON.stringify` -/

/-- The double quote character. -/
def dquote : Char := Char.ofNat 34

/-- The backslash character. -/
def backslash : Char := Char.ofNat 92

/-- Lower-case hexadecimal digit of `d < 16`. -/
def hexDigit (d : Nat) : Char :=
  if d < 10 then Char.ofNat (48 + d) else Char.ofNat (87 + d)

/-- One character of QuoteJSONString: the quote, the backslash and the control characters
below U+0020 are escaped, everything else is copied. -/
def quoteChar (c : Char) : List Char :=
  if c = dquote then [backslash, dquote]
  else if c = backslash then [backslash, backslash]
  else if c.toNat = 8 then [backslash, 'b']
  else if c.toNat = 12 then [backslash, 'f']
  else if c.toNat = 10 then [backslash, 'n']
  else if c.toNat = 13 then [backslash, 'r']
  else if c.toNat = 9 then [backslash, 't']
  else if c.toNat < 32 then
    [backslash, 'u', '0', '0', hexDigit (c.toNat / 16), hexDigit (c.toNat % 16)]
  else [c]

/-- The body of a quoted JSON string, without the surrounding quotes. -/
def quoteBody : JSString → List Char
  | [] => []
  | c :: rest => quoteChar c ++ quoteBody rest

/-- The abstract operation QuoteJSONString. -/
def quoteJSONString (s : JSString) : List Char := dquote :: (quoteBody s ++ [dquote])

mutual
/-- The text `JSON.stringify` produces for a value. `undefined` is rendered as it is inside
an array (`null`); at top level the handlers only ever pass arrays. -/
def stringifyValue : JSValue → List Char
  | JSValue.undefined => ['n', 'u', 'l', 'l']
  | JSValue.null => ['n', 'u', 'l', 'l']
  | JSValue.bool true => ['t', 'r', 'u', 'e']
  | JSValue.bool false => ['f', 'a', 'l', 's', 'e']
  | JSValue.num n => intToString n
  | JSValue.str s => quoteJSONString s
  | JSValue.arr [] => ['[', ']']
  | JSValue.arr (x :: xs) => '[' :: (stringifyValue x ++ stringifyRest xs)
  | JSValue.obj kvs => '{' :: stringifyFields true kvs
/-- The elements of an array after the first, each preceded by a comma, and the closing
bracket. -/
def stringifyRest : List JSValue → List Char
  | [] => [']']
  | x :: xs => ',' :: (stringifyValue x ++ stringifyRest xs)
/-- The properties of an object and the closing brace; a property whose value is
`undefined` is omitted. `first` tells whether no property has been written yet. -/
def stringifyFields : Bool → List (JSString × JSValue) → List Char
  | _, [] => ['}']
  | first, (_, JSValue.undefined) :: rest => stringifyFields first rest
  | first, (k, v) :: rest =>
    (if first then [] else [',']) ++
      (quoteJSONString k ++ ':' :: (stringifyValue v ++ stringifyFields false rest))
end

/-- The builtin `JSON.stringify` applied to one argument. -/
def JSON_stringify (v : JSValue) : JSString := stringifyValue v

/-! ## The builtin `JSON.parse`

The parser follows the JSON grammar of ECMA-404 on which `JSON.parse` is defined. Number
tokens with a fraction or an exponent denote values outside the integer embedding and are
not accepted; neither is an escape that denotes a lone surrogate. -/

/-- JSON insignificant whitespace: space, tab, line feed, carriage return. -/
def isJSONWhiteSpace (c : Char) : Bool :=
  c.toNat = 32 || c.toNat = 9 || c.toNat = 10 || c.toNat = 13

/-- Skip insignificant whitespace. -/
def skipWs (s : List Char) : List Char := s.dropWhile isJSONWhiteSpace

/-- Decimal digit test. -/
def isDigit (c : Char) : Bool := 48 ≤ c.toNat && c.toNat ≤ 57

/-- Value of a hexadecimal digit, either case. -/
def hexVal (c : Char) : Option Nat :=
  let n := c.toNat
  if 48 ≤ n ∧ n ≤ 57 then some (n - 48)
  else if 97 ≤ n ∧ n ≤ 102 then some (n - 87)
  else if 65 ≤ n ∧ n ≤ 70 then some (n - 55)
  else none

/-- Value of four hexadecimal digits. -/
def hex4 (a b c d : Char) : Option Nat :=
  match hexVal a, hexVal b, hexVal c, hexVal d with
  | some x, some y, some z, some w => some (((x * 16 + y) * 16 + z) * 16 + w)
  | _, _, _, _ => none

/-- The character a single-character escape denotes. -/
def unescape (e : Char) : Option Char :=
  if e = dquote then some dquote
  else if e = backslash then some backslash
  else if e = '/' then some '/'
  else if e = 'b' then some (Char.ofNat 8)
  else if e = 'f' then some (Char.ofNat 12)
  else if e = 'n' then some (Char.ofNat 10)
  else if e = 'r' then some (Char.ofNat 13)
  else if e = 't' then some (Char.ofNat 9)
  else none

/-- Put a decoded character in front of the rest of a decoded string. -/
def consChar (c : Char) : Option (JSString × List Char) → Option (JSString × List Char)
  | some (s, rest) => some (c :: s, rest)
  | none => none

/-- Four hexadecimal digits at the head of the text: their value and the text after. -/
def takeHex4 : List Char → Option (Nat × List Char)
  | a :: b :: c :: d :: rest =>
    match hex4 a b c d with
    | some n => some (n, rest)
    | none => none
  | _ => none

/-- An escape sequence after its backslash: the character it denotes and the text after it.
A `\u` escape of a high surrogate must be followed by the escape of a low surrogate; the
two denote one character. -/
def decodeEscape : List Char → Option (Char × List Char)
  | [] => none
  | e :: rest =>
    if e = 'u' then
      match takeHex4 rest with
      | none => none
      | some (n, rest2) =>
        if n < 0xD800 ∨ 0xDFFF < n then some (Char.ofNat n, rest2)
        else
          match rest2 with
          | b2 :: u2 :: rest3 =>
            match takeHex4 rest3 with
            | none => none
            | some (m, rest4) =>
              if b2 = backslash ∧ u2 = 'u' ∧ n < 0xDC00 ∧ 0xDC00 ≤ m ∧ m ≤ 0xDFFF then
                some (Char.ofNat (0x10000 + (n - 0xD800) * 0x400 + (m - 0xDC00)), rest4)
              else none
          | _ => none
    else
      match unescape e with
      | some ch => some (ch, rest)
      | none => none

/-- A JSON string token after its opening quote, reading at most `fuel` characters: the
decoded string and the text after the closing quote. -/
def parseStringAux : Nat → List Char → Option (JSString × List Char)
  | 0, _ => none
  | _ + 1, [] => none
  | fuel + 1, c :: rest =>
    if c = dquote then some ([], rest)
    else if c = backslash then
      match decodeEscape rest with
      | some (ch, rest1) => consChar ch (parseStringAux fuel rest1)
      | none => none
    else if c.toNat < 32 then none
    else consChar c (parseStringAux fuel rest)

/-- A JSON string token after its opening quote. -/
def parseString (s : List Char) : Option (JSString × List Char) := parseStringAux s.length s

/-- Read a run of decimal digits, accumulating their value. -/
def parseDigits : Nat → List Char → Nat × List Char
  | acc, [] => (acc, [])
  | acc, c :: rest =>
    if isDigit c then parseDigits (acc * 10 + (c.toNat - 48)) rest else (acc, c :: rest)

/-- An unsigned JSON integer token: `0`, or a digit `1`..`9` followed by digits. A leading
zero followed by a digit, and a fraction or exponent part, are not accepted. -/
def parseNat : List Char → Option (Nat × List Char)
  | [] => none
  | c :: rest =>
    if !isDigit c then none
    else
      let r := if c = '0' then (0, rest) else parseDigits (c.toNat - 48) rest
      match r.2 with
      | [] => some r
      | d :: _ =>
        if isDigit d || d = '.' || d = 'e' || d = 'E' then none else some r

/-- A JSON number token of the integer fragment. -/
def parseNumber : List Char → Option (JSValue × List Char)
  | [] => none
  | c :: rest =>
    if c = '-' then
      match parseNat rest with
      | some (n, r) => some (JSValue.num (-(n : Int)), r)
      | none => none
    else
      match parseNat (c :: rest) with
      | some (n, r) => some (JSValue.num (n : Int), r)
      | none => none

/-- Match a keyword at the head of the text. -/
def afterKeyword (kw s : List Char) : Option (List Char) :=
  if kw.isPrefixOf s then some (s.drop kw.length) else none

mutual
/-- A JSON value, with `fuel` bounding the nesting of recursive calls. -/
def parseValue : Nat → List Char → Option (JSValue × List Char)
  | 0, _ => none
  | fuel + 1, s =>
    match skipWs s with
    | [] => none
    | c :: rest =>
      if c = '[' then
        match skipWs rest with
        | [] => none
        | c2 :: rest2 =>
          if c2 = ']' then some (JSValue.arr [], rest2)
          else
            match parseElems fuel (c2 :: rest2) with
            | some (xs, r) => some (JSValue.arr xs, r)
            | none => none
      else if c = '{' then
        match skipWs rest with
        | [] => none
        | c2 :: rest2 =>
          if c2 = '}' then some (JSValue.obj [], rest2)
          else
            match parseMembers fuel (c2 :: rest2) [] with
            | some (kvs, r) => some (JSValue.obj kvs, r)
            | none => none
      else if c = dquote then
        match parseString rest with
        | some (str, r) => some (JSValue.str str, r)
        | none => none
      else if c = 'n' then
        match afterKeyword ['u', 'l', 'l'] rest with
        | some r => some (JSValue.null, r)
        | none => none
      else if c = 't' then
        match afterKeyword ['r', 'u', 'e'] rest with
        | some r => some (JSValue.bool true, r)
        | none => none
      else if c = 'f' then
        match afterKeyword ['a', 'l', 's', 'e'] rest with
        | some r => some (JSValue.bool false, r)
        | none => none
      else parseNumber (c :: rest)
/-- The elements of a non-empty array up to and including the closing bracket. -/
def parseElems : Nat → List Char → Option (List JSValue × List Char)
  | 0, _ => none
  | fuel + 1, s =>
    match parseValue fuel s with
    | none => none
    | some (v, rest) =>
      match skipWs rest with
      | [] => none
      | c :: rest2 =>
        if c = ',' then
          match parseElems fuel rest2 with
          | some (vs, r) => some (v :: vs, r)
          | none => none
        else if c = ']' then some ([v], rest2)
        else none
/-- The members of a non-empty object up to and including the closing brace, added to the
properties `acc` read so far; a repeated key overwrites the earlier value. -/
def parseMembers : Nat → List Char → Row → Option (Row × List Char)
  | 0, _, _ => none
  | fuel + 1, s, acc =>
    match skipWs s with
    | [] => none
    | q :: rest =>
      if q = dquote then
        match parseString rest with
        | none => none
        | some (k, rest1) =>
          match skipWs rest1 with
          | [] => none
          | colon :: rest2 =>
            if colon = ':' then
              match parseValue fuel rest2 with
              | none => none
              | some (v, rest3) =>
                match skipWs rest3 with
                | [] => none
                | c :: rest4 =>
                  if c = ',' then parseMembers fuel rest4 (setProp acc k v)
                  else if c = '}' then some (setProp acc k v, rest4)
                  else none
            else none
      else none
end

/-- The builtin `JSON.parse` applied to one argument: `none` stands for the SyntaxError it
throws. -/
def JSON_parse (s : JSString) : Option JSValue :=
  match parseValue (s.length + 1) s with
  | some (v, rest) => if (skipWs rest).isEmpty then some v else none
  | none => none

/-! ## JSON values and their size -/

mutual
/-- The values a JSON text denotes: no `undefined` anywhere, and the keys of every object
are pairwise distinct. -/
def isJSONValue : JSValue → Bool
  | JSValue.undefined => false
  | JSValue.null => true
  | JSValue.bool _ => true
  | JSValue.num _ => true
  | JSValue.str _ => true
  | JSValue.arr xs => allJSON xs
  | JSValue.obj kvs => fieldsJSON kvs
/-- Every element is a JSON value. -/
def allJSON : List JSValue → Bool
  | [] => true
  | x :: xs => isJSONValue x && allJSON xs
/-- Every property value is a JSON value and no key occurs twice. -/
def fieldsJSON : List (JSString × JSValue) → Bool
  | [] => true
  | (k, v) :: rest => isJSONValue v && !(rest.map Prod.fst).contains k && fieldsJSON rest
end

mutual
/-- Number of nodes of a value; bounds the recursion depth the parser needs for its text. -/
def jsonSize : JSValue → Nat
  | JSValue.arr xs => 1 + sizeElems xs
  | JSValue.obj kvs => 1 + sizeFields kvs
  | _ => 1
/-- Nodes of the elements of an array. -/
def sizeElems : List JSValue → Nat
  | [] => 0
  | x :: xs => 1 + jsonSize x + sizeElems xs
/-- Nodes of the property values of an object. -/
def sizeFields : List (JSString × JSValue) → Nat
  | [] => 0
  | (_, v) :: rest => 1 + jsonSize v + sizeFields rest
end

/-- The text after a number token does not continue it. -/
def numEnd (rest : List Char) : Prop :=
  ∀ c tl, rest = c :: tl → (isDigit c || c = '.' || c = 'e' || c = 'E') = false

/-- The text of the elements of a non-empty array, from the first element up to and
including the closing bracket. -/
def elemsText : List JSValue → List Char
  | [] => []
  | x :: xs => stringifyValue x ++ stringifyRest xs

/-! ## Conversions and comparisons -/

mutual
/-- The abstract operation ToString, as applied by a template literal. -/
def toStr : JSValue → JSString
  | JSValue.undefined => "undefined".toList
  | JSValue.null => "null".toList
  | JSValue.bool true => "true".toList
  | JSValue.bool false => "false".toList
  | JSValue.num n => intToString n
  | JSValue.str s => s
  | JSValue.arr xs => joinElems xs
  | JSValue.obj _ => "[object Object]".toList
/-- The method `Array.prototype.join` with the default separator: `null` and `undefined`
elements are rendered as the empty string. -/
def joinElems : List JSValue → JSString
  | [] => []
  | x :: xs =>
    (match x with
      | JSValue.undefined => []
      | JSValue.null => []
      | v => toStr v) ++
    (match xs with
      | [] => []
      | _ => ',' :: joinElems xs)
end

/-- The method `Array.prototype.join` on strings with a one-character separator. -/
def joinWith (sep : Char) : List JSString → JSString
  | [] => []
  | [s] => s
  | s :: rest => s ++ sep :: joinWith sep rest

/-- The operator `a || b`. -/
def jsOr (a b : JSValue) : JSValue := if truthy a then a else b

/-- The operator `===`. Arrays and objects are compared by identity; two values that reach
a handler from different rows or responses are never the same object. -/
def strictEq : JSValue → JSValue → Bool
  | JSValue.undefined, JSValue.undefined => true
  | JSValue.null, JSValue.null => true
  | JSValue.bool a, JSValue.bool b => a == b
  | JSValue.num a, JSValue.num b => a == b
  | JSValue.str a, JSValue.str b => a == b
  | _, _ => false

/-- The comparison SameValueZero of `Array.prototype.includes`; on the values of the
embedding (no NaN) it coincides with `===`. -/
def sameValueZero (a b : JSValue) : Bool := strictEq a b

/-- The method `Array.prototype.includes` on an array of strings. -/
def includes (xs : List JSString) (v : JSValue) : Bool :=
  xs.any (fun t => sameValueZero (JSValue.str t) v)

/-- Value of a run of decimal digits, `none` if another character occurs. -/
def digitsValue : Nat → List Char → Option Nat
  | acc, [] => some acc
  | acc, c :: rest => if isDigit c then digitsValue (acc * 10 + (c.toNat - 48)) rest else none

/-- The digits of a StrUnsignedDecimalLiteral read as an integer: `none` when the run is
empty or holds another character. -/
def decimalDigits (ds : List Char) : Option Nat :=
  if ds.isEmpty then none else digitsValue 0 ds

/-- The optional ExponentPart that ends a decimal numeral: nothing left is the exponent `0`,
otherwise `e` or `E`, an optional sign and at least one digit. -/
def exponentValue : List Char → Option Int
  | [] => some 0
  | c :: rest =>
    if c = 'e' ∨ c = 'E' then
      (match rest with
        | [] => none
        | s :: ds =>
          if s = '-' then (decimalDigits ds).map (fun n => -(n : Int))
          else if s = '+' then (decimalDigits ds).map (fun n => (n : Int))
          else (decimalDigits (s :: ds)).map (fun n => (n : Int)))
    else none

/-- The number `m * 10 ^ e` when it is an integer. -/
def scaleDecimal (m : Nat) : Int → Option Nat
  | Int.ofNat k => some (m * 10 ^ k)
  | Int.negSucc k => if m % 10 ^ (k + 1) = 0 then some (m / 10 ^ (k + 1)) else none

/-- The value of a StrUnsignedDecimalLiteral (`12`, `12.`, `12.50`, `.5`, each with an
optional exponent) when it is an integer; `none` for a value with a fractional part, for
`Infinity` and for text that is not a numeral. -/
def unsignedDecimal (text : List Char) : Option Nat :=
  let whole := text.takeWhile isDigit
  match text.dropWhile isDigit with
  | [] => decimalDigits whole
  | c :: rest =>
    if c = '.' then
      let frac := rest.takeWhile isDigit
      if whole.isEmpty && frac.isEmpty then none
      else
        match digitsValue 0 (whole ++ frac), exponentValue (rest.dropWhile isDigit) with
        | some m, some e => scaleDecimal m (e - (frac.length : Int))
        | _, _ => none
    else
      match decimalDigits whole, exponentValue (c :: rest) with
      | some m, some e => scaleDecimal m e
      | _, _ => none

/-- The value of a StrDecimalLiteral: an optional sign and an unsigned decimal numeral. -/
def signedDecimal : List Char → Option Int
  | [] => none
  | c :: rest =>
    if c = '-' then (unsignedDecimal rest).map (fun n => -(n : Int))
    else if c = '+' then (unsignedDecimal rest).map (fun n => (n : Int))
    else (unsignedDecimal (c :: rest)).map (fun n => (n : Int))

/-- The radix announced by the second character of a NonDecimalIntegerLiteral (`0x`, `0o`,
`0b`, either case); `0` for any other character. -/
def radixOf (c : Char) : Nat :=
  if c = 'x' ∨ c = 'X' then 16
  else if c = 'o' ∨ c = 'O' then 8
  else if c = 'b' ∨ c = 'B' then 2
  else 0

/-- Value of a run of digits in the given radix, `none` if another character occurs. -/
def radixDigitsValue (radix : Nat) : Nat → List Char → Option Nat
  | acc, [] => some acc
  | acc, c :: rest =>
    match hexVal c with
    | some d => if d < radix then radixDigitsValue radix (acc * radix + d) rest else none
    | none => none

/-- The value of a NonDecimalIntegerLiteral: `0`, a radix mark and at least one digit of
that radix, without sign; `none` for any other text. -/
def radixLiteral : List Char → Option Int
  | z :: p :: d :: rest =>
    if z = '0' ∧ radixOf p ≠ 0 then
      (radixDigitsValue (radixOf p) 0 (d :: rest)).map (fun n => (n : Int))
    else none
  | _ => none

/-- The abstract operation StringToNumber, as far as its result is an integer: surrounding
whitespace is ignored, the empty string is `0`, and the text is a binary, octal or
hexadecimal literal or a signed decimal literal with optional fraction and exponent.
The result `none` stands for every number that equals no integer: NaN (text that is not a
numeral), the infinities and the values with a fractional part. Integers are exact: the
rounding of IEEE doubles beyond 2^53 is not part of the embedding. -/
def stringToNumber (s : JSString) : Option Int :=
  match trim s with
  | [] => some 0
  | c :: rest =>
    match radixLiteral (c :: rest) with
    | some n => some n
    | none => signedDecimal (c :: rest)

/-- The abstract operation ToPrimitive: arrays and plain objects become strings. -/
def toPrimitive : JSValue → JSValue
  | JSValue.arr xs => JSValue.str (toStr (JSValue.arr xs))
  | JSValue.obj kvs => JSValue.str (toStr (JSValue.obj kvs))
  | v => v

/-- The abstract operation ToNumber on primitives; `none` stands for NaN and, for a string,
for every other number that equals no integer. -/
def toNumber : JSValue → Option Int
  | JSValue.undefined => none
  | JSValue.null => some 0
  | JSValue.bool true => some 1
  | JSValue.bool false => some 0
  | JSValue.num n => some n
  | JSValue.str s => stringToNumber s
  | _ => none

/-- Whether a value is `null` or `undefined`. -/
def isNullish : JSValue → Bool
  | JSValue.undefined => true
  | JSValue.null => true
  | _ => false

/-- Whether a value is an array or an object. -/
def isObject : JSValue → Bool
  | JSValue.arr _ => true
  | JSValue.obj _ => true
  | _ => false

/-- The operator `==` (IsLooselyEqual): `null` and `undefined` equal each other and nothing
else, two objects are compared by identity, two strings by content, and every other pair
numerically after ToPrimitive and ToNumber. -/
def looseEq (x y : JSValue) : Bool :=
  if isNullish x || isNullish y then isNullish x && isNullish y
  else if isObject x && isObject y then false
  else
    match toPrimitive x, toPrimitive y with
    | JSValue.str a, JSValue.str b => a == b
    | a, b =>
      match toNumber a, toNumber b with
      | some m, some n => m == n
      | _, _ => false

/-! ## Responses, database results and external calls -/

/-- An HTTP response: status code and JSON body. -/
structure Response where
  status : Nat
  body : JSValue

/-- The result object of a database client call: either `data` or an `error` whose
`message` the handlers forward. -/
inductive DbResult (α : Type) where
  | ok (data : α) : DbResult α
  | error (message : JSValue) : DbResult α

/-- An attachment of a mail: `path` and `filename`. -/
structure Attachment where
  path : JSString
  filename : JSString

/-- The options object handed to `transporter.sendMail`; `sender` and `recipient` are its
`from` and `to` properties. -/
structure MailOptions where
  sender : JSString
  recipient : JSValue
  subject : JSString
  html : JSString
  attachments : List Attachment

/-- The calls a handler issues to the outside world. -/
inductive ExtCall where
  | dbSelect (table : JSString) : ExtCall
  | dbSelectOrdered (table : JSString) (column : JSString) : ExtCall
  | dbSelectRange (table : JSString) (first last : Int) : ExtCall
  | dbSelectSingle (table : JSString) (column : JSString) (value : JSValue) : ExtCall
  | dbInsert (table : JSString) (row : Row) : ExtCall
  | inference (prompt : JSString) : ExtCall
  | sendMail (options : MailOptions) : ExtCall
  | unlink (path : JSString) : ExtCall
  | authSignUp (email password : JSValue) : ExtCall
  | authSignIn (email password : JSValue) : ExtCall

/-- Whether a call is a `sendMail`. -/
def ExtCall.isSendMail : ExtCall → Bool
  | ExtCall.sendMail _ => true
  | _ => false

/-- Whether a call is an `unlink`. -/
def ExtCall.isUnlink : ExtCall → Bool
  | ExtCall.unlink _ => true
  | _ => false

/-- Whether a call is an insert into the given table. -/
def ExtCall.isInsertInto (table : JSString) : ExtCall → Bool
  | ExtCall.dbInsert t _ => t == table
  | _ => false

/-- The body `{ error: message }` of a failure response. -/
def errorBody (message : JSValue) : JSValue := JSValue.obj [("error".toList, message)]

/-! ## GET and POST /opportunities -/

/-- The helper `parseIfJSON` of GET /opportunities (lines 134-148). The builtin `JSON.parse`
is the parameter `parse`, with `none` for a thrown SyntaxError. -/
def parseIfJSON (parse : JSString → Option JSValue) (field : JSValue) : JSValue :=
  match field with
  | JSValue.str s =>
    let trimmed := trim s
    if startsWith trimmed ['['] || startsWith trimmed ['{'] then
      match parse trimmed with
      | some v => v
      | none => field
    else field
  | _ => field

/-- The four array-typed fields of an opportunity, in the order the handlers treat them. -/
def arrayFields : List JSString :=
  ["qualificationsAndRequirements".toList, "tags".toList, "benefits".toList,
    "experienceRequired".toList]

/-- One conversion of POST /opportunities: `if (o.f && Array.isArray(o.f)) o.f =
JSON.stringify(o.f)`. -/
def encodeField (o : Row) (f : JSString) : Row :=
  if truthy (getProp o f) && isArray (getProp o f) then
    setProp o f (JSValue.str (JSON_stringify (getProp o f)))
  else o

/-- The record POST /opportunities hands to the database (lines 217-246). -/
def encodeOpportunity (body : Row) : Row := arrayFields.foldl encodeField body

/-- One assignment `item.f = parseIfJSON(item.f)`. -/
def decodeField (parse : JSString → Option JSValue) (o : Row) (f : JSString) : Row :=
  setProp o f (parseIfJSON parse (getProp o f))

/-- The record GET /opportunities returns for a row (lines 130-160). -/
def decodeOpportunity (parse : JSString → Option JSValue) (item : Row) : Row :=
  arrayFields.foldl (decodeField parse) item

/-- The handler of GET /opportunities. -/
def getOpportunities (parse : JSString → Option JSValue) (db : DbResult (List Row)) :
    Response × List ExtCall :=
  let trace := [ExtCall.dbSelectOrdered "opportunities".toList "id".toList]
  match db with
  | DbResult.error m => (⟨500, errorBody m⟩, trace)
  | DbResult.ok data =>
    (⟨200, JSValue.arr (data.map (fun item => JSValue.obj (decodeOpportunity parse item)))⟩,
      trace)

/-- The handler of POST /opportunities; `db` is the outcome of the insert, given the
record. -/
def postOpportunities (parse : JSString → Option JSValue) (body : Row)
    (db : Row → DbResult Unit) : Response × List ExtCall :=
  let newOpportunity := encodeOpportunity body
  let trace := [ExtCall.dbInsert "opportunities".toList newOpportunity]
  match db newOpportunity with
  | DbResult.error m =>
    (⟨500, JSValue.obj [("status".toList, JSValue.str "error".toList),
      ("message".toList, m)]⟩, trace)
  | DbResult.ok _ =>
    (⟨201, JSValue.obj [("status".toList, JSValue.str "success".toList),
      ("newOpportunity".toList, JSValue.obj (decodeOpportunity parse newOpportunity))]⟩, trace)

/-- The first character of the text of a value starts a token: it is neither whitespace nor
a closing bracket or brace. -/
def tokenStart (s : List Char) : Prop :=
  ∃ c tl, s = c :: tl ∧ isJSONWhiteSpace c = false ∧ c ≠ ']' ∧ c ≠ '}'

/-! ## GET /world-universities -/

/-- The reference table of the university directory. -/
def universitiesTable : JSString := "world-universities-and-domains".toList

/-- The database call `.range(first, last)` on a table held as a finite list: the rows with
index `first` to `last`, both included. -/
def tableRange (table : List Row) (first last : Int) : DbResult (List Row) :=
  DbResult.ok
    (if last < first then [] else (table.drop first.toNat).take (last - first + 1).toNat)

/-- The pagination loop of GET /world-universities (lines 944-970) with page size `limit`,
from the state `offset`, `allData`; `trace` holds the calls issued so far. One unit of
`fuel` is one iteration; `none` means the fuel ran out before the loop ended. The result is
the accumulated `allData`, or the error that ended the loop. -/
def fetchAllPages (range : Int → Int → DbResult (List Row)) (limit : Nat) :
    Nat → Nat → List Row → List ExtCall → Option (DbResult (List Row) × List ExtCall)
  | 0, _, _, _ => none
  | fuel + 1, offset, allData, trace =>
    let first : Int := (offset : Int)
    let last : Int := (offset : Int) + (limit : Int) - 1
    let trace2 := trace ++ [ExtCall.dbSelectRange universitiesTable first last]
    match range first last with
    | DbResult.error m => some (DbResult.error m, trace2)
    | DbResult.ok data =>
      if data.length = 0 then some (DbResult.ok allData, trace2)
      else if data.length < limit then some (DbResult.ok (allData ++ data), trace2)
      else fetchAllPages range limit fuel (offset + limit) (allData ++ data) trace2

/-- The `domains` and `web_pages` normalization (lines 974-992): a string is parsed, and a
string that does not parse is wrapped in a one-element array. -/
def parseOrWrap (parse : JSString → Option JSValue) (field : JSValue) : JSValue :=
  match field with
  | JSValue.str s =>
    (match parse s with
      | some v => v
      | none => JSValue.arr [JSValue.str s])
  | v => v

/-- The `state-province` normalization (lines 994-1000). -/
def normalizeStateProvince (field : JSValue) : JSValue :=
  match field with
  | JSValue.str s => if (trim s).isEmpty then JSValue.null else JSValue.str s
  | v => v

/-- The record GET /world-universities returns for a row (lines 973-1008). -/
def normalizeUniversity (parse : JSString → Option JSValue) (item : Row) : Row :=
  setProp
    (setProp
      (setProp item "domains".toList (parseOrWrap parse (getProp item "domains".toList)))
      "web_pages".toList (parseOrWrap parse (getProp item "web_pages".toList)))
    "state-province".toList (normalizeStateProvince (getProp item "state-province".toList))

/-- The handler of GET /world-universities, with the page size as a parameter (the source
fixes it to `1000`). -/
def getWorldUniversitiesWith (parse : JSString → Option JSValue)
    (range : Int → Int → DbResult (List Row)) (limit fuel : Nat) :
    Option (Response × List ExtCall) :=
  match fetchAllPages range limit fuel 0 [] [] with
  | none => none
  | some (DbResult.error m, trace) => some (⟨500, errorBody m⟩, trace)
  | some (DbResult.ok allData, trace) =>
    some (⟨200, JSValue.arr (allData.map (fun item =>
      JSValue.obj (normalizeUniversity parse item)))⟩, trace)

/-- The handler of GET /world-universities. -/
def getWorldUniversities (parse : JSString → Option JSValue)
    (range : Int → Int → DbResult (List Row)) (fuel : Nat) : Option (Response × List ExtCall) :=
  getWorldUniversitiesWith parse range 1000 fuel

/-! ## POST /smart-search -/

/-- The literal text the pattern starts with: `Matching IDs: [`. -/
def matchLiteral : JSString := "Matching IDs: [".toList

/-- The characters the pattern atom `.` does not match: the line terminators. -/
def isLineTerminator (c : Char) : Bool :=
  c.toNat = 0x0A || c.toNat = 0x0D || c.toNat = 0x2028 || c.toNat = 0x2029

/-- The part `(.*?)\]` of the pattern at the current position: the shortest run of
characters other than line terminators that is followed by `]`. -/
def captureToBracket : List Char → Option JSString
  | [] => none
  | c :: rest =>
    if c = ']' then some []
    else if isLineTerminator c then none
    else
      match captureToBracket rest with
      | some cap => some (c :: cap)
      | none => none

/-- The pattern `/Matching IDs: \[(.*?)\]/` tried at the start of the text: the capture
group of the match. -/
def matchAt (s : JSString) : Option JSString :=
  if startsWith s matchLiteral then captureToBracket (s.drop matchLiteral.length) else none

/-- The call `reply.match(/Matching IDs: \[(.*?)\]/)`: the capture group of the leftmost
match, `none` when the pattern matches nowhere (the call returns `null`). -/
def regexMatch : JSString → Option JSString
  | [] => none
  | c :: rest =>
    match matchAt (c :: rest) with
    | some cap => some cap
    | none => regexMatch rest

/-- The call `s.split(",")`. -/
def splitComma : JSString → List JSString
  | [] => [[]]
  | c :: rest =>
    if c = ',' then [] :: splitComma rest
    else
      match splitComma rest with
      | [] => [[c]]
      | t :: ts => (c :: t) :: ts

/-- The identifiers extracted from the reply (lines 890-893). -/
def matchingIds (reply : JSString) : List JSString :=
  match regexMatch reply with
  | some cap => (splitComma cap).map trim
  | none => []

/-- The join `accountsData.find((acc) => acc.id === app.user_id) || {}`. -/
def findUser (accountsData : List Row) (app : Row) : Row :=
  (accountsData.find?
    (fun acc => strictEq (getProp acc "id".toList) (getProp app "user_id".toList))).getD []

/-- The join `opportunitiesData.find((opp) => opp.id == app.opportunity_id) || {}`. -/
def findOpportunity (opportunitiesData : List Row) (app : Row) : Row :=
  (opportunitiesData.find?
    (fun opp => looseEq (getProp opp "id".toList) (getProp app "opportunity_id".toList))).getD []

/-- The descriptive line of one application (lines 848-856). -/
def documentLine (accountsData opportunitiesData : List Row) (app : Row) : JSString :=
  let user := findUser accountsData app
  let opportunity := findOpportunity opportunitiesData app
  "[ID: ".toList ++ toStr (getProp app "application_id".toList) ++
  "] Applicant \"".toList ++ toStr (getProp user "name_and_surname".toList) ++
  "\" from University \"".toList ++ toStr (getProp user "university_name".toList) ++
  "\" located at \"".toList ++ toStr (getProp user "university_location".toList) ++
  "\" applied for \"".toList ++ toStr (getProp opportunity "title".toList) ++
  "\" opportunity from \"".toList ++ toStr (getProp opportunity "location".toList) ++
  "\" on application date of \"".toList ++ toStr (getProp app "application_date".toList) ++
  "\".".toList

/-- The prompt sent to the inference endpoint (lines 858-860). -/
def buildPrompt (query : JSValue) (documents : List JSString) : JSString :=
  "Find the most relevant matches for this query: \"".toList ++ toStr query ++
  "\". Here are the applications:\n".toList ++ joinWith '\n' documents ++
  ("\n\nPlease return only the application IDs that match the query. " ++
    "Provide the IDs in the following format:\n\n\"Matching IDs: [1, 2, 3]\"").toList

/-- The response record of one selected application (lines 898-914). -/
def enrich (accountsData opportunitiesData : List Row) (app : Row) : JSValue :=
  let user := findUser accountsData app
  let opportunity := findOpportunity opportunitiesData app
  JSValue.obj [
    ("application_id".toList, getProp app "application_id".toList),
    ("application_date".toList, getProp app "application_date".toList),
    ("applicant_name".toList, getProp user "name_and_surname".toList),
    ("applicant_email".toList, getProp user "email".toList),
    ("university_name".toList, getProp user "university_name".toList),
    ("university_location".toList, getProp user "university_location".toList),
    ("opportunity_title".toList, getProp opportunity "title".toList),
    ("opportunity_location".toList, getProp opportunity "location".toList)]

/-- The outcome of the `fetch` to the inference endpoint: the call or the decoding of its
body threw, the response was not `ok`, or the decoded JSON body. -/
inductive InferenceOutcome where
  | threw : InferenceOutcome
  | notOk (statusText : JSString) : InferenceOutcome
  | ok (data : JSValue) : InferenceOutcome

/-- The expression `deepSeekResponseData.response` when it is a string on which `.match`
can be called; `none` when reading the property or calling `.match` throws a TypeError. -/
def replyText : JSValue → Option JSString
  | JSValue.obj kvs =>
    (match getProp kvs "response".toList with
      | JSValue.str s => some s
      | _ => none)
  | _ => none

/-- What POST /smart-search meets outside the process: the three table snapshots and the
inference endpoint, as a function of the prompt. -/
structure SearchWorld where
  accounts : DbResult (List Row)
  opportunities : DbResult (List Row)
  applications : DbResult (List Row)
  inference : JSString → InferenceOutcome

/-- The failure response of the `catch` block of POST /smart-search. -/
def searchFailure : Response :=
  ⟨500, errorBody (JSValue.str "Failed to perform smart search".toList)⟩

/-- The handler of POST /smart-search (lines 807-922) on a request body. -/
def smartSearch (body : Row) (w : SearchWorld) : Response × List ExtCall :=
  let query := getProp body "query".toList
  if !truthy query then (⟨400, errorBody (JSValue.str "Query is required".toList)⟩, [])
  else
    match w.accounts with
    | DbResult.error m => (⟨500, errorBody m⟩, [ExtCall.dbSelect "accounts".toList])
    | DbResult.ok accountsData =>
      match w.opportunities with
      | DbResult.error m =>
        (⟨500, errorBody m⟩,
          [ExtCall.dbSelect "accounts".toList, ExtCall.dbSelect "opportunities".toList])
      | DbResult.ok opportunitiesData =>
        match w.applications with
        | DbResult.error m =>
          (⟨500, errorBody m⟩,
            [ExtCall.dbSelect "accounts".toList, ExtCall.dbSelect "opportunities".toList,
              ExtCall.dbSelect "applications".toList])
        | DbResult.ok applicationsData =>
          let documents := applicationsData.map (documentLine accountsData opportunitiesData)
          let prompt := buildPrompt query documents
          let trace := [ExtCall.dbSelect "accounts".toList,
            ExtCall.dbSelect "opportunities".toList, ExtCall.dbSelect "applications".toList,
            ExtCall.inference prompt]
          match w.inference prompt with
          | InferenceOutcome.threw => (searchFailure, trace)
          | InferenceOutcome.notOk _ => (searchFailure, trace)
          | InferenceOutcome.ok data =>
            match replyText data with
            | none => (searchFailure, trace)
            | some reply =>
              let ids := matchingIds reply
              let enrichedResults :=
                (applicationsData.filter
                  (fun app => includes ids (getProp app "application_id".toList))).map
                  (enrich accountsData opportunitiesData)
              (⟨200, JSValue.arr enrichedResults⟩, trace)

/-- The selection of smart-search as the specification words it: the application
identifier is a string equal to one of the tokens. -/
def specSelected (tokens : List JSString) (app : Row) : Bool :=
  match getProp app "application_id".toList with
  | JSValue.str s => decide (s ∈ tokens)
  | _ => false

/-- A world for examples: three empty tables and an inference endpoint that is down. -/
def emptyWorld : SearchWorld :=
  ⟨DbResult.ok [], DbResult.ok [], DbResult.ok [], fun _ => InferenceOutcome.threw⟩

/-- Example accounts table: one account with the string identifier `"42"`. -/
def sampleAccounts : List Row :=
  [[("id".toList, JSValue.str "42".toList), ("name_and_surname".toList, JSValue.str "Ada".toList),
    ("email".toList, JSValue.str "ada@example.org".toList)]]

/-- Example opportunities table: one opportunity with the numeric identifier `7`. -/
def sampleOpportunities : List Row :=
  [[("id".toList, JSValue.num 7), ("title".toList, JSValue.str "Intern".toList),
    ("contactPersonEmail".toList, JSValue.str "hr@example.org".toList)]]

/-- Example applications table: one application whose identifier is the string
`"1700000000000"` and one whose identifier is the number `7`. -/
def sampleApplications : List Row :=
  [[("application_id".toList, JSValue.str "1700000000000".toList),
      ("user_id".toList, JSValue.str "42".toList),
      ("opportunity_id".toList, JSValue.str "7".toList),
      ("application_date".toList, JSValue.str "2024-01-02".toList)],
    [("application_id".toList, JSValue.num 7), ("user_id".toList, JSValue.str "42".toList),
      ("opportunity_id".toList, JSValue.str "7".toList),
      ("application_date".toList, JSValue.str "2024-01-03".toList)]]

/-- A world for examples: the example tables and an inference endpoint that always answers
with the given reply text. -/
def sampleWorld (reply : JSString) : SearchWorld :=
  ⟨DbResult.ok sampleAccounts, DbResult.ok sampleOpportunities, DbResult.ok sampleApplications,
    fun _ => InferenceOutcome.ok (JSValue.obj [("response".toList, JSValue.str reply)])⟩

/-! ## Dates -/

/-- Milliseconds per day. -/
def msPerDay : Nat := 86400000

/-- The civil date (year, month, day) of the day number `z`, counted from 1970-01-01, in
the proleptic Gregorian calendar. Years are counted in eras of 400 years that start on
1 March, so that the leap day is the last day of a year of the era. -/
def civilFromDays (z : Nat) : Nat × Nat × Nat :=
  let z1 := z + 719468
  let era := z1 / 146097
  let doe := z1 % 146097
  let yoe := (doe - doe / 1460 + doe / 36524 - doe / 146096) / 365
  let y := yoe + era * 400
  let doy := doe - (365 * yoe + yoe / 4 - yoe / 100)
  let mp := (5 * doy + 2) / 153
  let d := doy - (153 * mp + 2) / 5 + 1
  let m := if mp < 10 then mp + 3 else mp - 9
  (if m ≤ 2 then y + 1 else y, m, d)

/-- The day number of a civil date, counted from 0000-03-01 (1970-01-01 is day 719468):
the calendar rule against which `civilFromDays` is checked. -/
def daysFromCivil (y m d : Nat) : Nat :=
  let y1 := if m ≤ 2 then y - 1 else y
  let era := y1 / 400
  let yoe := y1 % 400
  let mp := if 2 < m then m - 3 else m + 9
  let doy := (153 * mp + 2) / 5 + d - 1
  era * 146097 + (yoe * 365 + yoe / 4 - yoe / 100 + doy)

/-- Two decimal digits. -/
def pad2 (n : Nat) : JSString := [digitChar (n / 10 % 10), digitChar (n % 10)]

/-- Three decimal digits. -/
def pad3 (n : Nat) : JSString :=
  [digitChar (n / 100 % 10), digitChar (n / 10 % 10), digitChar (n % 10)]

/-- Four decimal digits. -/
def pad4 (n : Nat) : JSString :=
  [digitChar (n / 1000 % 10), digitChar (n / 100 % 10), digitChar (n / 10 % 10),
    digitChar (n % 10)]

/-- Six decimal digits. -/
def pad6 (n : Nat) : JSString :=
  [digitChar (n / 100000 % 10), digitChar (n / 10000 % 10), digitChar (n / 1000 % 10),
    digitChar (n / 100 % 10), digitChar (n / 10 % 10), digitChar (n % 10)]

/-- The year of an ISO date string: four digits up to 9999, the expanded form with a sign
and six digits beyond. -/
def isoYear (y : Nat) : JSString := if y ≤ 9999 then pad4 y else '+' :: pad6 y

/-- The date part of `Date.prototype.toISOString` for the time value `t` (milliseconds
since the epoch, not negative). -/
def isoDate (t : Nat) : JSString :=
  let ymd := civilFromDays (t / msPerDay)
  isoYear ymd.1 ++ '-' :: (pad2 ymd.2.1 ++ '-' :: pad2 ymd.2.2)

/-- The time part of `Date.prototype.toISOString`, without the final `Z`. -/
def isoTime (t : Nat) : JSString :=
  let ms := t % msPerDay
  pad2 (ms / 3600000) ++ ':' :: (pad2 (ms / 60000 % 60) ++ ':' :: (pad2 (ms / 1000 % 60) ++
    '.' :: pad3 (ms % 1000)))

/-- The method `Date.prototype.toISOString`. -/
def toISOString (t : Nat) : JSString := isoDate t ++ 'T' :: (isoTime t ++ ['Z'])

/-- The expression `s.split(sep)[0]` for a one-character separator: the text before the
first occurrence of the separator. -/
def splitHead (sep : Char) (s : JSString) : JSString := s.takeWhile (fun c => c != sep)

/-! ## POST /applications -/

/-- The file object `req.file` of an upload. -/
structure UploadedFile where
  path : JSString
  originalname : JSString

/-- What POST /applications meets outside the process: the two clock readings (`new Date()`
and `Date.now()`), the outcome of the insert as a function of the record, of the two
lookups as functions of the identifier, and of the two `sendMail` calls as functions of the
mail options (`true` when the mail relay accepts the mail). -/
structure ApplicationWorld where
  dateNow : Nat
  idNow : Nat
  insert : Row → DbResult Unit
  account : JSValue → DbResult Row
  opportunity : JSValue → DbResult Row
  sendCompany : MailOptions → Bool
  sendStudent : MailOptions → Bool

/-- The sender address of both mails. -/
def platformSender : JSString := "noreply.company.student.platform@gmail.com".toList

/-- The attachments of both mails: the uploaded file, if any. -/
def attachmentsOf : Option UploadedFile → List Attachment
  | some file => [⟨file.path, file.originalname⟩]
  | none => []

/-- The mail to the company (lines 638-650). -/
def companyMailOptions (accountData opportunityData : Row) (file : Option UploadedFile) :
    MailOptions :=
  let studentName := getProp accountData "name_and_surname".toList
  let studentEmail := getProp accountData "email".toList
  let universityName :=
    jsOr (getProp accountData "university_name".toList) (JSValue.str "N/A".toList)
  let universityLocation :=
    jsOr (getProp accountData "university_location".toList) (JSValue.str "N/A".toList)
  let companyEmail := getProp opportunityData "contactPersonEmail".toList
  let opportunityTitle := getProp opportunityData "title".toList
  { sender := platformSender
    recipient := companyEmail
    subject := "New Application for ".toList ++ toStr opportunityTitle ++
      " through the Student Platform".toList
    html := "<h1>New Application Received</h1>\n      <h3>".toList ++ toStr studentName ++
      " has applied for <b>".toList ++ toStr opportunityTitle ++
      "</b> opportunity.</h3>\n      <p><b>Applicant:</b> ".toList ++ toStr studentName ++
      " (".toList ++ toStr studentEmail ++
      ")</p>\n      <p><b>University:</b> ".toList ++ toStr universityName ++ ", ".toList ++
      toStr universityLocation ++
      "</p>\n      <p><b>Note:</b> If provided, CV will be attached</p>".toList
    attachments := attachmentsOf file }

/-- The mail to the applicant (lines 653-667). -/
def studentMailOptions (accountData opportunityData : Row) (file : Option UploadedFile) :
    MailOptions :=
  let studentName := getProp accountData "name_and_surname".toList
  let studentEmail := getProp accountData "email".toList
  let universityName :=
    jsOr (getProp accountData "university_name".toList) (JSValue.str "N/A".toList)
  let universityLocation :=
    jsOr (getProp accountData "university_location".toList) (JSValue.str "N/A".toList)
  let companyEmail := getProp opportunityData "contactPersonEmail".toList
  let opportunityTitle := getProp opportunityData "title".toList
  { sender := platformSender
    recipient := studentEmail
    subject := "Application Confirmation for ".toList ++ toStr opportunityTitle
    html := "<h1>Application Confirmation</h1>\n      <h3>Thank you for applying for <b>".toList ++
      toStr opportunityTitle ++ " opportunity</b>.</h3>\n      <p><b>Opportunity:</b> ".toList ++
      toStr opportunityTitle ++ "</p>\n      <p><b>Contact Person Email:</b> ".toList ++
      toStr companyEmail ++ "</p>\n      <p><b>Your Name:</b> ".toList ++ toStr studentName ++
      "</p>\n      <p><b>Your Email:</b> ".toList ++ toStr studentEmail ++
      "</p>\n      <p><b>University:</b> ".toList ++ toStr universityName ++ ", ".toList ++
      toStr universityLocation ++ "</p>".toList
    attachments := attachmentsOf file }

/-- The record `newApplication` (lines 580-590). -/
def newApplication (body : Row) (w : ApplicationWorld) : Row :=
  [("application_id".toList, JSValue.str (toStr (JSValue.num (w.idNow : Int)))),
    ("user_id".toList, getProp body "userId".toList),
    ("opportunity_id".toList, getProp body "opportunityId".toList),
    ("application_date".toList, JSValue.str (splitHead 'T' (toISOString w.dateNow)))]

/-- The failure response of the `catch` block of POST /applications. -/
def applicationFailure : Response :=
  ⟨500, errorBody (JSValue.str "Error processing the application".toList)⟩

/-- The cleanup after dispatch: `if (file) fs.unlink(file.path, ...)`. -/
def cleanupCalls : Option UploadedFile → List ExtCall
  | some file => [ExtCall.unlink file.path]
  | none => []

/-- The handler of POST /applications (lines 568-690) on the fields of the multipart body
and the optional uploaded file. -/
def postApplications (body : Row) (file : Option UploadedFile) (w : ApplicationWorld) :
    Response × List ExtCall :=
  let userId := getProp body "userId".toList
  let opportunityId := getProp body "opportunityId".toList
  let record := newApplication body w
  let t1 := [ExtCall.dbInsert "applications".toList record]
  match w.insert record with
  | DbResult.error m => (⟨500, errorBody m⟩, t1)
  | DbResult.ok _ =>
    let t2 := t1 ++ [ExtCall.dbSelectSingle "accounts".toList "id".toList userId]
    match w.account userId with
    | DbResult.error m => (⟨500, errorBody m⟩, t2)
    | DbResult.ok accountData =>
      let t3 := t2 ++ [ExtCall.dbSelectSingle "opportunities".toList "id".toList opportunityId]
      match w.opportunity opportunityId with
      | DbResult.error m => (⟨500, errorBody m⟩, t3)
      | DbResult.ok opportunityData =>
        let companyMail := companyMailOptions accountData opportunityData file
        let studentMail := studentMailOptions accountData opportunityData file
        let t4 := t3 ++ [ExtCall.sendMail companyMail]
        if !w.sendCompany companyMail then (applicationFailure, t4)
        else
          let t5 := t4 ++ [ExtCall.sendMail studentMail]
          if !w.sendStudent studentMail then (applicationFailure, t5)
          else
            (⟨201, JSValue.obj [("status".toList, JSValue.str "success".toList),
              ("data".toList, JSValue.obj record)]⟩, t5 ++ cleanupCalls file)

/-- A world for examples: the clock reads 2024-01-02T03:04:05.006Z, the insert succeeds,
the account `"42"` and the opportunity `"7"` exist and no other, and the mail relay accepts
the mail to the company when `companyOk` and the mail to the applicant when `studentOk`. -/
def sampleApplicationWorld (companyOk studentOk : Bool) : ApplicationWorld :=
  { dateNow := 1704164645006
    idNow := 1704164645007
    insert := fun _ => DbResult.ok ()
    account := fun id =>
      if strictEq id (JSValue.str "42".toList) then
        DbResult.ok [("id".toList, JSValue.str "42".toList),
          ("name_and_surname".toList, JSValue.str "Ada".toList),
          ("email".toList, JSValue.str "ada@example.org".toList)]
      else DbResult.error (JSValue.str "no rows".toList)
    opportunity := fun id =>
      if strictEq id (JSValue.str "7".toList) then
        DbResult.ok [("id".toList, JSValue.num 7), ("title".toList, JSValue.str "Intern".toList),
          ("contactPersonEmail".toList, JSValue.str "hr@example.org".toList)]
      else DbResult.error (JSValue.str "no rows".toList)
    sendCompany := fun _ => companyOk
    sendStudent := fun _ => studentOk }

/-- The body of the example request: `userId = "42"`, `opportunityId = "7"`. -/
def sampleApplicationBody : Row :=
  [("userId".toList, JSValue.str "42".toList), ("opportunityId".toList, JSValue.str "7".toList)]

/-- An uploaded file for examples. -/
def sampleFile : UploadedFile :=
  ⟨"uploads/1704164645000-123-cv.pdf".toList, "cv.pdf".toList⟩

/-! ## The remaining routes and the router -/

/-- The result of a call to the authentication client: `data`, an `error` whose `message`
the handlers forward, or an exception (the `catch` block of the handler). -/
inductive AuthOutcome where
  | ok (data : Row) : AuthOutcome
  | error (message : JSValue) : AuthOutcome
  | threw : AuthOutcome

/-- The handler of GET / (lines 64-68). -/
def getRoot : Response × List ExtCall :=
  (⟨200, JSValue.str ("Welcome to the API. Use /opportunities, /accounts, /applications, " ++
    "/smart-search or /world-universities to fetch data.").toList⟩, [])

/-- The handler of POST /auth/signup (lines 82-97). -/
def postSignup (body : Row) (signUp : JSValue → JSValue → AuthOutcome) :
    Response × List ExtCall :=
  let email := getProp body "email".toList
  let password := getProp body "password".toList
  let trace := [ExtCall.authSignUp email password]
  match signUp email password with
  | AuthOutcome.error m => (⟨400, errorBody m⟩, trace)
  | AuthOutcome.ok _ =>
    (⟨200, JSValue.obj [("message".toList,
      JSValue.str "Confirmation email sent. Please check your inbox.".toList)]⟩, trace)
  | AuthOutcome.threw => (⟨500, errorBody (JSValue.str "Unexpected error".toList)⟩, trace)

/-- The handler of POST /auth/login (lines 100-114). -/
def postLogin (body : Row) (signIn : JSValue → JSValue → AuthOutcome) :
    Response × List ExtCall :=
  let email := getProp body "email".toList
  let password := getProp body "password".toList
  let trace := [ExtCall.authSignIn email password]
  match signIn email password with
  | AuthOutcome.error m => (⟨401, errorBody m⟩, trace)
  | AuthOutcome.ok data =>
    (⟨200, JSValue.obj [("session".toList, getProp data "session".toList),
      ("user".toList, getProp data "user".toList)]⟩, trace)
  | AuthOutcome.threw => (⟨500, errorBody (JSValue.str "Unexpected error".toList)⟩, trace)

/-- The handlers of GET /accounts (lines 311-325) and GET /applications (lines 418-432):
all rows of the table, as they are. -/
def getTable (table : JSString) (db : DbResult (List Row)) : Response × List ExtCall :=
  match db with
  | DbResult.error m => (⟨500, errorBody m⟩, [ExtCall.dbSelect table])
  | DbResult.ok data => (⟨200, JSValue.arr (data.map JSValue.obj)⟩, [ExtCall.dbSelect table])

/-- The handler of POST /accounts (lines 374-392). -/
def postAccounts (body : Row) (db : Row → DbResult Unit) : Response × List ExtCall :=
  let trace := [ExtCall.dbInsert "accounts".toList body]
  match db body with
  | DbResult.error m =>
    (⟨500, JSValue.obj [("status".toList, JSValue.str "error".toList),
      ("message".toList, m)]⟩, trace)
  | DbResult.ok _ =>
    (⟨201, JSValue.obj [("status".toList, JSValue.str "success".toList),
      ("data".toList, JSValue.obj body)]⟩, trace)

/-- A request to one of the routes the server registers, with its parsed body. -/
inductive Request where
  | getRoot : Request
  | postSignup (body : Row) : Request
  | postLogin (body : Row) : Request
  | getOpportunities : Request
  | postOpportunities (body : Row) : Request
  | getAccounts : Request
  | postAccounts (body : Row) : Request
  | getApplications : Request
  | postApplications (body : Row) (file : Option UploadedFile) : Request
  | postSmartSearch (body : Row) : Request
  | getWorldUniversities : Request

/-- Everything the server meets outside the process: the builtin `JSON.parse`, the
authentication client, the database (the three table snapshots are those of `search`), the
mail relay and the clock (`application`), the inference endpoint (`search`), the pages of
the university directory, and the number of iterations granted to the pagination loop. -/
structure ServerWorld where
  parse : JSString → Option JSValue
  signUp : JSValue → JSValue → AuthOutcome
  signIn : JSValue → JSValue → AuthOutcome
  opportunitiesOrdered : DbResult (List Row)
  insertOpportunity : Row → DbResult Unit
  insertAccount : Row → DbResult Unit
  search : SearchWorld
  application : ApplicationWorld
  universitiesRange : Int → Int → DbResult (List Row)
  fuel : Nat

/-- The router: the response of the server to a request and the external calls issued;
`none` when the pagination loop of GET /world-universities did not end within `fuel`
iterations. -/
def handle (r : Request) (w : ServerWorld) : Option (Response × List ExtCall) :=
  match r with
  | Request.getRoot => some getRoot
  | Request.postSignup body => some (postSignup body w.signUp)
  | Request.postLogin body => some (postLogin body w.signIn)
  | Request.getOpportunities => some (getOpportunities w.parse w.opportunitiesOrdered)
  | Request.postOpportunities body => some (postOpportunities w.parse body w.insertOpportunity)
  | Request.getAccounts => some (getTable "accounts".toList w.search.accounts)
  | Request.postAccounts body => some (postAccounts body w.insertAccount)
  | Request.getApplications => some (getTable "applications".toList w.search.applications)
  | Request.postApplications body file => some (postApplications body file w.application)
  | Request.postSmartSearch body => some (smartSearch body w.search)
  | Request.getWorldUniversities => getWorldUniversities w.parse w.universitiesRange w.fuel

/-- A world for examples: the authentication client reports an error for every sign-up and
every sign-in, the tables are the example tables and every other call succeeds. -/
def sampleServerWorld : ServerWorld :=
  { parse := JSON_parse
    signUp := fun _ _ => AuthOutcome.error (JSValue.str "User already registered".toList)
    signIn := fun _ _ => AuthOutcome.error (JSValue.str "Invalid login credentials".toList)
    opportunitiesOrdered := DbResult.ok sampleOpportunities
    insertOpportunity := fun _ => DbResult.ok ()
    insertAccount := fun _ => DbResult.ok ()
    search := sampleWorld "none".toList
    application := sampleApplicationWorld true true
    universitiesRange := tableRange []
    fuel := 1 }

/-- The body of an example sign-up request. -/
def sampleSignupBody : Row :=
  [("email".toList, JSValue.str "ada@example.org".toList),
    ("password".toList, JSValue.str "secret".toList)]

/-- A directory row for examples whose `domains` text is not JSON. -/
def sampleUniversity : Row :=
  [("name".toList, JSValue.str "Example University".toList),
    ("domains".toList, JSValue.str "example.edu".toList),
    ("web_pages".toList, JSValue.str "[\"http://example.edu\"]".toList),
    ("state-province".toList, JSValue.str "  ".toList)]

/-- The page request number `i` (counted from `0`) of the pagination loop with page size
`limit`: the rows from offset `i * limit` to `i * limit + limit - 1`. -/
def pageRequest (limit i : Nat) : ExtCall :=
  ExtCall.dbSelectRange universitiesTable ((i * limit : Nat) : Int)
    (((i * limit : Nat) : Int) + (limit : Int) - 1)

/-! ## The middleware in front of the handlers -/

/-- The eleven routes the server registers (lines 64-937). -/
inductive Route where
  | getRoot : Route
  | postSignup : Route
  | postLogin : Route
  | getOpportunities : Route
  | postOpportunities : Route
  | getAccounts : Route
  | postAccounts : Route
  | getApplications : Route
  | postApplications : Route
  | postSmartSearch : Route
  | getWorldUniversities : Route

/-- Why a middleware ends a request with an error before the handler runs. The middleware
is library code (`cors()` and `express.json()`, installed for every route and method at
lines 45-46, and `upload.single("cvUpload")` on POST /applications, line 570), so its
decision is an input of the embedding. The file registers no error handler; the framework
answers an error with the status the error carries. `express.json()` reads the body of every
request that announces JSON, whatever the route, and raises an error of status 400 when the
text is not valid JSON. -/
inductive Rejection where
  | malformedJson : Rejection
  | other (status : Nat) : Rejection

/-- The status of the error response the framework sends for a rejection. -/
def Rejection.status : Rejection → Nat
  | Rejection.malformedJson => 400
  | Rejection.other status => status

/-- A request to one of the registered routes as the middleware leaves it: rejected, or
handed to the handler of its route with the parsed body. -/
inductive Incoming where
  | rejected (route : Route) (rejection : Rejection) : Incoming
  | accepted (request : Request) : Incoming

/-- What the client receives: the JSON response of a handler, or the error page the
framework sends when a middleware ended the request with an error. -/
inductive Served where
  | json (response : Response) : Served
  | errorPage (status : Nat) : Served

/-- The status code of what the client receives. -/
def Served.status : Served → Nat
  | Served.json response => response.status
  | Served.errorPage status => status

/-- The server from the middleware on: a rejected request is answered by the framework and
no handler runs, so no external call is issued; an accepted request is answered by the
handler of its route. -/
def serve (i : Incoming) (w : ServerWorld) : Option (Served × List ExtCall) :=
  match i with
  | Incoming.rejected _ rejection => some (Served.errorPage rejection.status, [])
  | Incoming.accepted request =>
    match handle request w with
    | some (response, trace) => some (Served.json response, trace)
    | none => none

/-! # Theorems -/

theorem digitChar_toNat (d : Nat) (h : d < 10) : (digitChar d).toNat = 48 + d := by
  interval_cases d <;> rfl

theorem isDigit_digitChar (d : Nat) (h : d < 10) : isDigit (digitChar d) = true := by
  interval_cases d <;> rfl

theorem decimalAux_eq (n : Nat) : ∀ fuel acc, n < fuel →
    decimalAux fuel n acc = decimalAux (n + 1) n [] ++ acc := by
  induction n using Nat.strong_induction_on with
  | _ n ih =>
    intro fuel acc hf
    obtain ⟨f, rfl⟩ : ∃ f, fuel = f + 1 := ⟨fuel - 1, by omega⟩
    by_cases h10 : n < 10
    · simp [decimalAux, h10]
    · have h1 : n / 10 < n := by omega
      have h2 : n / 10 < f := by omega
      simp only [decimalAux, h10, if_false]
      rw [ih (n / 10) h1 f _ h2, ih (n / 10) h1 n _ h1]
      simp

theorem natToString_lt (n : Nat) (h : n < 10) : natToString n = [digitChar n] := by
  simp [natToString, decimalAux, h]

theorem natToString_ge (n : Nat) (h : 10 ≤ n) :
    natToString n = natToString (n / 10) ++ [digitChar (n % 10)] := by
  have h10 : ¬ n < 10 := by omega
  have h1 : n / 10 < n := by omega
  show decimalAux (n + 1) n [] = decimalAux (n / 10 + 1) (n / 10) [] ++ _
  rw [decimalAux, if_neg h10, decimalAux_eq (n / 10) n _ h1]

theorem natToString_head (n : Nat) (hn : 0 < n) :
    ∃ d tl, 1 ≤ d ∧ d < 10 ∧ natToString n = digitChar d :: tl := by
  induction n using Nat.strong_induction_on with
  | _ n ih =>
    by_cases h10 : n < 10
    · exact ⟨n, [], hn, h10, natToString_lt n h10⟩
    · obtain ⟨d, tl, h1, h2, h3⟩ := ih (n / 10) (by omega) (by omega)
      refine ⟨d, tl ++ [digitChar (n % 10)], h1, h2, ?_⟩
      rw [natToString_ge n (by omega), h3]; rfl

theorem parseDigits_natToString (n : Nat) : ∀ rest,
    parseDigits 0 (natToString n ++ rest) = parseDigits n rest := by
  induction n using Nat.strong_induction_on with
  | _ n ih =>
    intro rest
    by_cases h10 : n < 10
    · rw [natToString_lt n h10]
      simp [parseDigits, isDigit_digitChar n h10, digitChar_toNat n h10]
    · rw [natToString_ge n (by omega), List.append_assoc, ih (n / 10) (by omega)]
      have hd : n % 10 < 10 := by omega
      simp only [List.singleton_append, parseDigits, isDigit_digitChar _ hd, digitChar_toNat _ hd, if_true]
      congr 1
      omega

theorem parseDigits_numEnd (n : Nat) (rest : List Char) (h : numEnd rest) :
    parseDigits n rest = (n, rest) := by
  cases rest with
  | nil => rfl
  | cons c tl =>
    have := h c tl rfl
    simp only [Bool.or_eq_false_iff] at this
    simp [parseDigits, this.1.1.1]

theorem parseNat_natToString (n : Nat) (rest : List Char) (h : numEnd rest) :
    parseNat (natToString n ++ rest) = some (n, rest) := by
  rcases Nat.eq_zero_or_pos n with rfl | hn
  · have : natToString 0 = ['0'] := rfl
    rw [this]
    cases rest with
    | nil => rfl
    | cons c tl =>
      have hc := h c tl rfl
      simp [parseNat, hc]
      rfl
  · obtain ⟨d, tl, h1, h2, h3⟩ := natToString_head n hn
    have key0 := parseDigits_natToString n rest
    rw [parseDigits_numEnd n rest h, h3] at key0
    have key : parseDigits ((digitChar d).toNat - 48) (tl ++ rest) = (n, rest) := by
      simpa [parseDigits, isDigit_digitChar d h2] using key0
    rw [h3]
    have hne : digitChar d ≠ '0' := by
      intro hh
      have := congrArg Char.toNat hh
      rw [digitChar_toNat d h2] at this
      have h0 : ('0' : Char).toNat = 48 := rfl
      omega
    simp only [List.cons_append, parseNat, isDigit_digitChar d h2, hne, if_false, Bool.not_true, key]
    cases rest with
    | nil => simp
    | cons c tl2 =>
      have hc := h c tl2 rfl
      simp [hc]

theorem parseNumber_intToString (n : Int) (rest : List Char) (h : numEnd rest) :
    parseNumber (intToString n ++ rest) = some (JSValue.num n, rest) := by
  cases n with
  | ofNat m =>
    show parseNumber (natToString m ++ rest) = _
    have hp := parseNat_natToString m rest h
    cases hs : natToString m ++ rest with
    | nil => rw [hs] at hp; simp [parseNat] at hp
    | cons c tl =>
      rw [hs] at hp
      have hc : c ≠ '-' := by
        rintro rfl
        simp [parseNat] at hp
        exact absurd hp.1 (by decide)
      simp only [parseNumber, hc, if_false, hp]
      rfl
  | negSucc m =>
    show parseNumber ('-' :: (natToString (m + 1) ++ rest)) = _
    simp only [parseNumber, if_true, parseNat_natToString (m + 1) rest h]
    rfl

theorem hex4_control (n : Nat) (h : n < 32) :
    hex4 '0' '0' (hexDigit (n / 16)) (hexDigit (n % 16)) = some n := by
  interval_cases n <;> rfl

theorem consChar_some (c : Char) (s : JSString) (rest : List Char) :
    consChar c (some (s, rest)) = some (c :: s, rest) := rfl

theorem decodeEscape_simple (e : Char) (tl : List Char) (he : e ≠ 'u') :
    decodeEscape (e :: tl) =
      match unescape e with
      | some ch => some (ch, tl)
      | none => none := by
  rw [decodeEscape]
  simp only [he, if_false]

theorem decodeEscape_u (a b c d : Char) (n : Nat) (tl : List Char)
    (hn : hex4 a b c d = some n) (hlt : n < 0xD800) :
    decodeEscape ('u' :: a :: b :: c :: d :: tl) = some (Char.ofNat n, tl) := by
  rw [decodeEscape]
  simp only [if_true, takeHex4, hn, hlt, true_or]

theorem char_eq_of_toNat (c : Char) (n : Nat) (h : c.toNat = n) : c = Char.ofNat n := by
  rw [← h, Char.ofNat_toNat]

theorem quoteChar_length (c : Char) : 1 ≤ (quoteChar c).length := by
  unfold quoteChar
  split_ifs <;> simp

theorem quoteBody_length (s : JSString) : s.length ≤ (quoteBody s).length := by
  induction s with
  | nil => simp [quoteBody]
  | cons c tl ih =>
    have := quoteChar_length c
    simp only [quoteBody, List.length_append, List.length_cons]
    omega

theorem parseStringAux_quoteChar (fuel : Nat) (c : Char) (tl : List Char) :
    parseStringAux (fuel + 1) (quoteChar c ++ tl) = consChar c (parseStringAux fuel tl) := by
  have hb : backslash ≠ dquote := by decide
  unfold quoteChar
  by_cases h1 : c = dquote
  · subst h1
    simp only [if_true, List.cons_append, List.nil_append]
    rw [parseStringAux]
    simp only [hb, if_false, if_true]
    rw [decodeEscape_simple _ _ (by decide)]; rfl
  by_cases h2 : c = backslash
  · subst h2
    simp only [h1, if_true, if_false, List.cons_append, List.nil_append]
    rw [parseStringAux]
    simp only [hb, if_false, if_true]
    rw [decodeEscape_simple _ _ (by decide)]; rfl
  by_cases h8 : c.toNat < 32
  · have hu : parseStringAux (fuel + 1)
          ([backslash, 'u', '0', '0', hexDigit (c.toNat / 16), hexDigit (c.toNat % 16)] ++ tl) =
        consChar c (parseStringAux fuel tl) := by
      simp only [List.cons_append, List.nil_append]
      rw [parseStringAux]
      simp only [hb, if_false, if_true]
      rw [decodeEscape_u _ _ _ _ c.toNat tl (hex4_control c.toNat h8) (by omega),
        Char.ofNat_toNat]
    have hs : ∀ (e : Char) (n : Nat), e ≠ 'u' → unescape e = some (Char.ofNat n) →
        c.toNat = n →
        parseStringAux (fuel + 1) ([backslash, e] ++ tl) = consChar c (parseStringAux fuel tl) := by
      intro e n he hun hc
      simp only [List.cons_append, List.nil_append]
      rw [parseStringAux]
      simp only [hb, if_false, if_true]
      rw [decodeEscape_simple _ _ he, hun, char_eq_of_toNat c n hc]
    simp only [h1, h2, if_false]
    split_ifs with h3 h4 h5 h6 h7
    · exact hs 'b' 8 (by decide) rfl h3
    · exact hs 'f' 12 (by decide) rfl h4
    · exact hs 'n' 10 (by decide) rfl h5
    · exact hs 'r' 13 (by decide) rfl h6
    · exact hs 't' 9 (by decide) rfl h7
    · exact hu
  · have e3 : ¬ c.toNat = 8 := by omega
    have e4 : ¬ c.toNat = 12 := by omega
    have e5 : ¬ c.toNat = 10 := by omega
    have e6 : ¬ c.toNat = 13 := by omega
    have e7 : ¬ c.toNat = 9 := by omega
    simp only [h1, h2, e3, e4, e5, e6, e7, h8, if_false, List.cons_append, List.nil_append]
    rw [parseStringAux]
    simp only [h1, h2, h8, if_false]

theorem parseStringAux_quoteBody (s : JSString) : ∀ (fuel : Nat) (rest : List Char),
    s.length < fuel → parseStringAux fuel (quoteBody s ++ dquote :: rest) = some (s, rest) := by
  induction s with
  | nil =>
    intro fuel rest hf
    obtain ⟨f, rfl⟩ : ∃ f, fuel = f + 1 := ⟨fuel - 1, by simp at hf; omega⟩
    rw [quoteBody, List.nil_append, parseStringAux]; simp
  | cons c tl ih =>
    intro fuel rest hf
    obtain ⟨f, rfl⟩ : ∃ f, fuel = f + 1 := ⟨fuel - 1, by simp at hf; omega⟩
    rw [quoteBody, List.append_assoc, parseStringAux_quoteChar,
      ih f rest (by simpa using hf)]; rfl

theorem parseString_quoteBody (s : JSString) (rest : List Char) :
    parseString (quoteBody s ++ dquote :: rest) = some (s, rest) := by
  unfold parseString
  apply parseStringAux_quoteBody
  have := quoteBody_length s
  simp only [List.length_append, List.length_cons]
  omega

theorem skipWs_cons (c : Char) (s : List Char) (h : isJSONWhiteSpace c = false) :
    skipWs (c :: s) = c :: s := by
  simp [skipWs, List.dropWhile, h]

theorem parseValue_null (fuel : Nat) (rest : List Char) :
    parseValue (fuel + 1) ('n' :: 'u' :: 'l' :: 'l' :: rest) = some (JSValue.null, rest) := by
  rw [parseValue, skipWs_cons _ _ (by decide)]
  have h : ('n' : Char) ≠ dquote := by decide
  simp [afterKeyword, h]

theorem parseValue_true (fuel : Nat) (rest : List Char) :
    parseValue (fuel + 1) ('t' :: 'r' :: 'u' :: 'e' :: rest) =
      some (JSValue.bool true, rest) := by
  rw [parseValue, skipWs_cons _ _ (by decide)]
  have h : ('t' : Char) ≠ dquote := by decide
  simp [afterKeyword, h]

theorem parseValue_false (fuel : Nat) (rest : List Char) :
    parseValue (fuel + 1) ('f' :: 'a' :: 'l' :: 's' :: 'e' :: rest) =
      some (JSValue.bool false, rest) := by
  rw [parseValue, skipWs_cons _ _ (by decide)]
  have h : ('f' : Char) ≠ dquote := by decide
  simp [afterKeyword, h]

theorem parseValue_str (fuel : Nat) (s : JSString) (rest : List Char) :
    parseValue (fuel + 1) (quoteJSONString s ++ rest) = some (JSValue.str s, rest) := by
  have h1 : dquote ≠ '[' := by decide
  have h2 : dquote ≠ '{' := by decide
  rw [quoteJSONString, List.cons_append, List.append_assoc, List.singleton_append, parseValue,
    skipWs_cons _ _ (by decide)]
  simp only [h1, h2, if_false, if_true, parseString_quoteBody]

theorem parseValue_numHead (fuel : Nat) (c : Char) (tl : List Char)
    (h : isDigit c = true ∨ c = '-') :
    parseValue (fuel + 1) (c :: tl) = parseNumber (c :: tl) := by
  have hws : isJSONWhiteSpace c = false := by
    rcases h with h | rfl
    · simp only [isDigit, Bool.and_eq_true, decide_eq_true_eq] at h
      simp only [isJSONWhiteSpace, Bool.or_eq_false_iff, decide_eq_false_iff_not]
      omega
    · decide
  have hne : ∀ x : Char, isDigit x = false → x ≠ '-' → c ≠ x := by
    intro x hx hx2 hcx
    subst hcx
    rcases h with h | h
    · rw [hx] at h; exact absurd h (by decide)
    · exact hx2 h
  rw [parseValue, skipWs_cons _ _ hws]
  simp only [hne '[' (by decide) (by decide), hne '{' (by decide) (by decide),
    hne dquote (by decide) (by decide), hne 'n' (by decide) (by decide),
    hne 't' (by decide) (by decide), hne 'f' (by decide) (by decide), if_false]

theorem intToString_head (n : Int) :
    ∃ c tl, intToString n = c :: tl ∧ (isDigit c = true ∨ c = '-') := by
  cases n with
  | ofNat m =>
    rcases Nat.eq_zero_or_pos m with rfl | hm
    · exact ⟨'0', [], rfl, Or.inl (by decide)⟩
    · obtain ⟨d, tl, _, h2, h3⟩ := natToString_head m hm
      exact ⟨digitChar d, tl, h3, Or.inl (isDigit_digitChar d h2)⟩
  | negSucc m => exact ⟨'-', natToString (m + 1), rfl, Or.inr rfl⟩

theorem parseValue_num (fuel : Nat) (n : Int) (rest : List Char) (h : numEnd rest) :
    parseValue (fuel + 1) (intToString n ++ rest) = some (JSValue.num n, rest) := by
  obtain ⟨c, tl, h1, h2⟩ := intToString_head n
  have := parseNumber_intToString n rest h
  rw [h1] at this ⊢
  rw [List.cons_append] at this ⊢
  rw [parseValue_numHead fuel c _ h2, this]

theorem tokenStart_of_digit (c : Char) (tl : List Char) (h : isDigit c = true ∨ c = '-') :
    tokenStart (c :: tl) := by
  refine ⟨c, tl, rfl, ?_, ?_, ?_⟩
  · rcases h with h | rfl
    · simp only [isDigit, Bool.and_eq_true, decide_eq_true_eq] at h
      simp only [isJSONWhiteSpace, Bool.or_eq_false_iff, decide_eq_false_iff_not]
      omega
    · decide
  · rintro rfl; rcases h with h | h
    · exact absurd h (by decide)
    · exact absurd h (by decide)
  · rintro rfl; rcases h with h | h
    · exact absurd h (by decide)
    · exact absurd h (by decide)

theorem tokenStart_stringifyValue (v : JSValue) (rest : List Char) :
    tokenStart (stringifyValue v ++ rest) := by
  cases v with
  | undefined => exact ⟨'n', _, rfl, by decide, by decide, by decide⟩
  | null => exact ⟨'n', _, rfl, by decide, by decide, by decide⟩
  | bool b => cases b
              · exact ⟨'f', _, rfl, by decide, by decide, by decide⟩
              · exact ⟨'t', _, rfl, by decide, by decide, by decide⟩
  | num n =>
    obtain ⟨c, tl, h1, h2⟩ := intToString_head n
    rw [stringifyValue, h1]
    exact tokenStart_of_digit c _ h2
  | str s => exact ⟨dquote, _, rfl, by decide, by decide, by decide⟩
  | arr xs =>
    cases xs with
    | nil => exact ⟨'[', _, rfl, by decide, by decide, by decide⟩
    | cons x xs => exact ⟨'[', _, by rw [stringifyValue]; rfl, by decide, by decide, by decide⟩
  | obj kvs => exact ⟨'{', _, by rw [stringifyValue]; rfl, by decide, by decide, by decide⟩

theorem tokenStart_skipWs (s : List Char) (h : tokenStart s) : skipWs s = s := by
  obtain ⟨c, tl, rfl, hws, _, _⟩ := h
  exact skipWs_cons c tl hws

theorem parseValue_arr_nil (fuel : Nat) (rest : List Char) :
    parseValue (fuel + 1) ('[' :: ']' :: rest) = some (JSValue.arr [], rest) := by
  rw [parseValue, skipWs_cons _ _ (by decide)]
  simp only [if_true, skipWs_cons ']' rest (by decide)]

theorem parseValue_arr_cons (fuel : Nat) (s : List Char) (h : tokenStart s) :
    parseValue (fuel + 1) ('[' :: s) =
      match parseElems fuel s with
      | some (xs, r) => some (JSValue.arr xs, r)
      | none => none := by
  obtain ⟨c, tl, rfl, hws, h1, _⟩ := h
  rw [parseValue, skipWs_cons _ _ (by decide)]
  simp only [if_true, skipWs_cons c tl hws, h1, if_false]

theorem parseValue_obj_nil (fuel : Nat) (rest : List Char) :
    parseValue (fuel + 1) ('{' :: '}' :: rest) = some (JSValue.obj [], rest) := by
  have h : ('{' : Char) ≠ '[' := by decide
  rw [parseValue, skipWs_cons _ _ (by decide)]
  simp only [h, if_false, if_true, skipWs_cons '}' rest (by decide)]

theorem parseValue_obj_cons (fuel : Nat) (s : List Char) (h : tokenStart s) :
    parseValue (fuel + 1) ('{' :: s) =
      match parseMembers fuel s [] with
      | some (kvs, r) => some (JSValue.obj kvs, r)
      | none => none := by
  obtain ⟨c, tl, rfl, hws, _, h2⟩ := h
  have h : ('{' : Char) ≠ '[' := by decide
  rw [parseValue, skipWs_cons _ _ (by decide)]
  simp only [h, if_true, skipWs_cons c tl hws, h2, if_false]

theorem numEnd_cons (c : Char) (tl : List Char)
    (h : (isDigit c || c = '.' || c = 'e' || c = 'E') = false) : numEnd (c :: tl) := by
  intro c2 tl2 heq
  cases heq
  exact h

theorem numEnd_nil : numEnd [] := by
  intro c tl h; cases h

theorem parseElems_last (fuel : Nat) (s rest : List Char) (v : JSValue)
    (h : parseValue fuel s = some (v, ']' :: rest)) :
    parseElems (fuel + 1) s = some ([v], rest) := by
  have h1 : (']' : Char) ≠ ',' := by decide
  rw [parseElems, h]
  simp only [skipWs_cons ']' rest (by decide), h1, if_false, if_true]

theorem parseElems_more (fuel : Nat) (s rest : List Char) (v : JSValue)
    (h : parseValue fuel s = some (v, ',' :: rest)) :
    parseElems (fuel + 1) s =
      match parseElems fuel rest with
      | some (vs, r) => some (v :: vs, r)
      | none => none := by
  rw [parseElems, h]
  simp only [skipWs_cons ',' rest (by decide), if_true]

theorem stringifyFields_cons (first : Bool) (k : JSString) (v : JSValue)
    (rest : List (JSString × JSValue)) (hv : isJSONValue v = true) :
    stringifyFields first ((k, v) :: rest) =
      (if first then [] else [',']) ++
        (quoteJSONString k ++ ':' :: (stringifyValue v ++ stringifyFields false rest)) := by
  cases v with
  | undefined => simp [isJSONValue] at hv
  | _ => rw [stringifyFields]; intro h; cases h

theorem parseMembers_step (fuel : Nat) (k : JSString) (v : JSValue) (s rest : List Char)
    (acc : Row) (c : Char) (hc : isJSONWhiteSpace c = false)
    (h : parseValue fuel s = some (v, c :: rest)) :
    parseMembers (fuel + 1) (quoteJSONString k ++ ':' :: s) acc =
      if c = ',' then parseMembers fuel rest (setProp acc k v)
      else if c = '}' then some (setProp acc k v, rest)
      else none := by
  rw [quoteJSONString, List.cons_append, List.append_assoc, List.singleton_append,
    parseMembers, skipWs_cons _ _ (by decide)]
  simp only [if_true, parseString_quoteBody, skipWs_cons ':' s (by decide), h,
    skipWs_cons c rest hc]

theorem setProp_fresh (acc : Row) (k : JSString) (v : JSValue)
    (h : k ∉ acc.map Prod.fst) : setProp acc k v = acc ++ [(k, v)] := by
  induction acc with
  | nil => rfl
  | cons kv tl ih =>
    obtain ⟨k2, w⟩ := kv
    simp only [List.map_cons, List.mem_cons, not_or] at h
    have hne : ¬ k2 = k := fun e => h.1 e.symm
    simp only [setProp, hne, if_false, ih h.2, List.cons_append]

theorem stringifyRest_numEnd (xs : List JSValue) (rest : List Char) :
    numEnd (stringifyRest xs ++ rest) := by
  cases xs with
  | nil => exact numEnd_cons _ _ (by decide)
  | cons y ys => rw [stringifyRest]; exact numEnd_cons _ _ (by decide)

theorem stringifyFields_false_head (kvs : List (JSString × JSValue)) (rest : List Char)
    (h : fieldsJSON kvs = true) :
    ∃ c tl, stringifyFields false kvs ++ rest = c :: tl ∧ (c = ',' ∨ c = '}') := by
  cases kvs with
  | nil => exact ⟨'}', rest, rfl, Or.inr rfl⟩
  | cons kv tl =>
    obtain ⟨k, v⟩ := kv
    simp only [fieldsJSON, Bool.and_eq_true] at h
    rw [stringifyFields_cons false k v tl h.1.1]
    exact ⟨',', _, rfl, Or.inl rfl⟩

mutual
theorem parseValue_stringifyValue : ∀ (v : JSValue), isJSONValue v = true →
    ∀ (fuel : Nat) (rest : List Char), jsonSize v ≤ fuel → numEnd rest →
      parseValue fuel (stringifyValue v ++ rest) = some (v, rest)
  | JSValue.undefined, h, _, _, _, _ => by simp [isJSONValue] at h
  | JSValue.null, _, fuel, rest, hf, _ => by
    obtain ⟨f, rfl⟩ : ∃ f, fuel = f + 1 := ⟨fuel - 1, by simp [jsonSize] at hf; omega⟩
    exact parseValue_null f rest
  | JSValue.bool true, _, fuel, rest, hf, _ => by
    obtain ⟨f, rfl⟩ : ∃ f, fuel = f + 1 := ⟨fuel - 1, by simp [jsonSize] at hf; omega⟩
    exact parseValue_true f rest
  | JSValue.bool false, _, fuel, rest, hf, _ => by
    obtain ⟨f, rfl⟩ : ∃ f, fuel = f + 1 := ⟨fuel - 1, by simp [jsonSize] at hf; omega⟩
    exact parseValue_false f rest
  | JSValue.num n, _, fuel, rest, hf, hr => by
    obtain ⟨f, rfl⟩ : ∃ f, fuel = f + 1 := ⟨fuel - 1, by simp [jsonSize] at hf; omega⟩
    exact parseValue_num f n rest hr
  | JSValue.str s, _, fuel, rest, hf, _ => by
    obtain ⟨f, rfl⟩ : ∃ f, fuel = f + 1 := ⟨fuel - 1, by simp [jsonSize] at hf; omega⟩
    exact parseValue_str f s rest
  | JSValue.arr [], _, fuel, rest, hf, _ => by
    obtain ⟨f, rfl⟩ : ∃ f, fuel = f + 1 := ⟨fuel - 1, by simp [jsonSize] at hf; omega⟩
    exact parseValue_arr_nil f rest
  | JSValue.arr (x :: xs), h, fuel, rest, hf, _ => by
    obtain ⟨f, rfl⟩ : ∃ f, fuel = f + 1 := ⟨fuel - 1, by simp [jsonSize] at hf; omega⟩
    have hf2 : sizeElems (x :: xs) ≤ f := by rw [jsonSize] at hf; omega
    have hj : allJSON (x :: xs) = true := by rw [isJSONValue] at h; exact h
    have key := parseElems_elemsText (x :: xs) hj f rest hf2
    rw [stringifyValue, List.cons_append, List.append_assoc,
      parseValue_arr_cons f _ (tokenStart_stringifyValue x _)]
    rw [elemsText, List.append_assoc] at key
    rw [key (by simp)]
  | JSValue.obj [], _, fuel, rest, hf, _ => by
    obtain ⟨f, rfl⟩ : ∃ f, fuel = f + 1 := ⟨fuel - 1, by simp [jsonSize] at hf; omega⟩
    exact parseValue_obj_nil f rest
  | JSValue.obj (kv :: kvs), h, fuel, rest, hf, _ => by
    obtain ⟨f, rfl⟩ : ∃ f, fuel = f + 1 := ⟨fuel - 1, by simp [jsonSize] at hf; omega⟩
    have hf2 : sizeFields (kv :: kvs) ≤ f := by rw [jsonSize] at hf; omega
    have hj : fieldsJSON (kv :: kvs) = true := by rw [isJSONValue] at h; exact h
    have key := parseMembers_stringifyFields (kv :: kvs) hj [] f rest hf2 (by simp) (by simp)
    have hts : tokenStart (stringifyFields true (kv :: kvs) ++ rest) := by
      obtain ⟨k, v⟩ := kv
      simp only [fieldsJSON, Bool.and_eq_true] at hj
      rw [stringifyFields_cons true k v kvs hj.1.1]
      exact ⟨dquote, _, rfl, by decide, by decide, by decide⟩
    rw [stringifyValue, List.cons_append, parseValue_obj_cons f _ hts, key]
    rfl
theorem parseElems_elemsText : ∀ (l : List JSValue), allJSON l = true →
    ∀ (fuel : Nat) (rest : List Char), sizeElems l ≤ fuel → l ≠ [] →
      parseElems fuel (elemsText l ++ rest) = some (l, rest)
  | [], _, _, _, _, hne => absurd rfl hne
  | x :: xs, h, fuel, rest, hf, _ => by
    obtain ⟨f, rfl⟩ : ∃ f, fuel = f + 1 := ⟨fuel - 1, by simp [sizeElems] at hf; omega⟩
    simp only [allJSON, Bool.and_eq_true] at h
    rw [sizeElems] at hf
    have hx := parseValue_stringifyValue x h.1 f (stringifyRest xs ++ rest) (by omega)
      (stringifyRest_numEnd xs rest)
    rw [elemsText, List.append_assoc]
    match xs, h, hf, hx with
    | [], _, _, hx =>
      rw [stringifyRest, List.singleton_append] at hx ⊢
      exact parseElems_last f _ rest x hx
    | y :: ys, h, hf, hx =>
      rw [stringifyRest, List.cons_append, List.append_assoc] at hx ⊢
      have ih := parseElems_elemsText (y :: ys) h.2 f rest (by omega) (by simp)
      rw [elemsText, List.append_assoc] at ih
      rw [parseElems_more f _ _ x hx, ih]
theorem parseMembers_stringifyFields : ∀ (l : List (JSString × JSValue)),
    fieldsJSON l = true → ∀ (acc : Row) (fuel : Nat) (rest : List Char), sizeFields l ≤ fuel →
      l ≠ [] → (∀ k ∈ l.map Prod.fst, k ∉ acc.map Prod.fst) →
      parseMembers fuel (stringifyFields true l ++ rest) acc = some (acc ++ l, rest)
  | [], _, _, _, _, _, hne, _ => absurd rfl hne
  | (k, v) :: kvs, h, acc, fuel, rest, hf, _, hd => by
    obtain ⟨f, rfl⟩ : ∃ f, fuel = f + 1 := ⟨fuel - 1, by simp [sizeFields] at hf; omega⟩
    simp only [fieldsJSON, Bool.and_eq_true, Bool.not_eq_true'] at h
    have hk : k ∉ kvs.map Prod.fst := by
      intro hmem
      have := List.elem_iff.mpr hmem
      have h2 := h.1.2
      simp only [List.contains] at h2
      rw [h2] at this
      exact absurd this (by decide)
    rw [sizeFields] at hf
    obtain ⟨c, tl, hc, hc2⟩ := stringifyFields_false_head kvs rest h.2
    have hne : numEnd (stringifyFields false kvs ++ rest) := by
      rw [hc]; rcases hc2 with rfl | rfl
      · exact numEnd_cons _ _ (by decide)
      · exact numEnd_cons _ _ (by decide)
    have hx := parseValue_stringifyValue v h.1.1 f (stringifyFields false kvs ++ rest)
      (by omega) hne
    have hfresh : k ∉ acc.map Prod.fst := hd k (by simp)
    rw [stringifyFields_cons true k v kvs h.1.1]
    simp only [if_true, List.nil_append, List.append_assoc, List.cons_append]
    match kvs, h, hf, hd, hc, hx with
    | [], _, _, _, _, hx =>
      have hx2 : parseValue f (stringifyValue v ++ '}' :: rest) = some (v, '}' :: rest) := hx
      have h1 : ('}' : Char) ≠ ',' := by decide
      rw [show stringifyFields false ([] : List (JSString × JSValue)) = ['}'] from rfl,
        List.singleton_append,
        parseMembers_step f k v _ rest acc '}' (by decide) hx2, setProp_fresh acc k v hfresh]
      simp only [h1, if_false, if_true]
    | (k2, v2) :: kvs2, h, hf, hd, _, hx =>
      have hj2 : fieldsJSON ((k2, v2) :: kvs2) = true := h.2
      have hv2 : isJSONValue v2 = true := by
        simp only [fieldsJSON, Bool.and_eq_true] at hj2; exact hj2.1.1
      have e1 := stringifyFields_cons false k2 v2 kvs2 hv2
      have e2 := stringifyFields_cons true k2 v2 kvs2 hv2
      simp only [Bool.false_eq_true, if_false, if_true, List.nil_append, List.singleton_append]
        at e1 e2
      have e3 : stringifyFields false ((k2, v2) :: kvs2) ++ rest =
          ',' :: (stringifyFields true ((k2, v2) :: kvs2) ++ rest) := by
        rw [e1, e2]; rfl
      rw [e3] at hx ⊢
      have ih := parseMembers_stringifyFields ((k2, v2) :: kvs2) hj2 (acc ++ [(k, v)]) f rest
        (by omega) (by simp) (by
          intro k' hk' hmem
          simp only [List.map_append, List.map_cons, List.map_nil, List.mem_append,
            List.mem_singleton] at hmem
          rcases hmem with hmem | rfl
          · exact hd k' (by simp only [List.map_cons, List.mem_cons]; right; simpa using hk') hmem
          · exact hk (by simpa using hk'))
      rw [parseMembers_step f k v _ _ acc ',' (by decide) hx, setProp_fresh acc k v hfresh, ih]
      simp
end

mutual
theorem jsonSize_le_length : ∀ (v : JSValue), isJSONValue v = true →
    jsonSize v ≤ (stringifyValue v).length
  | JSValue.undefined, h => by simp [isJSONValue] at h
  | JSValue.null, _ => by simp [jsonSize, stringifyValue]
  | JSValue.bool true, _ => by simp [jsonSize, stringifyValue]
  | JSValue.bool false, _ => by simp [jsonSize, stringifyValue]
  | JSValue.num n, _ => by
    obtain ⟨c, tl, h1, _⟩ := intToString_head n
    simp [jsonSize, stringifyValue, h1]
  | JSValue.str s, _ => by simp [jsonSize, stringifyValue, quoteJSONString]
  | JSValue.arr [], _ => by simp [jsonSize, stringifyValue, sizeElems]
  | JSValue.arr (x :: xs), h => by
    rw [isJSONValue] at h
    simp only [allJSON, Bool.and_eq_true] at h
    have h1 := jsonSize_le_length x h.1
    have h2 := sizeElems_le_length xs h.2
    simp only [jsonSize, sizeElems, stringifyValue, List.length_cons, List.length_append]
    omega
  | JSValue.obj kvs, h => by
    rw [isJSONValue] at h
    have h2 := sizeFields_le_length kvs h true
    simp only [jsonSize, stringifyValue, List.length_cons]
    omega
theorem sizeElems_le_length : ∀ (l : List JSValue), allJSON l = true →
    sizeElems l + 1 ≤ (stringifyRest l).length
  | [], _ => by simp [sizeElems, stringifyRest]
  | x :: xs, h => by
    simp only [allJSON, Bool.and_eq_true] at h
    have h1 := jsonSize_le_length x h.1
    have h2 := sizeElems_le_length xs h.2
    simp only [sizeElems, stringifyRest, List.length_cons, List.length_append]
    omega
theorem sizeFields_le_length : ∀ (l : List (JSString × JSValue)), fieldsJSON l = true →
    ∀ (first : Bool), sizeFields l + 1 ≤ (stringifyFields first l).length
  | [], _, _ => by simp [sizeFields, stringifyFields]
  | (k, v) :: rest, h, first => by
    simp only [fieldsJSON, Bool.and_eq_true] at h
    have h1 := jsonSize_le_length v h.1.1
    have h2 := sizeFields_le_length rest h.2 false
    rw [stringifyFields_cons first k v rest h.1.1]
    simp only [sizeFields, List.length_cons, List.length_append, quoteJSONString]
    omega
end

/-- Parsing the text `JSON.stringify` produces for a JSON value gives the value back. -/
theorem JSON_parse_stringify (v : JSValue) (h : isJSONValue v = true) :
    JSON_parse (JSON_stringify v) = some v := by
  have key := parseValue_stringifyValue v h ((stringifyValue v).length + 1) []
    (by have := jsonSize_le_length v h; omega) numEnd_nil
  rw [List.append_nil] at key
  simp only [JSON_parse, JSON_stringify, key]
  rfl

theorem getProp_setProp_same (o : Row) (k : JSString) (v : JSValue) :
    getProp (setProp o k v) k = v := by
  induction o with
  | nil => simp [setProp, getProp]
  | cons kv tl ih =>
    obtain ⟨k2, w⟩ := kv
    by_cases h : k2 = k
    · simp [setProp, getProp, h]
    · simp [setProp, getProp, h, ih]

theorem getProp_setProp_other (o : Row) (k k2 : JSString) (v : JSValue) (h : k ≠ k2) :
    getProp (setProp o k v) k2 = getProp o k2 := by
  induction o with
  | nil => simp [setProp, getProp, h]
  | cons kv tl ih =>
    obtain ⟨k3, w⟩ := kv
    by_cases h3 : k3 = k
    · subst h3; simp [setProp, getProp, h]
    · by_cases h4 : k3 = k2
      · subst h4; simp [setProp, getProp, h3]
      · simp [setProp, getProp, h3, h4, ih]

theorem stringifyRest_last (xs : List JSValue) :
    ∃ pre, stringifyRest xs = pre ++ [']'] := by
  induction xs with
  | nil => exact ⟨[], rfl⟩
  | cons x xs ih =>
    obtain ⟨pre, hp⟩ := ih
    refine ⟨',' :: (stringifyValue x ++ pre), ?_⟩
    rw [stringifyRest, hp]; simp

theorem stringify_arr_shape (xs : List JSValue) :
    ∃ mid, stringifyValue (JSValue.arr xs) = '[' :: (mid ++ [']']) := by
  cases xs with
  | nil => exact ⟨[], rfl⟩
  | cons x xs =>
    obtain ⟨pre, hp⟩ := stringifyRest_last xs
    refine ⟨stringifyValue x ++ pre, ?_⟩
    rw [stringifyValue, hp]; simp

theorem trim_bracketed (mid : List Char) :
    trim ('[' :: (mid ++ [']'])) = '[' :: (mid ++ [']']) := by
  have h1 : isJSWhiteSpace '[' = false := by decide
  have h2 : isJSWhiteSpace ']' = false := by decide
  unfold trim
  rw [List.dropWhile_cons_of_neg (by simp [h1])]
  rw [← List.cons_append, List.rdropWhile_concat_neg _ _ _ (by simp [h2])]

/-- Reading back the text stored for an array: `parseIfJSON` decodes it to the array. -/
theorem parseIfJSON_stringify_arr (xs : List JSValue) (h : isJSONValue (JSValue.arr xs) = true) :
    parseIfJSON JSON_parse (JSValue.str (JSON_stringify (JSValue.arr xs))) = JSValue.arr xs := by
  obtain ⟨mid, hm⟩ := stringify_arr_shape xs
  have hp := JSON_parse_stringify (JSValue.arr xs) h
  unfold JSON_stringify at hp ⊢
  rw [hm] at hp ⊢
  simp only [parseIfJSON, trim_bracketed, hp]
  simp [startsWith]

theorem getProp_encodeField_other (o : Row) (g f : JSString) (h : g ≠ f) :
    getProp (encodeField o g) f = getProp o f := by
  unfold encodeField
  split_ifs
  · exact getProp_setProp_other o g f _ h
  · rfl

theorem getProp_encodeField_arr (o : Row) (f : JSString) (xs : List JSValue)
    (h : getProp o f = JSValue.arr xs) :
    getProp (encodeField o f) f = JSValue.str (JSON_stringify (JSValue.arr xs)) := by
  unfold encodeField
  rw [h]
  simp only [truthy, isArray, Bool.and_self, if_true]
  exact getProp_setProp_same o f _

theorem getProp_decodeField_other (parse : JSString → Option JSValue) (o : Row)
    (g f : JSString) (h : g ≠ f) : getProp (decodeField parse o g) f = getProp o f :=
  getProp_setProp_other o g f _ h

theorem getProp_decodeField_same (parse : JSString → Option JSValue) (o : Row) (f : JSString) :
    getProp (decodeField parse o f) f = parseIfJSON parse (getProp o f) :=
  getProp_setProp_same o f _

/-- C1. Round trip of an array field through the opportunity write and read paths: when the
request body of POST /opportunities holds an array of JSON values in one of the four
array-typed fields, the record handed to the database holds its `JSON.stringify` text in
that field, and the record GET /opportunities builds from that stored record holds the
original array in that field again. -/
theorem opportunity_array_field_roundtrip (body : Row) (f : JSString) (xs : List JSValue)
    (hf : f ∈ arrayFields) (hv : getProp body f = JSValue.arr xs)
    (hj : isJSONValue (JSValue.arr xs) = true) :
    getProp (encodeOpportunity body) f = JSValue.str (JSON_stringify (JSValue.arr xs)) ∧
    parseIfJSON JSON_parse (getProp (encodeOpportunity body) f) = JSValue.arr xs ∧
    getProp (decodeOpportunity JSON_parse (encodeOpportunity body)) f = JSValue.arr xs := by
  have hq_t : "qualificationsAndRequirements".toList ≠ "tags".toList := by decide
  have hq_b : "qualificationsAndRequirements".toList ≠ "benefits".toList := by decide
  have hq_e : "qualificationsAndRequirements".toList ≠ "experienceRequired".toList := by decide
  have ht_b : "tags".toList ≠ "benefits".toList := by decide
  have ht_e : "tags".toList ≠ "experienceRequired".toList := by decide
  have hb_e : "benefits".toList ≠ "experienceRequired".toList := by decide
  have enc : getProp (encodeOpportunity body) f =
      JSValue.str (JSON_stringify (JSValue.arr xs)) := by
    simp only [arrayFields, List.mem_cons, List.mem_singleton, List.not_mem_nil, or_false] at hf
    simp only [encodeOpportunity, arrayFields, List.foldl]
    rcases hf with rfl | rfl | rfl | rfl
    · rw [getProp_encodeField_other _ _ _ hq_e.symm, getProp_encodeField_other _ _ _ hq_b.symm,
        getProp_encodeField_other _ _ _ hq_t.symm]
      exact getProp_encodeField_arr _ _ xs hv
    · rw [getProp_encodeField_other _ _ _ ht_e.symm, getProp_encodeField_other _ _ _ ht_b.symm]
      exact getProp_encodeField_arr _ _ xs (by rw [getProp_encodeField_other _ _ _ hq_t, hv])
    · rw [getProp_encodeField_other _ _ _ hb_e.symm]
      exact getProp_encodeField_arr _ _ xs (by
        rw [getProp_encodeField_other _ _ _ ht_b, getProp_encodeField_other _ _ _ hq_b, hv])
    · exact getProp_encodeField_arr _ _ xs (by
        rw [getProp_encodeField_other _ _ _ hb_e, getProp_encodeField_other _ _ _ ht_e,
          getProp_encodeField_other _ _ _ hq_e, hv])
  have dec : ∀ o : Row, getProp (decodeOpportunity JSON_parse o) f =
      parseIfJSON JSON_parse (getProp o f) := by
    intro o
    simp only [arrayFields, List.mem_cons, List.mem_singleton, List.not_mem_nil, or_false] at hf
    simp only [decodeOpportunity, arrayFields, List.foldl]
    rcases hf with rfl | rfl | rfl | rfl
    · rw [getProp_decodeField_other _ _ _ _ hq_e.symm,
        getProp_decodeField_other _ _ _ _ hq_b.symm,
        getProp_decodeField_other _ _ _ _ hq_t.symm, getProp_decodeField_same]
    · rw [getProp_decodeField_other _ _ _ _ ht_e.symm,
        getProp_decodeField_other _ _ _ _ ht_b.symm, getProp_decodeField_same,
        getProp_decodeField_other _ _ _ _ hq_t]
    · rw [getProp_decodeField_other _ _ _ _ hb_e.symm, getProp_decodeField_same,
        getProp_decodeField_other _ _ _ _ ht_b, getProp_decodeField_other _ _ _ _ hq_b]
    · rw [getProp_decodeField_same, getProp_decodeField_other _ _ _ _ hb_e,
        getProp_decodeField_other _ _ _ _ ht_e, getProp_decodeField_other _ _ _ _ hq_e]
  refine ⟨enc, ?_, ?_⟩
  · rw [enc]; exact parseIfJSON_stringify_arr xs hj
  · rw [dec, enc]; exact parseIfJSON_stringify_arr xs hj

/-- Witness of C1: the body `{title: "Intern", tags: ["go","rust"]}`. -/
theorem opportunity_array_field_roundtrip_witness :
    getProp (encodeOpportunity [("title".toList, JSValue.str "Intern".toList),
        ("tags".toList, JSValue.arr [JSValue.str "go".toList, JSValue.str "rust".toList])])
      "tags".toList =
      JSValue.str (JSON_stringify (JSValue.arr [JSValue.str "go".toList,
        JSValue.str "rust".toList])) ∧
    parseIfJSON JSON_parse (getProp (encodeOpportunity [("title".toList,
        JSValue.str "Intern".toList),
        ("tags".toList, JSValue.arr [JSValue.str "go".toList, JSValue.str "rust".toList])])
      "tags".toList) = JSValue.arr [JSValue.str "go".toList, JSValue.str "rust".toList] ∧
    getProp (decodeOpportunity JSON_parse (encodeOpportunity [("title".toList,
        JSValue.str "Intern".toList),
        ("tags".toList, JSValue.arr [JSValue.str "go".toList, JSValue.str "rust".toList])]))
      "tags".toList = JSValue.arr [JSValue.str "go".toList, JSValue.str "rust".toList] :=
  opportunity_array_field_roundtrip _ "tags".toList
    [JSValue.str "go".toList, JSValue.str "rust".toList] (by decide) (by rfl) (by rfl)

/-- C2. The normalizer `parseIfJSON`, whatever `JSON.parse` does: a string whose trimmed text
starts with `[` or an opening brace and parses is replaced by the decoded value; a value that
is not a string, a string whose trimmed text starts with neither, and a string whose trimmed
text fails to parse are returned unchanged. The function is total: no case raises. -/
theorem parseIfJSON_spec (parse : JSString → Option JSValue) (field : JSValue) :
    (∀ s v, field = JSValue.str s →
        (startsWith (trim s) ['['] = true ∨ startsWith (trim s) ['{'] = true) →
        parse (trim s) = some v → parseIfJSON parse field = v) ∧
    (isString field = false → parseIfJSON parse field = field) ∧
    (∀ s, field = JSValue.str s →
        startsWith (trim s) ['['] = false → startsWith (trim s) ['{'] = false →
        parseIfJSON parse field = field) ∧
    (∀ s, field = JSValue.str s → parse (trim s) = none → parseIfJSON parse field = field) := by
  refine ⟨?_, ?_, ?_, ?_⟩
  · rintro s v rfl hs hp
    have : (startsWith (trim s) ['['] || startsWith (trim s) ['{']) = true := by
      rcases hs with h | h <;> simp [h]
    simp only [parseIfJSON, this, if_true, hp]
  · intro h
    cases field <;> first | rfl | simp [isString] at h
  · rintro s rfl h1 h2
    simp [parseIfJSON, h1, h2]
  · rintro s rfl hp
    simp only [parseIfJSON, hp]
    split_ifs <;> rfl

/-- Witness of C2 with the parser `JSON_parse`: a stored array text is decoded, a number, a
plain word and a malformed array text are kept. -/
theorem parseIfJSON_spec_witness :
    parseIfJSON JSON_parse (JSValue.str " [1,2] ".toList) =
      JSValue.arr [JSValue.num 1, JSValue.num 2] ∧
    parseIfJSON JSON_parse (JSValue.num 5) = JSValue.num 5 ∧
    parseIfJSON JSON_parse (JSValue.str "remote".toList) = JSValue.str "remote".toList ∧
    parseIfJSON JSON_parse (JSValue.str "[1,".toList) = JSValue.str "[1,".toList :=
  ⟨(parseIfJSON_spec JSON_parse (JSValue.str " [1,2] ".toList)).1 " [1,2] ".toList
      (JSValue.arr [JSValue.num 1, JSValue.num 2]) rfl (Or.inl (by decide)) (by rfl),
    (parseIfJSON_spec JSON_parse (JSValue.num 5)).2.1 rfl,
    (parseIfJSON_spec JSON_parse (JSValue.str "remote".toList)).2.2.1 "remote".toList rfl
      (by decide) (by decide),
    (parseIfJSON_spec JSON_parse (JSValue.str "[1,".toList)).2.2.2 "[1,".toList rfl
      (by rfl)⟩

theorem tableRange_page (table : List Row) (offset limit : Nat) (h : 0 < limit) :
    tableRange table (offset : Int) ((offset : Int) + (limit : Int) - 1) =
      DbResult.ok ((table.drop offset).take limit) := by
  have h1 : ¬ ((offset : Int) + (limit : Int) - 1 < (offset : Int)) := by omega
  have h2 : ((offset : Int) + (limit : Int) - 1 - (offset : Int) + 1).toNat = limit := by omega
  simp only [tableRange, h1, if_false, h2, Int.toNat_ofNat]

theorem fetchAllPages_table (table : List Row) (limit : Nat) (hl : 0 < limit) :
    ∀ (fuel offset : Nat) (allData : List Row) (trace : List ExtCall),
      allData = table.take offset → offset ≤ table.length →
      (table.length - offset) / limit + 1 ≤ fuel →
      ∃ tr, fetchAllPages (tableRange table) limit fuel offset allData trace =
        some (DbResult.ok table, tr) := by
  intro fuel
  induction fuel with
  | zero => intro offset allData trace _ _ hf; exact absurd hf (Nat.not_succ_le_zero _)
  | succ f ih =>
    intro offset allData trace ha ho hf
    rw [fetchAllPages]
    simp only [tableRange_page table offset limit hl]
    have hlen : ((table.drop offset).take limit).length = min limit (table.length - offset) := by
      simp
    by_cases h0 : ((table.drop offset).take limit).length = 0
    · simp only [h0, if_true]
      have : offset = table.length := by
        rw [hlen] at h0; omega
      have hall : allData = table := by rw [ha, this, List.take_length]
      rw [hall]
      exact ⟨_, rfl⟩
    · simp only [h0, if_false]
      have hcat : allData ++ (table.drop offset).take limit = table.take (offset + limit) := by
        rw [ha, List.take_add]
      by_cases h1 : ((table.drop offset).take limit).length < limit
      · simp only [h1, if_true]
        rw [hcat, List.take_of_length_le (by rw [hlen] at h1; omega)]
        exact ⟨_, rfl⟩
      · simp only [h1, if_false]
        have hge : limit ≤ table.length - offset := by rw [hlen] at h1; omega
        apply ih (offset + limit) _ _ hcat (by omega)
        have : (table.length - offset) / limit =
            (table.length - (offset + limit)) / limit + 1 := by
          rw [Nat.sub_add_eq, Nat.div_eq_sub_div hl hge]
        omega

/-- C3. Pagination of GET /world-universities is transparent: for a table held as a finite
list and every positive page size, the loop, given at least `length / limit + 1` iterations,
ends without error and its accumulated `allData` is the whole table, with the same rows in
the same order and hence the same row count, whatever the page size. -/
theorem pagination_transparent (table : List Row) (limit fuel : Nat) (hl : 0 < limit)
    (hf : table.length / limit + 1 ≤ fuel) :
    ∃ trace, fetchAllPages (tableRange table) limit fuel 0 [] [] =
      some (DbResult.ok table, trace) :=
  fetchAllPages_table table limit hl fuel 0 [] [] rfl (Nat.zero_le _) (by simpa using hf)

/-- Witness of C3: a table of three rows fetched in pages of two. -/
theorem pagination_transparent_witness :
    ∃ trace, fetchAllPages (tableRange [[("id".toList, JSValue.num 1)],
        [("id".toList, JSValue.num 2)], [("id".toList, JSValue.num 3)]]) 2 2 0 [] [] =
      some (DbResult.ok [[("id".toList, JSValue.num 1)], [("id".toList, JSValue.num 2)],
        [("id".toList, JSValue.num 3)]], trace) :=
  pagination_transparent _ 2 2 (by decide) (by decide)

theorem getProp_absent (o : Row) (k : JSString) (h : k ∉ keysOf o) :
    getProp o k = JSValue.undefined := by
  induction o with
  | nil => rfl
  | cons kv tl ih =>
    obtain ⟨k2, w⟩ := kv
    simp only [keysOf, List.map_cons, List.mem_cons, not_or] at h
    have hne : ¬ k2 = k := fun e => h.1 e.symm
    simp only [getProp, hne, if_false]
    exact ih h.2

/-- C4. POST /smart-search with a query that is the empty string, or with no `query`
property in the body, responds with status 400 and issues no external call: no database
fetch and no inference request. -/
theorem smartSearch_empty_query (body : Row) (w : SearchWorld)
    (h : getProp body "query".toList = JSValue.str [] ∨ "query".toList ∉ keysOf body) :
    (smartSearch body w).1.status = 400 ∧ (smartSearch body w).2 = [] ∧
    smartSearch body w = (⟨400, errorBody (JSValue.str "Query is required".toList)⟩, []) := by
  have hq : truthy (getProp body "query".toList) = false := by
    rcases h with h | h
    · rw [h]; rfl
    · rw [getProp_absent body _ h]; rfl
  have : smartSearch body w =
      (⟨400, errorBody (JSValue.str "Query is required".toList)⟩, []) := by
    simp only [smartSearch, hq, Bool.not_false, if_true]
  rw [this]
  exact ⟨rfl, rfl, rfl⟩

/-- Witness of C4: the bodies `{query: ""}` and `{}`. -/
theorem smartSearch_empty_query_witness :
    ((smartSearch [("query".toList, JSValue.str [])] emptyWorld).1.status = 400 ∧
      (smartSearch [("query".toList, JSValue.str [])] emptyWorld).2 = []) ∧
    ((smartSearch [] emptyWorld).1.status = 400 ∧ (smartSearch [] emptyWorld).2 = []) :=
  ⟨⟨(smartSearch_empty_query [("query".toList, JSValue.str [])] emptyWorld (Or.inl rfl)).1,
      (smartSearch_empty_query [("query".toList, JSValue.str [])] emptyWorld (Or.inl rfl)).2.1⟩,
    ⟨(smartSearch_empty_query [] emptyWorld (Or.inr (by decide))).1,
      (smartSearch_empty_query [] emptyWorld (Or.inr (by decide))).2.1⟩⟩

theorem captureToBracket_some (s cap : JSString) (h : captureToBracket s = some cap) :
    ∃ post, s = cap ++ ']' :: post := by
  induction s generalizing cap with
  | nil => simp [captureToBracket] at h
  | cons c rest ih =>
    rw [captureToBracket] at h
    by_cases h1 : c = ']'
    · subst h1
      simp only [if_true, Option.some.injEq] at h
      subst h
      exact ⟨rest, rfl⟩
    · simp only [h1, if_false] at h
      by_cases h2 : isLineTerminator c = true
      · simp [h2] at h
      · rw [Bool.not_eq_true] at h2
        simp only [h2, Bool.false_eq_true, if_false] at h
        cases hc : captureToBracket rest with
        | none => simp [hc] at h
        | some cap2 =>
          simp only [hc, Option.some.injEq] at h
          subst h
          obtain ⟨post, hp⟩ := ih cap2 hc
          exact ⟨post, by rw [hp]; rfl⟩

theorem matchAt_some (s cap : JSString) (h : matchAt s = some cap) :
    ∃ post, s = matchLiteral ++ cap ++ ']' :: post := by
  unfold matchAt at h
  by_cases hs : startsWith s matchLiteral = true
  · simp only [hs, if_true] at h
    obtain ⟨post, hp⟩ := captureToBracket_some _ _ h
    have hpre : matchLiteral <+: s := List.isPrefixOf_iff_prefix.mp hs
    obtain ⟨t, ht⟩ := hpre
    refine ⟨post, ?_⟩
    rw [← ht, List.drop_left] at hp
    rw [← ht, hp, List.append_assoc]
  · simp [hs] at h

theorem regexMatch_some (s cap : JSString) (h : regexMatch s = some cap) :
    ∃ pre post, s = pre ++ matchLiteral ++ cap ++ ']' :: post := by
  induction s with
  | nil => simp [regexMatch] at h
  | cons c rest ih =>
    rw [regexMatch] at h
    cases hm : matchAt (c :: rest) with
    | some cap2 =>
      simp only [hm, Option.some.injEq] at h
      subst h
      obtain ⟨post, hp⟩ := matchAt_some _ _ hm
      exact ⟨[], post, by rw [hp]; rfl⟩
    | none =>
      simp only [hm] at h
      obtain ⟨pre, post, hp⟩ := ih h
      exact ⟨c :: pre, post, by rw [hp]; rfl⟩

theorem captureToBracket_append (c post : JSString)
    (hc : ∀ ch ∈ c, ch ≠ ']' ∧ isLineTerminator ch = false) :
    captureToBracket (c ++ ']' :: post) = some c := by
  induction c with
  | nil => simp [captureToBracket]
  | cons ch tl ih =>
    have h1 := hc ch (List.mem_cons_self _ _)
    have h2 := ih (fun x hx => hc x (List.mem_cons_of_mem _ hx))
    rw [List.cons_append, captureToBracket]
    simp only [h1.1, h1.2, if_false, Bool.false_eq_true, h2]

/-- A reply that starts with `Matching IDs: [`, then a text `c` free of `]` and of line
terminators, then `]`: the pattern matches there and captures `c`. -/
theorem regexMatch_leading_segment (c post : JSString)
    (hc : ∀ ch ∈ c, ch ≠ ']' ∧ isLineTerminator ch = false) :
    regexMatch (matchLiteral ++ c ++ ']' :: post) = some c := by
  have hm : matchAt (matchLiteral ++ c ++ ']' :: post) = some c := by
    unfold matchAt
    have hs : startsWith (matchLiteral ++ c ++ ']' :: post) matchLiteral = true := by
      unfold startsWith
      rw [List.append_assoc]
      exact List.isPrefixOf_iff_prefix.mpr (List.prefix_append _ _)
    rw [hs, List.append_assoc, List.drop_left]
    simp only [if_true]
    exact captureToBracket_append c post hc
  have hne : matchLiteral ++ c ++ ']' :: post = 'M' :: ("atching IDs: [".toList ++ c ++
      ']' :: post) := by
    simp [matchLiteral]
  rw [hne] at hm ⊢
  rw [regexMatch, hm]

theorem smartSearch_reply (body : Row) (w : SearchWorld) (accountsData opportunitiesData
    applicationsData : List Row) (data : JSValue) (reply : JSString)
    (hq : truthy (getProp body "query".toList) = true)
    (ha : w.accounts = DbResult.ok accountsData)
    (ho : w.opportunities = DbResult.ok opportunitiesData)
    (hap : w.applications = DbResult.ok applicationsData)
    (hi : w.inference (buildPrompt (getProp body "query".toList)
      (applicationsData.map (documentLine accountsData opportunitiesData))) =
        InferenceOutcome.ok data)
    (hr : replyText data = some reply) :
    (smartSearch body w).1 =
      ⟨200, JSValue.arr ((applicationsData.filter
        (fun app => includes (matchingIds reply) (getProp app "application_id".toList))).map
        (enrich accountsData opportunitiesData))⟩ := by
  simp only [smartSearch, hq, Bool.not_true, Bool.false_eq_true, if_false, ha, ho, hap, hi, hr]

theorem includes_eq (tokens : List JSString) (v : JSValue) :
    includes tokens v =
      match v with
      | JSValue.str s => decide (s ∈ tokens)
      | _ => false := by
  cases v with
  | str s =>
    simp only [includes, sameValueZero, strictEq]
    rw [Bool.eq_iff_iff]
    simp only [List.any_eq_true, beq_iff_eq, decide_eq_true_eq]
    constructor
    · rintro ⟨t, ht, rfl⟩; exact ht
    · intro h; exact ⟨s, h, rfl⟩
  | _ => simp [includes, sameValueZero, strictEq]

/-- C5. For every truthy (in particular every non-empty) query, every snapshot of the three
tables and every inference reply text that contains no segment `Matching IDs: [` ... `]`,
POST /smart-search responds with status 200 and the empty array. -/
theorem smartSearch_no_segment (body : Row) (w : SearchWorld) (accountsData opportunitiesData
    applicationsData : List Row) (data : JSValue) (reply : JSString)
    (hq : truthy (getProp body "query".toList) = true)
    (ha : w.accounts = DbResult.ok accountsData)
    (ho : w.opportunities = DbResult.ok opportunitiesData)
    (hap : w.applications = DbResult.ok applicationsData)
    (hi : w.inference (buildPrompt (getProp body "query".toList)
      (applicationsData.map (documentLine accountsData opportunitiesData))) =
        InferenceOutcome.ok data)
    (hr : replyText data = some reply)
    (hno : ∀ pre c post, reply ≠ pre ++ matchLiteral ++ c ++ ']' :: post) :
    (smartSearch body w).1 = ⟨200, JSValue.arr []⟩ := by
  rw [smartSearch_reply body w accountsData opportunitiesData applicationsData data reply
    hq ha ho hap hi hr]
  have hm : matchingIds reply = [] := by
    unfold matchingIds
    cases hc : regexMatch reply with
    | none => rfl
    | some cap =>
      obtain ⟨pre, post, hp⟩ := regexMatch_some reply cap hc
      exact absurd hp (hno pre cap post)
  rw [hm]
  simp [includes]

/-- C6. When the pattern `Matching IDs: [` ... `]` matches the inference reply and `c` is
the text it captures, the result of POST /smart-search is the list of applications, in
their original order, whose `application_id` is a string equal to one of the tokens got by
splitting `c` on commas and trimming each piece, each rendered by `enrich`. Membership is
exact: an application whose `application_id` is a number is never selected. -/
theorem smartSearch_selects_tokens (body : Row) (w : SearchWorld) (accountsData
    opportunitiesData applicationsData : List Row) (data : JSValue) (reply c : JSString)
    (hq : truthy (getProp body "query".toList) = true)
    (ha : w.accounts = DbResult.ok accountsData)
    (ho : w.opportunities = DbResult.ok opportunitiesData)
    (hap : w.applications = DbResult.ok applicationsData)
    (hi : w.inference (buildPrompt (getProp body "query".toList)
      (applicationsData.map (documentLine accountsData opportunitiesData))) =
        InferenceOutcome.ok data)
    (hr : replyText data = some reply)
    (hc : regexMatch reply = some c) :
    (smartSearch body w).1 =
      ⟨200, JSValue.arr ((applicationsData.filter
        (specSelected ((splitComma c).map trim))).map
        (enrich accountsData opportunitiesData))⟩ ∧
    List.Sublist (applicationsData.filter (specSelected ((splitComma c).map trim)))
      applicationsData ∧
    (∀ app ∈ applicationsData, ∀ n : Int,
      getProp app "application_id".toList = JSValue.num n →
      app ∉ applicationsData.filter
        (fun app => includes (matchingIds reply) (getProp app "application_id".toList))) := by
  have hm : matchingIds reply = (splitComma c).map trim := by
    unfold matchingIds; rw [hc]
  refine ⟨?_, List.filter_sublist _, ?_⟩
  · rw [smartSearch_reply body w accountsData opportunitiesData applicationsData data reply
      hq ha ho hap hi hr, hm]
    have : (fun app : Row => includes ((splitComma c).map trim)
        (getProp app "application_id".toList)) = specSelected ((splitComma c).map trim) := by
      funext app
      rw [includes_eq]
      rfl
    rw [this]
  · intro app _ n hn hmem
    rw [List.mem_filter, hn, includes_eq] at hmem
    exact absurd hmem.2 (by simp)

/-- Witness of C5: the reply `none` on the example tables. -/
theorem smartSearch_no_segment_witness :
    (smartSearch [("query".toList, JSValue.str "rust".toList)]
      (sampleWorld "none".toList)).1 = ⟨200, JSValue.arr []⟩ :=
  smartSearch_no_segment [("query".toList, JSValue.str "rust".toList)]
    (sampleWorld "none".toList) sampleAccounts sampleOpportunities sampleApplications
    (JSValue.obj [("response".toList, JSValue.str "none".toList)]) "none".toList
    rfl rfl rfl rfl rfl rfl
    (by
      intro pre c post h
      have hl := congrArg List.length h
      simp [matchLiteral] at hl
      omega)

/-- Witness of C6: the reply `Matching IDs: [1700000000000, 7]` on the example tables
selects the application with the string identifier and not the one with the number `7`. -/
theorem smartSearch_selects_tokens_witness :
    (smartSearch [("query".toList, JSValue.str "rust".toList)]
      (sampleWorld "Matching IDs: [1700000000000, 7]".toList)).1 =
      ⟨200, JSValue.arr ((sampleApplications.filter
        (specSelected ((splitComma "1700000000000, 7".toList).map trim))).map
        (enrich sampleAccounts sampleOpportunities))⟩ ∧
    sampleApplications.filter (specSelected ((splitComma "1700000000000, 7".toList).map trim)) =
      sampleApplications.take 1 :=
  ⟨(smartSearch_selects_tokens [("query".toList, JSValue.str "rust".toList)]
      (sampleWorld "Matching IDs: [1700000000000, 7]".toList) sampleAccounts
      sampleOpportunities sampleApplications
      (JSValue.obj [("response".toList,
        JSValue.str "Matching IDs: [1700000000000, 7]".toList)])
      "Matching IDs: [1700000000000, 7]".toList "1700000000000, 7".toList
      rfl rfl rfl rfl rfl rfl (by decide)).1, by rfl⟩

theorem yoe_facts (doe yoe : Nat) (h : doe < 146097)
    (hy : yoe = (doe - doe / 1460 + doe / 36524 - doe / 146096) / 365) :
    yoe ≤ 399 ∧ 365 * yoe + yoe / 4 - yoe / 100 ≤ doe ∧
      doe - (365 * yoe + yoe / 4 - yoe / 100) ≤ 365 := by
  have he : doe / 36524 ≤ 4 := by omega
  have hf : doe / 146096 ≤ 1 := by omega
  have hc : yoe / 100 ≤ 3 := by omega
  generalize hE : doe / 36524 = e at *
  generalize hF : doe / 146096 = f at *
  generalize hC : yoe / 100 = c at *
  interval_cases e <;> interval_cases f <;> interval_cases c <;> omega

theorem civil_core (era doe yoe doy mp : Nat) (h : doe < 146097)
    (hy : yoe = (doe - doe / 1460 + doe / 36524 - doe / 146096) / 365)
    (hd : doy = doe - (365 * yoe + yoe / 4 - yoe / 100))
    (hm : mp = (5 * doy + 2) / 153) :
    daysFromCivil (if (if mp < 10 then mp + 3 else mp - 9) ≤ 2 then yoe + era * 400 + 1
        else yoe + era * 400)
      (if mp < 10 then mp + 3 else mp - 9) (doy - (153 * mp + 2) / 5 + 1) =
      era * 146097 + doe ∧
    1 ≤ (if mp < 10 then mp + 3 else mp - 9) ∧ (if mp < 10 then mp + 3 else mp - 9) ≤ 12 ∧
    1 ≤ doy - (153 * mp + 2) / 5 + 1 ∧ doy - (153 * mp + 2) / 5 + 1 ≤ 31 ∧
    (era * 146097 + doe < 3652365 →
      (if (if mp < 10 then mp + 3 else mp - 9) ≤ 2 then yoe + era * 400 + 1
        else yoe + era * 400) ≤ 9999) := by
  obtain ⟨h1, h2, h3⟩ := yoe_facts doe yoe h hy
  rw [← hd] at h3
  have hmp : mp ≤ 11 := by omega
  have hdoy : (153 * mp + 2) / 5 ≤ doy := by omega
  have hdoe : doe = 365 * yoe + yoe / 4 - yoe / 100 + doy := by omega
  have e1 : (yoe + era * 400) / 400 = era := by omega
  have e2 : (yoe + era * 400) % 400 = yoe := by omega
  have hday : doy - (153 * mp + 2) / 5 + 1 ≤ 31 := by omega
  clear hy hd h h2
  unfold daysFromCivil
  by_cases hlt : mp < 10
  · have hm2 : ¬ (mp + 3 ≤ 2) := by omega
    have hm3 : 2 < mp + 3 := by omega
    simp only [hlt, if_true, hm2, if_false, hm3, e1, e2, Nat.add_sub_cancel]
    refine ⟨by omega, by omega, by omega, by omega, hday, ?_⟩
    intro hz
    omega
  · have hm2 : mp - 9 ≤ 2 := by omega
    have hm3 : ¬ 2 < mp - 9 := by omega
    have e3 : mp - 9 + 9 = mp := by omega
    simp only [hlt, if_true, hm2, if_false, hm3, e1, e2, e3, Nat.add_sub_cancel]
    refine ⟨by omega, by omega, by omega, by omega, hday, ?_⟩
    intro hz
    omega

/-- The date `civilFromDays` computes is the civil date of the day number: the calendar
rule `daysFromCivil` maps it back to the day, the month is between 1 and 12, the day of the
month between 1 and 31, and before the day 2932897 (10000-01-01) the year has at most four
digits. -/
theorem civilFromDays_spec (z : Nat) :
    daysFromCivil (civilFromDays z).1 (civilFromDays z).2.1 (civilFromDays z).2.2 =
      z + 719468 ∧
    1 ≤ (civilFromDays z).2.1 ∧ (civilFromDays z).2.1 ≤ 12 ∧
    1 ≤ (civilFromDays z).2.2 ∧ (civilFromDays z).2.2 ≤ 31 ∧
    (z < 2932897 → (civilFromDays z).1 ≤ 9999) := by
  have h := civil_core ((z + 719468) / 146097) ((z + 719468) % 146097) _ _ _
    (Nat.mod_lt _ (by decide)) rfl rfl rfl
  have hz : (z + 719468) / 146097 * 146097 + (z + 719468) % 146097 = z + 719468 :=
    Nat.div_add_mod' _ _
  rw [hz] at h
  simp only [civilFromDays]
  refine ⟨h.1, h.2.1, h.2.2.1, h.2.2.2.1, h.2.2.2.2.1, ?_⟩
  intro hlt
  exact h.2.2.2.2.2 (by omega)

theorem digitChar_ne_T (d : Nat) (h : d < 10) : (digitChar d != 'T') = true := by
  interval_cases d <;> decide

theorem pad2_no_T (n : Nat) : ∀ c ∈ pad2 n, (c != 'T') = true := by
  intro c hc
  simp only [pad2, List.mem_cons, List.mem_singleton, List.not_mem_nil, or_false] at hc
  rcases hc with rfl | rfl
  · exact digitChar_ne_T _ (Nat.mod_lt _ (by decide))
  · exact digitChar_ne_T _ (Nat.mod_lt _ (by decide))

theorem isoYear_no_T (y : Nat) : ∀ c ∈ isoYear y, (c != 'T') = true := by
  intro c hc
  unfold isoYear at hc
  split_ifs at hc
  · simp only [pad4, List.mem_cons, List.mem_singleton, List.not_mem_nil, or_false] at hc
    rcases hc with rfl | rfl | rfl | rfl <;> exact digitChar_ne_T _ (Nat.mod_lt _ (by decide))
  · simp only [pad6, List.mem_cons, List.mem_singleton, List.not_mem_nil, or_false] at hc
    rcases hc with rfl | rfl | rfl | rfl | rfl | rfl | rfl
    · decide
    all_goals exact digitChar_ne_T _ (Nat.mod_lt _ (by decide))

/-- The expression `date.toISOString().split("T")[0]` is the date part of the ISO string. -/
theorem splitHead_toISOString (t : Nat) : splitHead 'T' (toISOString t) = isoDate t := by
  have hall : ∀ c ∈ isoDate t, (c != 'T') = true := by
    intro c hc
    simp only [isoDate, List.mem_append, List.mem_cons] at hc
    rcases hc with hc | rfl | hc | rfl | hc
    · exact isoYear_no_T _ c hc
    · decide
    · exact pad2_no_T _ c hc
    · decide
    · exact pad2_no_T _ c hc
  unfold splitHead toISOString
  rw [List.takeWhile_append_of_pos hall]
  simp

theorem toStr_nat (n : Nat) : toStr (JSValue.num (n : Int)) = natToString n := rfl

/-- The first external call of POST /applications is the insert of `newApplication`,
whatever the request and the outcomes of the calls. -/
theorem postApplications_head (body : Row) (file : Option UploadedFile) (w : ApplicationWorld) :
    (postApplications body file w).2.head? =
      some (ExtCall.dbInsert "applications".toList (newApplication body w)) := by
  simp only [postApplications]
  repeat' split
  all_goals rfl

/-- C7. For every request body and instant, when the insert, both lookups and both mail
sends succeed, POST /applications responds 201 with the record `newApplication`, whose
`user_id` and `opportunity_id` are the `userId` and `opportunityId` of the request, whose
`application_id` is the decimal string of the clock reading `Date.now()` and whose
`application_date` is the date part of the ISO string of the clock reading `new Date()`;
that record is the one handed to the insert. The date part is the civil date of the UTC
day number of the instant, and before the year 10000 it has the form YYYY-MM-DD. -/
theorem postApplications_created (body : Row) (file : Option UploadedFile)
    (w : ApplicationWorld) (accountData opportunityData : Row)
    (hi : w.insert (newApplication body w) = DbResult.ok ())
    (ha : w.account (getProp body "userId".toList) = DbResult.ok accountData)
    (ho : w.opportunity (getProp body "opportunityId".toList) = DbResult.ok opportunityData)
    (hc : w.sendCompany (companyMailOptions accountData opportunityData file) = true)
    (hs : w.sendStudent (studentMailOptions accountData opportunityData file) = true) :
    (postApplications body file w).1 =
      ⟨201, JSValue.obj [("status".toList, JSValue.str "success".toList),
        ("data".toList, JSValue.obj (newApplication body w))]⟩ ∧
    newApplication body w =
      [("application_id".toList, JSValue.str (natToString w.idNow)),
        ("user_id".toList, getProp body "userId".toList),
        ("opportunity_id".toList, getProp body "opportunityId".toList),
        ("application_date".toList, JSValue.str (isoDate w.dateNow))] ∧
    (postApplications body file w).2.head? =
      some (ExtCall.dbInsert "applications".toList (newApplication body w)) ∧
    daysFromCivil (civilFromDays (w.dateNow / msPerDay)).1
      (civilFromDays (w.dateNow / msPerDay)).2.1 (civilFromDays (w.dateNow / msPerDay)).2.2 =
      w.dateNow / msPerDay + 719468 ∧
    (w.dateNow < 253402300800000 →
      isoDate w.dateNow = pad4 (civilFromDays (w.dateNow / msPerDay)).1 ++
        '-' :: (pad2 (civilFromDays (w.dateNow / msPerDay)).2.1 ++
        '-' :: pad2 (civilFromDays (w.dateNow / msPerDay)).2.2)) := by
  refine ⟨?_, ?_, postApplications_head body file w, (civilFromDays_spec _).1, ?_⟩
  · simp only [postApplications, hi, ha, ho, hc, hs, Bool.not_true, Bool.false_eq_true,
      if_false]
  · simp only [newApplication, splitHead_toISOString, toStr_nat]
  · intro hlt
    have hy := (civilFromDays_spec (w.dateNow / msPerDay)).2.2.2.2.2
      (by unfold msPerDay; omega)
    simp only [isoDate, isoYear, hy, if_true]

/-- Witness of C7: `userId = "42"`, `opportunityId = "7"` at 2024-01-02T03:04:05.006Z. -/
theorem postApplications_created_witness :
    (postApplications sampleApplicationBody (some sampleFile)
      (sampleApplicationWorld true true)).1 =
      ⟨201, JSValue.obj [("status".toList, JSValue.str "success".toList),
        ("data".toList, JSValue.obj
          [("application_id".toList, JSValue.str "1704164645007".toList),
            ("user_id".toList, JSValue.str "42".toList),
            ("opportunity_id".toList, JSValue.str "7".toList),
            ("application_date".toList, JSValue.str "2024-01-02".toList)])]⟩ ∧
    isoDate 1704164645006 = "2024-01-02".toList := by
  have h := postApplications_created sampleApplicationBody (some sampleFile)
    (sampleApplicationWorld true true)
    [("id".toList, JSValue.str "42".toList),
      ("name_and_surname".toList, JSValue.str "Ada".toList),
      ("email".toList, JSValue.str "ada@example.org".toList)]
    [("id".toList, JSValue.num 7), ("title".toList, JSValue.str "Intern".toList),
      ("contactPersonEmail".toList, JSValue.str "hr@example.org".toList)]
    rfl rfl rfl rfl rfl
  refine ⟨?_, ?_⟩
  · rw [h.1]; rfl
  · have h5 := h.2.2.2.2 (by decide)
    exact h5.trans (by decide)

/-- C8. In POST /applications, when the insert has succeeded and the account lookup or the
opportunity lookup fails, the response has status 500, no `sendMail` call is issued, and
the insert of the application stays as it is: it is the first external call and the only
calls after it are the lookups, none of which removes the inserted row. -/
theorem postApplications_lookup_fails (body : Row) (file : Option UploadedFile)
    (w : ApplicationWorld)
    (hi : w.insert (newApplication body w) = DbResult.ok ())
    (hfail : (∃ m, w.account (getProp body "userId".toList) = DbResult.error m) ∨
      (∃ m, w.opportunity (getProp body "opportunityId".toList) = DbResult.error m)) :
    (postApplications body file w).1.status = 500 ∧
    (postApplications body file w).2.any ExtCall.isSendMail = false ∧
    (postApplications body file w).2.head? =
      some (ExtCall.dbInsert "applications".toList (newApplication body w)) ∧
    (∀ c ∈ (postApplications body file w).2.tail,
      ∃ table column value, c = ExtCall.dbSelectSingle table column value) := by
  refine ⟨?_, ?_, postApplications_head body file w, ?_⟩
  all_goals
    simp only [postApplications, hi]
    cases hacc : w.account (getProp body "userId".toList) with
    | error m => simp [ExtCall.isSendMail]
    | ok acc =>
      rcases hfail with ⟨m, hm⟩ | ⟨m, hm⟩
      · rw [hacc] at hm; cases hm
      · simp only [hm] <;> simp [ExtCall.isSendMail]

/-- Witness of C8: the account `"41"` does not exist; the opportunity `"8"` does not
exist. -/
theorem postApplications_lookup_fails_witness :
    ((postApplications [("userId".toList, JSValue.str "41".toList),
        ("opportunityId".toList, JSValue.str "7".toList)] (some sampleFile)
      (sampleApplicationWorld true true)).1.status = 500 ∧
      (postApplications [("userId".toList, JSValue.str "41".toList),
        ("opportunityId".toList, JSValue.str "7".toList)] (some sampleFile)
      (sampleApplicationWorld true true)).2.any ExtCall.isSendMail = false) ∧
    ((postApplications [("userId".toList, JSValue.str "42".toList),
        ("opportunityId".toList, JSValue.str "8".toList)] none
      (sampleApplicationWorld true true)).1.status = 500 ∧
      (postApplications [("userId".toList, JSValue.str "42".toList),
        ("opportunityId".toList, JSValue.str "8".toList)] none
      (sampleApplicationWorld true true)).2.any ExtCall.isSendMail = false) :=
  ⟨⟨(postApplications_lookup_fails [("userId".toList, JSValue.str "41".toList),
        ("opportunityId".toList, JSValue.str "7".toList)] (some sampleFile)
        (sampleApplicationWorld true true) rfl
        (Or.inl ⟨JSValue.str "no rows".toList, rfl⟩)).1,
      (postApplications_lookup_fails [("userId".toList, JSValue.str "41".toList),
        ("opportunityId".toList, JSValue.str "7".toList)] (some sampleFile)
        (sampleApplicationWorld true true) rfl
        (Or.inl ⟨JSValue.str "no rows".toList, rfl⟩)).2.1⟩,
    ⟨(postApplications_lookup_fails [("userId".toList, JSValue.str "42".toList),
        ("opportunityId".toList, JSValue.str "8".toList)] none
        (sampleApplicationWorld true true) rfl
        (Or.inr ⟨JSValue.str "no rows".toList, rfl⟩)).1,
      (postApplications_lookup_fails [("userId".toList, JSValue.str "42".toList),
        ("opportunityId".toList, JSValue.str "8".toList)] none
        (sampleApplicationWorld true true) rfl
        (Or.inr ⟨JSValue.str "no rows".toList, rfl⟩)).2.1⟩⟩

/-- C9, the code at the failing input. With an uploaded file, a successful insert and
successful lookups, a rejected `sendMail` (the first or the second) ends the request with
status 500 after the mail call and without any `unlink` call, so the uploaded file is not
deleted; only when both mails are accepted is the `unlink` issued. The claim says the
deletion is attempted whatever the delivery outcome. -/
theorem postApplications_send_failure_no_unlink :
    ((postApplications sampleApplicationBody (some sampleFile)
        (sampleApplicationWorld false true)).1.status = 500 ∧
      (postApplications sampleApplicationBody (some sampleFile)
        (sampleApplicationWorld false true)).2.any ExtCall.isSendMail = true ∧
      (postApplications sampleApplicationBody (some sampleFile)
        (sampleApplicationWorld false true)).2.any ExtCall.isUnlink = false) ∧
    ((postApplications sampleApplicationBody (some sampleFile)
        (sampleApplicationWorld true false)).1.status = 500 ∧
      (postApplications sampleApplicationBody (some sampleFile)
        (sampleApplicationWorld true false)).2.any ExtCall.isUnlink = false) ∧
    (postApplications sampleApplicationBody (some sampleFile)
        (sampleApplicationWorld true true)).2.any ExtCall.isUnlink = true := by
  decide

/-- C10, counterexample. The request body `{opportunityId: "7"}` has no `userId`, and
POST /applications still issues the insert into the applications table as its first
external call (the request then fails with status 500 at the account lookup). -/
theorem postApplications_missing_userId_inserts :
    "userId".toList ∉ keysOf [("opportunityId".toList, JSValue.str "7".toList)] ∧
    (postApplications [("opportunityId".toList, JSValue.str "7".toList)] none
      (sampleApplicationWorld true true)).2.any (ExtCall.isInsertInto "applications".toList) =
      true ∧
    (postApplications [("opportunityId".toList, JSValue.str "7".toList)] none
      (sampleApplicationWorld true true)).1.status = 500 := by
  decide

/-- C10, amended. POST /applications does not check that the two identifiers are present:
for every request, the record is constructed and its insert into the applications table
is the first external call; a missing `userId` leaves `user_id` undefined in the record and
a missing `opportunityId` leaves `opportunity_id` undefined. -/
theorem postApplications_no_presence_check (body : Row) (file : Option UploadedFile)
    (w : ApplicationWorld) :
    (postApplications body file w).2.head? =
      some (ExtCall.dbInsert "applications".toList (newApplication body w)) ∧
    ("userId".toList ∉ keysOf body →
      getProp (newApplication body w) "user_id".toList = JSValue.undefined) ∧
    ("opportunityId".toList ∉ keysOf body →
      getProp (newApplication body w) "opportunity_id".toList = JSValue.undefined) := by
  refine ⟨postApplications_head body file w, ?_, ?_⟩
  · intro h
    have hu := getProp_absent body _ h
    have h1 : "application_id".toList ≠ "user_id".toList := by decide
    simp only [newApplication, getProp, h1, if_false, if_true, hu]
  · intro h
    have hu := getProp_absent body _ h
    have h1 : "application_id".toList ≠ "opportunity_id".toList := by decide
    have h2 : "user_id".toList ≠ "opportunity_id".toList := by decide
    simp only [newApplication, getProp, h1, h2, if_false, if_true, hu]

/-- Witness of the amended C10: the body `{opportunityId: "7"}` and the empty body. -/
theorem postApplications_no_presence_check_witness :
    getProp (newApplication [("opportunityId".toList, JSValue.str "7".toList)]
      (sampleApplicationWorld true true)) "user_id".toList = JSValue.undefined ∧
    getProp (newApplication [] (sampleApplicationWorld true true)) "opportunity_id".toList =
      JSValue.undefined :=
  ⟨(postApplications_no_presence_check [("opportunityId".toList, JSValue.str "7".toList)] none
      (sampleApplicationWorld true true)).2.1 (by decide),
    (postApplications_no_presence_check [] none
      (sampleApplicationWorld true true)).2.2 (by decide)⟩

theorem smartSearch_status (body : Row) (w : SearchWorld) :
    (smartSearch body w).1.status = 400 ↔ truthy (getProp body "query".toList) = false := by
  by_cases hq : truthy (getProp body "query".toList) = true
  · have hne : ¬ truthy (getProp body "query".toList) = false := by rw [hq]; decide
    simp only [hne, iff_false]
    simp only [smartSearch, hq, Bool.not_true, Bool.false_eq_true, if_false]
    repeat' split
    all_goals simp [searchFailure]
  · rw [Bool.not_eq_true] at hq
    simp only [hq, iff_true]
    simp only [smartSearch, hq, Bool.not_false, if_true]

theorem postApplications_status (body : Row) (file : Option UploadedFile)
    (w : ApplicationWorld) : (postApplications body file w).1.status ≠ 400 := by
  simp only [postApplications]
  repeat' split
  all_goals simp [applicationFailure]

theorem getWorldUniversities_status (parse : JSString → Option JSValue)
    (range : Int → Int → DbResult (List Row)) (fuel : Nat) (resp : Response)
    (tr : List ExtCall) (h : getWorldUniversities parse range fuel = some (resp, tr)) :
    resp.status ≠ 400 := by
  simp only [getWorldUniversities, getWorldUniversitiesWith] at h
  split at h
  · cases h
  · simp only [Option.some.injEq, Prod.mk.injEq] at h
    rw [← h.1]; simp
  · simp only [Option.some.injEq, Prod.mk.injEq] at h
    rw [← h.1]; simp

theorem postSignup_status (body : Row) (signUp : JSValue → JSValue → AuthOutcome) :
    (postSignup body signUp).1.status = 400 ↔
      ∃ m, signUp (getProp body "email".toList) (getProp body "password".toList) =
        AuthOutcome.error m := by
  simp only [postSignup]
  cases h : signUp (getProp body "email".toList) (getProp body "password".toList) with
  | ok data => simp
  | error m => simp
  | threw => simp

theorem postLogin_status (body : Row) (signIn : JSValue → JSValue → AuthOutcome) :
    (postLogin body signIn).1.status ≠ 400 := by
  simp only [postLogin]
  split <;> simp

theorem getOpportunities_status (parse : JSString → Option JSValue) (db : DbResult (List Row)) :
    (getOpportunities parse db).1.status ≠ 400 := by
  simp only [getOpportunities]
  split <;> simp

theorem postOpportunities_status (parse : JSString → Option JSValue) (body : Row)
    (db : Row → DbResult Unit) : (postOpportunities parse body db).1.status ≠ 400 := by
  simp only [postOpportunities]
  split <;> simp

theorem getTable_status (table : JSString) (db : DbResult (List Row)) :
    (getTable table db).1.status ≠ 400 := by
  simp only [getTable]
  split <;> simp

theorem postAccounts_status (body : Row) (db : Row → DbResult Unit) :
    (postAccounts body db).1.status ≠ 400 := by
  simp only [postAccounts]
  split <;> simp

/-- C11, counterexample. POST /auth/signup answers with status 400 when the authentication
client reports an error: the route is not POST /smart-search. -/
theorem signup_error_status_400 :
    (handle (Request.postSignup sampleSignupBody) sampleServerWorld).map
      (fun p => p.1.status) = some 400 ∧
    ∀ body, Request.postSignup sampleSignupBody ≠ Request.postSmartSearch body := by
  refine ⟨by decide, ?_⟩
  intro body h
  cases h

/-- Among the responses of the handlers, status 400 belongs to POST /smart-search with a
falsy `query` and to POST /auth/signup when the authentication client reports an error. -/
theorem handle_status_400 (r : Request) (w : ServerWorld) (resp : Response)
    (tr : List ExtCall) (h : handle r w = some (resp, tr)) :
    resp.status = 400 ↔
      ((∃ body, r = Request.postSmartSearch body ∧
          truthy (getProp body "query".toList) = false) ∨
        (∃ body m, r = Request.postSignup body ∧
          w.signUp (getProp body "email".toList) (getProp body "password".toList) =
            AuthOutcome.error m)) := by
  cases r with
  | getRoot =>
    simp only [handle, Option.some.injEq] at h
    have := (show getRoot.1.status ≠ 400 by decide)
    rw [h] at this
    simp [this]
  | postSignup body =>
    simp only [handle, Option.some.injEq] at h
    have hs := postSignup_status body w.signUp
    rw [h] at hs
    rw [hs]
    constructor
    · rintro ⟨m, hm⟩; exact Or.inr ⟨body, m, rfl, hm⟩
    · rintro (⟨b, hb, _⟩ | ⟨b, m, hb, hm⟩)
      · cases hb
      · cases hb; exact ⟨m, hm⟩
  | postLogin body =>
    simp only [handle, Option.some.injEq] at h
    have := postLogin_status body w.signIn
    rw [h] at this
    simp [this]
  | getOpportunities =>
    simp only [handle, Option.some.injEq] at h
    have := getOpportunities_status w.parse w.opportunitiesOrdered
    rw [h] at this
    simp [this]
  | postOpportunities body =>
    simp only [handle, Option.some.injEq] at h
    have := postOpportunities_status w.parse body w.insertOpportunity
    rw [h] at this
    simp [this]
  | getAccounts =>
    simp only [handle, Option.some.injEq] at h
    have := getTable_status "accounts".toList w.search.accounts
    rw [h] at this
    simp [this]
  | postAccounts body =>
    simp only [handle, Option.some.injEq] at h
    have := postAccounts_status body w.insertAccount
    rw [h] at this
    simp [this]
  | getApplications =>
    simp only [handle, Option.some.injEq] at h
    have := getTable_status "applications".toList w.search.applications
    rw [h] at this
    simp [this]
  | postApplications body file =>
    simp only [handle, Option.some.injEq] at h
    have := postApplications_status body file w.application
    rw [h] at this
    simp [this]
  | postSmartSearch body =>
    simp only [handle, Option.some.injEq] at h
    have hs := smartSearch_status body w.search
    rw [h] at hs
    rw [hs]
    constructor
    · intro hq; exact Or.inl ⟨body, rfl, hq⟩
    · rintro (⟨b, hb, hq⟩ | ⟨b, m, hb, _⟩)
      · cases hb; exact hq
      · cases hb
  | getWorldUniversities =>
    simp only [handle] at h
    have := getWorldUniversities_status _ _ _ resp tr h
    simp [this]

/-- C11, amended. Across all routes and all outcomes of their external calls, a response
has status 400 in exactly three cases: a middleware rejects the request before its handler
runs and the framework answers the error with status 400, which is what `express.json()`
(line 46) does for a body that is not valid JSON, on every route; POST /smart-search is
handed a falsy `query` (the empty string, a missing `query`, `null`, `false` or `0`); POST
/auth/signup is handed a body for which the authentication client reports an error. A
malformed JSON body is answered with status 400 on each of the eleven routes, and no
external call is issued for it. -/
theorem status_400_cases (w : ServerWorld) :
    (∀ (i : Incoming) (out : Served) (tr : List ExtCall), serve i w = some (out, tr) →
      (out.status = 400 ↔
        ((∃ route rejection, i = Incoming.rejected route rejection ∧
            rejection.status = 400) ∨
          (∃ body, i = Incoming.accepted (Request.postSmartSearch body) ∧
            truthy (getProp body "query".toList) = false) ∨
          (∃ body m, i = Incoming.accepted (Request.postSignup body) ∧
            w.signUp (getProp body "email".toList) (getProp body "password".toList) =
              AuthOutcome.error m)))) ∧
    (∀ route : Route, serve (Incoming.rejected route Rejection.malformedJson) w =
      some (Served.errorPage 400, [])) ∧
    (∀ (r : Request) (resp : Response) (tr : List ExtCall),
      serve (Incoming.accepted r) w = some (Served.json resp, tr) ↔
        handle r w = some (resp, tr)) := by
  refine ⟨?_, fun _ => rfl, ?_⟩
  · intro i out tr h
    cases i with
    | rejected route rejection =>
      simp only [serve, Option.some.injEq, Prod.mk.injEq] at h
      obtain ⟨rfl, _⟩ := h
      constructor
      · intro hs; exact Or.inl ⟨route, rejection, rfl, hs⟩
      · rintro (⟨r, rj, hi, hs⟩ | ⟨b, hi, _⟩ | ⟨b, m, hi, _⟩)
        · cases hi; exact hs
        · cases hi
        · cases hi
    | accepted r =>
      simp only [serve] at h
      cases hh : handle r w with
      | none => rw [hh] at h; cases h
      | some p =>
        obtain ⟨resp, tr0⟩ := p
        rw [hh] at h
        simp only [Option.some.injEq, Prod.mk.injEq] at h
        obtain ⟨rfl, rfl⟩ := h
        have key := handle_status_400 r w resp tr0 hh
        show resp.status = 400 ↔ _
        rw [key]
        constructor
        · rintro (⟨b, hr, hq⟩ | ⟨b, m, hr, hm⟩)
          · exact Or.inr (Or.inl ⟨b, by rw [hr], hq⟩)
          · exact Or.inr (Or.inr ⟨b, m, by rw [hr], hm⟩)
        · rintro (⟨rt, rj, hi, _⟩ | ⟨b, hi, hq⟩ | ⟨b, m, hi, hm⟩)
          · cases hi
          · cases hi; exact Or.inl ⟨b, rfl, hq⟩
          · cases hi; exact Or.inr ⟨b, m, rfl, hm⟩
  · intro r resp tr
    simp only [serve]
    cases hh : handle r w with
    | none => simp
    | some p =>
      obtain ⟨resp0, tr0⟩ := p
      simp

/-- Witness of the amended C11: the example sign-up is answered with status 400 because
the authentication client reports an error, a smart-search without query is answered with
status 400, and a request to GET /opportunities with a malformed JSON body is answered with
status 400. -/
theorem status_400_cases_witness :
    ((∃ route rejection, Incoming.accepted (Request.postSignup sampleSignupBody) =
          Incoming.rejected route rejection ∧ rejection.status = 400) ∨
        (∃ body, Incoming.accepted (Request.postSignup sampleSignupBody) =
          Incoming.accepted (Request.postSmartSearch body) ∧
          truthy (getProp body "query".toList) = false) ∨
        (∃ body m, Incoming.accepted (Request.postSignup sampleSignupBody) =
          Incoming.accepted (Request.postSignup body) ∧
          sampleServerWorld.signUp (getProp body "email".toList)
            (getProp body "password".toList) = AuthOutcome.error m)) ∧
    (Served.json (smartSearch [] sampleServerWorld.search).1).status = 400 ∧
    (Served.errorPage Rejection.malformedJson.status).status = 400 :=
  ⟨((status_400_cases sampleServerWorld).1
      (Incoming.accepted (Request.postSignup sampleSignupBody))
      (Served.json (postSignup sampleSignupBody sampleServerWorld.signUp).1)
      (postSignup sampleSignupBody sampleServerWorld.signUp).2 rfl).mp (by decide),
    ((status_400_cases sampleServerWorld).1
      (Incoming.accepted (Request.postSmartSearch []))
      (Served.json (smartSearch [] sampleServerWorld.search).1)
      (smartSearch [] sampleServerWorld.search).2 rfl).mpr
      (Or.inr (Or.inl ⟨[], rfl, by decide⟩)),
    ((status_400_cases sampleServerWorld).1
      (Incoming.rejected Route.getOpportunities Rejection.malformedJson)
      (Served.errorPage Rejection.malformedJson.status) [] rfl).mpr
      (Or.inl ⟨Route.getOpportunities, Rejection.malformedJson, rfl, rfl⟩)⟩

theorem natToString_digits (n : Nat) : ∀ c ∈ natToString n, isDigit c = true := by
  induction n using Nat.strong_induction_on with
  | _ n ih =>
    intro c hc
    by_cases h10 : n < 10
    · rw [natToString_lt n h10, List.mem_singleton] at hc
      rw [hc]; exact isDigit_digitChar n h10
    · rw [natToString_ge n (by omega), List.mem_append, List.mem_singleton] at hc
      rcases hc with hc | hc
      · exact ih (n / 10) (by omega) c hc
      · rw [hc]; exact isDigit_digitChar _ (Nat.mod_lt _ (by decide))

theorem digitsValue_natToString (n : Nat) : ∀ rest,
    digitsValue 0 (natToString n ++ rest) = digitsValue n rest := by
  induction n using Nat.strong_induction_on with
  | _ n ih =>
    intro rest
    by_cases h10 : n < 10
    · rw [natToString_lt n h10]
      simp [digitsValue, isDigit_digitChar n h10, digitChar_toNat n h10]
    · rw [natToString_ge n (by omega), List.append_assoc, ih (n / 10) (by omega)]
      have hd : n % 10 < 10 := by omega
      simp only [List.singleton_append, digitsValue, isDigit_digitChar _ hd,
        digitChar_toNat _ hd, if_true]
      congr 1
      omega

theorem isDigit_not_space (c : Char) (h : isDigit c = true) : isJSWhiteSpace c = false := by
  simp only [isDigit, Bool.and_eq_true, decide_eq_true_eq] at h
  simp only [isJSWhiteSpace, Bool.or_eq_false_iff, Bool.and_eq_false_imp, decide_eq_false_iff_not,
    decide_eq_true_eq]
  omega

theorem trim_of_no_space (s : JSString) (h : ∀ c ∈ s, isJSWhiteSpace c = false) :
    trim s = s := by
  have h1 : s.dropWhile isJSWhiteSpace = s := by
    cases s with
    | nil => rfl
    | cons c tl =>
      rw [List.dropWhile_cons_of_neg]
      simp [h c (List.mem_cons_self _ _)]
  unfold trim
  rw [h1]
  rcases List.eq_nil_or_concat s with rfl | ⟨l, c, rfl⟩
  · rfl
  · rw [List.concat_eq_append] at h ⊢
    rw [List.rdropWhile_concat_neg]
    simp [h c (by simp)]

theorem intToString_no_space (n : Int) : ∀ c ∈ intToString n, isJSWhiteSpace c = false := by
  intro c hc
  cases n with
  | ofNat m => exact isDigit_not_space c (natToString_digits m c hc)
  | negSucc m =>
    rw [intToString, List.mem_cons] at hc
    rcases hc with rfl | hc
    · decide
    · exact isDigit_not_space c (natToString_digits _ c hc)

theorem radixOf_digit (c : Char) (h : isDigit c = true) : radixOf c = 0 := by
  have hx : c ≠ 'x' := by rintro rfl; exact absurd h (by decide)
  have hX : c ≠ 'X' := by rintro rfl; exact absurd h (by decide)
  have ho : c ≠ 'o' := by rintro rfl; exact absurd h (by decide)
  have hO : c ≠ 'O' := by rintro rfl; exact absurd h (by decide)
  have hb : c ≠ 'b' := by rintro rfl; exact absurd h (by decide)
  have hB : c ≠ 'B' := by rintro rfl; exact absurd h (by decide)
  simp [radixOf, hx, hX, ho, hO, hb, hB]

theorem radixLiteral_digits (text : List Char) (h : ∀ c ∈ text, isDigit c = true) :
    radixLiteral text = none := by
  match text, h with
  | [], _ => rfl
  | [_], _ => rfl
  | [_, _], _ => rfl
  | z :: p :: d :: rest, h =>
    have hp : radixOf p = 0 := radixOf_digit p (h p (by simp))
    simp [radixLiteral, hp]

theorem radixLiteral_minus (text : List Char) : radixLiteral ('-' :: text) = none := by
  match text with
  | [] => rfl
  | [_] => rfl
  | p :: d :: rest => simp [radixLiteral]

theorem natToString_ne_nil (n : Nat) : natToString n ≠ [] := by
  by_cases h10 : n < 10
  · rw [natToString_lt n h10]; simp
  · rw [natToString_ge n (by omega)]; simp

theorem unsignedDecimal_natToString (m : Nat) : unsignedDecimal (natToString m) = some m := by
  have hall : ∀ c ∈ natToString m, isDigit c = true := natToString_digits m
  have ht : (natToString m).takeWhile isDigit = natToString m :=
    List.takeWhile_eq_self_iff.mpr hall
  have hd : (natToString m).dropWhile isDigit = [] :=
    List.dropWhile_eq_nil_iff.mpr hall
  have hv : digitsValue 0 (natToString m) = some m := by
    have := digitsValue_natToString m []
    rw [List.append_nil] at this
    rw [this]; rfl
  have hne : (natToString m).isEmpty = false := by
    cases hs : natToString m with
    | nil => exact absurd hs (natToString_ne_nil m)
    | cons c tl => rfl
  simp only [unsignedDecimal, hd, ht, decimalDigits, hne, hv]
  rfl

/-- The abstract operation StringToNumber reads the decimal numeral of an integer back. -/
theorem stringToNumber_intToString (n : Int) : stringToNumber (intToString n) = some n := by
  unfold stringToNumber
  rw [trim_of_no_space _ (intToString_no_space n)]
  cases n with
  | ofNat m =>
    show (match natToString m with
      | [] => some 0
      | c :: rest =>
        match radixLiteral (c :: rest) with
        | some n => some n
        | none => signedDecimal (c :: rest)) = some (Int.ofNat m)
    have hu := unsignedDecimal_natToString m
    have hr := radixLiteral_digits _ (natToString_digits m)
    cases hs : natToString m with
    | nil => exact absurd hs (natToString_ne_nil m)
    | cons c rest =>
      have hd : isDigit c = true := natToString_digits m c (by rw [hs]; simp)
      have h1 : c ≠ '-' := by rintro rfl; exact absurd hd (by decide)
      have h2 : c ≠ '+' := by rintro rfl; exact absurd hd (by decide)
      rw [hs] at hu hr
      simp only [hr, signedDecimal, h1, h2, if_false, hu]
      rfl
  | negSucc m =>
    show (match '-' :: natToString (m + 1) with
      | [] => some 0
      | c :: rest =>
        match radixLiteral (c :: rest) with
        | some n => some n
        | none => signedDecimal (c :: rest)) = some (Int.negSucc m)
    simp only [radixLiteral_minus, signedDecimal, if_true, unsignedDecimal_natToString]
    rfl

theorem looseEq_num_str (n : Int) :
    looseEq (JSValue.num n) (JSValue.str (intToString n)) = true ∧
    looseEq (JSValue.str (intToString n)) (JSValue.num n) = true := by
  simp [looseEq, isNullish, isObject, toPrimitive, toNumber, stringToNumber_intToString]

/-- C12, counterexample. The account with the numeric identifier `5` is not joined to an
application whose `user_id` is the string `"5"`: the account join compares with `===`, the
lookup finds nothing and the applicant name of the result is `undefined`. -/
theorem account_join_is_strict :
    strictEq (JSValue.num 5) (JSValue.str "5".toList) = false ∧
    (findUser [[("id".toList, JSValue.num 5), ("name_and_surname".toList,
        JSValue.str "Ada".toList)]]
      [("application_id".toList, JSValue.str "1".toList),
        ("user_id".toList, JSValue.str "5".toList)]).isEmpty = true ∧
    getProp (findUser [[("id".toList, JSValue.num 5), ("name_and_surname".toList,
        JSValue.str "Ada".toList)]]
      [("application_id".toList, JSValue.str "1".toList),
        ("user_id".toList, JSValue.str "5".toList)]) "name_and_surname".toList =
      JSValue.undefined := by
  refine ⟨by decide, by decide, by rfl⟩

theorem strictEq_iff (x y : JSValue) :
    strictEq x y = true ↔ x = y ∧ isObject x = false := by
  cases x <;> cases y <;> simp [strictEq, isObject]

theorem strictEq_looseEq (x y : JSValue) (h : strictEq x y = true) : looseEq x y = true := by
  obtain ⟨rfl, hx⟩ := (strictEq_iff x y).mp h
  cases x with
  | undefined => rfl
  | null => rfl
  | bool b => cases b <;> rfl
  | num n => simp [looseEq, isNullish, isObject, toPrimitive, toNumber]
  | str s => simp [looseEq, isNullish, isObject, toPrimitive]
  | arr xs => simp [isObject] at hx
  | obj kvs => simp [isObject] at hx

theorem looseEq_num_str_iff (m n : Int) :
    (looseEq (JSValue.num m) (JSValue.str (intToString n)) = true ↔ m = n) ∧
    (looseEq (JSValue.str (intToString n)) (JSValue.num m) = true ↔ m = n) := by
  constructor
  · simp [looseEq, isNullish, isObject, toPrimitive, toNumber, stringToNumber_intToString]
  · simp only [looseEq, isNullish, isObject, toPrimitive, toNumber,
      stringToNumber_intToString, Bool.or_self, Bool.false_eq_true, if_false, Bool.and_self,
      beq_iff_eq]
    exact eq_comm

theorem looseEq_num_num (m n : Int) :
    looseEq (JSValue.num m) (JSValue.num n) = strictEq (JSValue.num m) (JSValue.num n) := by
  simp [looseEq, isNullish, isObject, toPrimitive, toNumber, strictEq]

theorem looseEq_num_str_general (m : Int) (s : JSString) :
    (looseEq (JSValue.num m) (JSValue.str s) = true ↔ stringToNumber s = some m) ∧
    (looseEq (JSValue.str s) (JSValue.num m) = true ↔ stringToNumber s = some m) := by
  constructor
  · simp only [looseEq, isNullish, isObject, toPrimitive, toNumber, Bool.or_self,
      Bool.false_eq_true, if_false, Bool.and_self]
    cases stringToNumber s with
    | none => simp
    | some k =>
      simp only [beq_iff_eq, Option.some.injEq]
      exact eq_comm
  · simp only [looseEq, isNullish, isObject, toPrimitive, toNumber, Bool.or_self,
      Bool.false_eq_true, if_false, Bool.and_self]
    cases stringToNumber s with
    | none => simp
    | some k => simp

theorem find?_first_match {α : Type} (p : α → Bool) (pre : List α) (x : α) (post : List α)
    (hpre : ∀ o ∈ pre, p o = false) (hx : p x = true) :
    (pre ++ x :: post).find? p = some x := by
  induction pre with
  | nil => simp [List.find?, hx]
  | cons o tl ih =>
    have ho : p o = false := hpre o (List.mem_cons_self _ _)
    simp only [List.cons_append, List.find?, ho]
    exact ih (fun a ha => hpre a (List.mem_cons_of_mem _ ha))

theorem find?_no_match {α : Type} (p : α → Bool) (l : List α)
    (h : ∀ o ∈ l, p o = false) : l.find? p = none := by
  rw [List.find?_eq_none]
  intro o ho
  simp [h o ho]

/-- C12, amended. In smart-search the two join lookups use different equalities. Each
lookup scans its table in order and yields the first row whose `id` equals the key of the
application, and an empty object when no row does. The opportunity join
(`opp.id == app.opportunity_id`) is loose; the account join (`acc.id === app.user_id`) is
strict: a row matches only when `id` and `user_id` are primitives of the same type and
value. Loose equality holds wherever strict equality does, agrees with it on two strings
and on two numbers and, in addition, holds between a number and a string exactly when the
string converts to that number, so between `m` and the decimal string of `n` exactly when
`m = n`, in either order, whereas strict equality never holds between a number and a
string: opportunity `7` is joined to
`opportunity_id` `"7"`, account `5` is not joined to `user_id` `"5"` nor account `"5"` to
`user_id` `5`. The response record of an application reads the applicant fields from the
account found and the opportunity fields from the opportunity found. -/
theorem smartSearch_join_equalities (app : Row) :
    (∀ (pre : List Row) (opp : Row) (post : List Row),
      (∀ o ∈ pre,
        looseEq (getProp o "id".toList) (getProp app "opportunity_id".toList) = false) →
      looseEq (getProp opp "id".toList) (getProp app "opportunity_id".toList) = true →
      findOpportunity (pre ++ opp :: post) app = opp) ∧
    (∀ opps : List Row,
      (∀ o ∈ opps,
        looseEq (getProp o "id".toList) (getProp app "opportunity_id".toList) = false) →
      findOpportunity opps app = []) ∧
    (∀ (pre : List Row) (acc : Row) (post : List Row),
      (∀ a ∈ pre, ¬ (getProp a "id".toList = getProp app "user_id".toList ∧
        isObject (getProp a "id".toList) = false)) →
      getProp acc "id".toList = getProp app "user_id".toList →
      isObject (getProp acc "id".toList) = false →
      findUser (pre ++ acc :: post) app = acc) ∧
    (∀ accs : List Row,
      (∀ a ∈ accs, ¬ (getProp a "id".toList = getProp app "user_id".toList ∧
        isObject (getProp a "id".toList) = false)) →
      findUser accs app = []) ∧
    (∀ m n : Int,
      (looseEq (JSValue.num m) (JSValue.str (intToString n)) = true ↔ m = n) ∧
      (looseEq (JSValue.str (intToString n)) (JSValue.num m) = true ↔ m = n)) ∧
    (∀ (m : Int) (s : JSString),
      strictEq (JSValue.num m) (JSValue.str s) = false ∧
      strictEq (JSValue.str s) (JSValue.num m) = false) ∧
    (∀ x y : JSValue, strictEq x y = true ↔ x = y ∧ isObject x = false) ∧
    (∀ x y : JSValue, strictEq x y = true → looseEq x y = true) ∧
    (∀ a b : JSString,
      looseEq (JSValue.str a) (JSValue.str b) = strictEq (JSValue.str a) (JSValue.str b)) ∧
    (∀ m n : Int,
      looseEq (JSValue.num m) (JSValue.num n) = strictEq (JSValue.num m) (JSValue.num n)) ∧
    (∀ (m : Int) (s : JSString),
      (looseEq (JSValue.num m) (JSValue.str s) = true ↔ stringToNumber s = some m) ∧
      (looseEq (JSValue.str s) (JSValue.num m) = true ↔ stringToNumber s = some m)) ∧
    (∀ accs opps : List Row, enrich accs opps app = JSValue.obj [
      ("application_id".toList, getProp app "application_id".toList),
      ("application_date".toList, getProp app "application_date".toList),
      ("applicant_name".toList, getProp (findUser accs app) "name_and_surname".toList),
      ("applicant_email".toList, getProp (findUser accs app) "email".toList),
      ("university_name".toList, getProp (findUser accs app) "university_name".toList),
      ("university_location".toList,
        getProp (findUser accs app) "university_location".toList),
      ("opportunity_title".toList, getProp (findOpportunity opps app) "title".toList),
      ("opportunity_location".toList,
        getProp (findOpportunity opps app) "location".toList)]) := by
  refine ⟨?_, ?_, ?_, ?_, looseEq_num_str_iff, ?_, strictEq_iff, strictEq_looseEq,
    fun _ _ => rfl, looseEq_num_num, looseEq_num_str_general, ?_⟩
  · intro pre opp post hpre hopp
    simp only [findOpportunity]
    rw [find?_first_match _ pre opp post hpre hopp]
    rfl
  · intro opps hall
    simp only [findOpportunity]
    rw [find?_no_match _ opps hall]
    rfl
  · intro pre acc post hpre h1 h2
    simp only [findUser]
    rw [find?_first_match _ pre acc post _ ((strictEq_iff _ _).mpr ⟨h1, h2⟩)]
    · rfl
    · intro a ha
      have := hpre a ha
      rw [← strictEq_iff] at this
      simpa using this
  · intro accs hall
    simp only [findUser]
    rw [find?_no_match _ accs]
    · rfl
    · intro a ha
      have := hall a ha
      rw [← strictEq_iff] at this
      simpa using this
  · intro m s
    exact ⟨rfl, rfl⟩
  · intro accs opps
    rfl

/-- Witness of the amended C12. The opportunity with `id` `7` in second place is joined to
`opportunity_id` `"7"`; the account with `id` `"5"` in second place is joined to `user_id`
`"5"`, past the account with `id` `5`; the account with `id` `"5"` is not joined to the
`user_id` `5`. -/
theorem smartSearch_join_equalities_witness :
    findOpportunity
      [[("id".toList, JSValue.num 8)],
        [("id".toList, JSValue.num 7), ("title".toList, JSValue.str "Intern".toList)],
        [("id".toList, JSValue.str "7".toList)]]
      [("opportunity_id".toList, JSValue.str "7".toList),
        ("user_id".toList, JSValue.str "5".toList)] =
      [("id".toList, JSValue.num 7), ("title".toList, JSValue.str "Intern".toList)] ∧
    findUser
      [[("id".toList, JSValue.num 5)],
        [("id".toList, JSValue.str "5".toList), ("email".toList, JSValue.str "a@b".toList)]]
      [("opportunity_id".toList, JSValue.str "7".toList),
        ("user_id".toList, JSValue.str "5".toList)] =
      [("id".toList, JSValue.str "5".toList), ("email".toList, JSValue.str "a@b".toList)] ∧
    findUser [[("id".toList, JSValue.str "5".toList)]]
      [("user_id".toList, JSValue.num 5)] = [] :=
  ⟨(smartSearch_join_equalities
      [("opportunity_id".toList, JSValue.str "7".toList),
        ("user_id".toList, JSValue.str "5".toList)]).1
      [[("id".toList, JSValue.num 8)]]
      [("id".toList, JSValue.num 7), ("title".toList, JSValue.str "Intern".toList)]
      [[("id".toList, JSValue.str "7".toList)]]
      (by
        intro o ho
        rw [List.mem_singleton] at ho
        rw [ho]
        decide)
      (by decide),
    (smartSearch_join_equalities
      [("opportunity_id".toList, JSValue.str "7".toList),
        ("user_id".toList, JSValue.str "5".toList)]).2.2.1
      [[("id".toList, JSValue.num 5)]]
      [("id".toList, JSValue.str "5".toList), ("email".toList, JSValue.str "a@b".toList)]
      []
      (by
        intro a ha
        rw [List.mem_singleton] at ha
        rw [ha]
        rintro ⟨h, _⟩
        change JSValue.num 5 = JSValue.str "5".toList at h
        cases h)
      rfl rfl,
    (smartSearch_join_equalities [("user_id".toList, JSValue.num 5)]).2.2.2.1
      [[("id".toList, JSValue.str "5".toList)]]
      (by
        intro a ha
        rw [List.mem_singleton] at ha
        rw [ha]
        rintro ⟨h, _⟩
        change JSValue.str "5".toList = JSValue.num 5 at h
        cases h)⟩

theorem mem_keysOf_of_isArray (o : Row) (k : JSString) (h : isArray (getProp o k) = true) :
    k ∈ keysOf o := by
  by_contra hk
  rw [getProp_absent o k hk] at h
  exact absurd h (by decide)

theorem keysOf_setProp (o : Row) (k : JSString) (v : JSValue) (h : k ∈ keysOf o) :
    keysOf (setProp o k v) = keysOf o := by
  induction o with
  | nil => simp [keysOf] at h
  | cons kv tl ih =>
    obtain ⟨k2, w⟩ := kv
    by_cases hk : k2 = k
    · simp [setProp, keysOf, hk]
    · have hmem : k ∈ keysOf tl := by
        simp only [keysOf, List.map_cons, List.mem_cons] at h
        rcases h with h | h
        · exact absurd h.symm hk
        · exact h
      have := ih hmem
      simp only [keysOf] at this
      simp [setProp, keysOf, hk, this]

theorem keysOf_encodeField (o : Row) (f : JSString) : keysOf (encodeField o f) = keysOf o := by
  unfold encodeField
  split_ifs with h
  · rw [Bool.and_eq_true] at h
    exact keysOf_setProp o f _ (mem_keysOf_of_isArray o f h.2)
  · rfl

theorem keysOf_foldl_encodeField (fs : List JSString) : ∀ o : Row,
    keysOf (fs.foldl encodeField o) = keysOf o := by
  induction fs with
  | nil => intro o; rfl
  | cons f fs ih => intro o; rw [List.foldl_cons, ih, keysOf_encodeField]

theorem getProp_encodeField_keep (o : Row) (g k : JSString)
    (h : g ≠ k ∨ isArray (getProp o k) = false) :
    getProp (encodeField o g) k = getProp o k := by
  by_cases hg : g = k
  · subst hg
    rcases h with h | h
    · exact absurd rfl h
    · unfold encodeField
      simp [h]
  · exact getProp_encodeField_other o g k hg

theorem getProp_foldl_encodeField_keep (fs : List JSString) : ∀ (o : Row) (k : JSString),
    ((∀ g ∈ fs, g ≠ k) ∨ isArray (getProp o k) = false) →
    getProp (fs.foldl encodeField o) k = getProp o k := by
  induction fs with
  | nil => intro o k _; rfl
  | cons f fs ih =>
    intro o k h
    have hstep : getProp (encodeField o f) k = getProp o k := by
      apply getProp_encodeField_keep
      rcases h with h | h
      · exact Or.inl (h f (List.mem_cons_self _ _))
      · exact Or.inr h
    rw [List.foldl_cons, ih (encodeField o f) k, hstep]
    rcases h with h | h
    · exact Or.inl (fun g hg => h g (List.mem_cons_of_mem _ hg))
    · exact Or.inr (by rw [hstep]; exact h)

theorem getProp_encodeField_isArray (o : Row) (f : JSString)
    (hv : isArray (getProp o f) = true) :
    getProp (encodeField o f) f = JSValue.str (JSON_stringify (getProp o f)) := by
  cases hx : getProp o f with
  | arr xs => exact getProp_encodeField_arr o f xs hx
  | undefined => rw [hx] at hv; exact absurd hv (by decide)
  | null => rw [hx] at hv; exact absurd hv (by decide)
  | bool b => rw [hx] at hv; exact absurd hv (by simp [isArray])
  | num n => rw [hx] at hv; exact absurd hv (by simp [isArray])
  | str s => rw [hx] at hv; exact absurd hv (by simp [isArray])
  | obj kvs => rw [hx] at hv; exact absurd hv (by simp [isArray])

theorem getProp_foldl_encodeField_arr (fs : List JSString) : ∀ (o : Row) (f : JSString),
    fs.Nodup → f ∈ fs → isArray (getProp o f) = true →
    getProp (fs.foldl encodeField o) f = JSValue.str (JSON_stringify (getProp o f)) := by
  induction fs with
  | nil => intro o f _ hf; simp at hf
  | cons g rest ih =>
    intro o f hnd hf hv
    rw [List.nodup_cons] at hnd
    rw [List.foldl_cons]
    by_cases hg : g = f
    · subst hg
      rw [getProp_foldl_encodeField_keep rest (encodeField o g) g
        (Or.inl (fun g2 hg2 heq => hnd.1 (heq ▸ hg2)))]
      exact getProp_encodeField_isArray o g hv
    · have hmem : f ∈ rest := by
        rcases List.mem_cons.mp hf with h | h
        · exact absurd h.symm hg
        · exact h
      have hstep := getProp_encodeField_other o g f hg
      rw [ih (encodeField o g) f hnd.2 hmem (by rw [hstep]; exact hv), hstep]

/-- C13. The record POST /opportunities sends to the database has the keys of the request
body, in the same order; it differs from the body only in the four fields
`qualificationsAndRequirements`, `tags`, `benefits` and `experienceRequired`, and there
only where the value is an array, which is replaced by its `JSON.stringify` text; every
other field and every non-array value of those four fields is passed through unchanged.
That record is the one handed to the insert. -/
theorem encodeOpportunity_frame (parse : JSString → Option JSValue) (body : Row)
    (db : Row → DbResult Unit) :
    (postOpportunities parse body db).2 =
      [ExtCall.dbInsert "opportunities".toList (encodeOpportunity body)] ∧
    keysOf (encodeOpportunity body) = keysOf body ∧
    (∀ k, k ∈ arrayFields → isArray (getProp body k) = true →
      getProp (encodeOpportunity body) k = JSValue.str (JSON_stringify (getProp body k))) ∧
    (∀ k, k ∉ arrayFields ∨ isArray (getProp body k) = false →
      getProp (encodeOpportunity body) k = getProp body k) := by
  refine ⟨?_, keysOf_foldl_encodeField _ _, ?_, ?_⟩
  · simp only [postOpportunities]
    split <;> rfl
  · intro k hk hv
    exact getProp_foldl_encodeField_arr arrayFields body k (by decide) hk hv
  · intro k h
    apply getProp_foldl_encodeField_keep
    rcases h with h | h
    · exact Or.inl (fun g hg heq => h (heq ▸ hg))
    · exact Or.inr h

/-- Witness of C13: in the body `{title: "Intern", tags: ["go","rust"], benefits: "none"}`
the array `tags` is replaced by its text, `title` and the string `benefits` are kept. -/
theorem encodeOpportunity_frame_witness :
    getProp (encodeOpportunity [("title".toList, JSValue.str "Intern".toList),
        ("tags".toList, JSValue.arr [JSValue.str "go".toList, JSValue.str "rust".toList]),
        ("benefits".toList, JSValue.str "none".toList)]) "tags".toList =
      JSValue.str (JSON_stringify (getProp [("title".toList, JSValue.str "Intern".toList),
        ("tags".toList, JSValue.arr [JSValue.str "go".toList, JSValue.str "rust".toList]),
        ("benefits".toList, JSValue.str "none".toList)] "tags".toList)) ∧
    getProp (encodeOpportunity [("title".toList, JSValue.str "Intern".toList),
        ("tags".toList, JSValue.arr [JSValue.str "go".toList, JSValue.str "rust".toList]),
        ("benefits".toList, JSValue.str "none".toList)]) "title".toList =
      getProp [("title".toList, JSValue.str "Intern".toList),
        ("tags".toList, JSValue.arr [JSValue.str "go".toList, JSValue.str "rust".toList]),
        ("benefits".toList, JSValue.str "none".toList)] "title".toList ∧
    getProp (encodeOpportunity [("title".toList, JSValue.str "Intern".toList),
        ("tags".toList, JSValue.arr [JSValue.str "go".toList, JSValue.str "rust".toList]),
        ("benefits".toList, JSValue.str "none".toList)]) "benefits".toList =
      getProp [("title".toList, JSValue.str "Intern".toList),
        ("tags".toList, JSValue.arr [JSValue.str "go".toList, JSValue.str "rust".toList]),
        ("benefits".toList, JSValue.str "none".toList)] "benefits".toList :=
  ⟨(encodeOpportunity_frame JSON_parse _ (fun _ => DbResult.ok ())).2.2.1 "tags".toList
      (by decide) (by decide),
    (encodeOpportunity_frame JSON_parse _ (fun _ => DbResult.ok ())).2.2.2 "title".toList
      (Or.inl (by decide)),
    (encodeOpportunity_frame JSON_parse _ (fun _ => DbResult.ok ())).2.2.2 "benefits".toList
      (Or.inr (by decide))⟩

theorem getProp_foldl_decodeField_keep (parse : JSString → Option JSValue)
    (fs : List JSString) : ∀ (o : Row) (k : JSString), (∀ g ∈ fs, g ≠ k) →
    getProp (fs.foldl (decodeField parse) o) k = getProp o k := by
  induction fs with
  | nil => intro o k _; rfl
  | cons f fs ih =>
    intro o k h
    rw [List.foldl_cons, ih (decodeField parse o f) k
      (fun g hg => h g (List.mem_cons_of_mem _ hg)),
      getProp_decodeField_other parse o f k (h f (List.mem_cons_self _ _))]

theorem getProp_foldl_decodeField (parse : JSString → Option JSValue) (fs : List JSString) :
    ∀ (o : Row) (f : JSString), fs.Nodup → f ∈ fs →
    getProp (fs.foldl (decodeField parse) o) f = parseIfJSON parse (getProp o f) := by
  induction fs with
  | nil => intro o f _ hf; simp at hf
  | cons g rest ih =>
    intro o f hnd hf
    rw [List.nodup_cons] at hnd
    rw [List.foldl_cons]
    by_cases hg : g = f
    · subst hg
      rw [getProp_foldl_decodeField_keep parse rest (decodeField parse o g) g
        (fun g2 hg2 heq => hnd.1 (heq ▸ hg2)), getProp_decodeField_same]
    · have hmem : f ∈ rest := by
        rcases List.mem_cons.mp hf with h | h
        · exact absurd h.symm hg
        · exact h
      rw [ih (decodeField parse o g) f hnd.2 hmem, getProp_decodeField_other parse o g f hg]

/-- The record GET /opportunities returns holds, in each of the four array-typed fields,
`parseIfJSON` of the stored value. -/
theorem getProp_decodeOpportunity (parse : JSString → Option JSValue) (o : Row) (f : JSString)
    (hf : f ∈ arrayFields) :
    getProp (decodeOpportunity parse o) f = parseIfJSON parse (getProp o f) :=
  getProp_foldl_decodeField parse arrayFields o f (by decide) hf

theorem getProp_normalizeUniversity_domains (parse : JSString → Option JSValue) (item : Row) :
    getProp (normalizeUniversity parse item) "domains".toList =
      parseOrWrap parse (getProp item "domains".toList) := by
  unfold normalizeUniversity
  rw [getProp_setProp_other _ _ _ _ (by decide), getProp_setProp_other _ _ _ _ (by decide),
    getProp_setProp_same]

theorem getProp_normalizeUniversity_web_pages (parse : JSString → Option JSValue)
    (item : Row) :
    getProp (normalizeUniversity parse item) "web_pages".toList =
      parseOrWrap parse (getProp item "web_pages".toList) := by
  unfold normalizeUniversity
  rw [getProp_setProp_other _ _ _ _ (by decide), getProp_setProp_same]

theorem getProp_normalizeUniversity_state (parse : JSString → Option JSValue) (item : Row) :
    getProp (normalizeUniversity parse item) "state-province".toList =
      normalizeStateProvince (getProp item "state-province".toList) := by
  unfold normalizeUniversity
  rw [getProp_setProp_same]

theorem getProp_normalizeUniversity_other (parse : JSString → Option JSValue) (item : Row)
    (k : JSString) (h1 : k ≠ "domains".toList) (h2 : k ≠ "web_pages".toList)
    (h3 : k ≠ "state-province".toList) :
    getProp (normalizeUniversity parse item) k = getProp item k := by
  unfold normalizeUniversity
  rw [getProp_setProp_other _ _ _ _ (Ne.symm h3), getProp_setProp_other _ _ _ _ (Ne.symm h2),
    getProp_setProp_other _ _ _ _ (Ne.symm h1)]

/-- C14, counterexample. For the directory row whose `domains` is the string `example.edu`,
which is not valid JSON, GET /world-universities returns `domains` as the one-element array
`["example.edu"]`, not as the original string. -/
theorem university_domains_wrapped :
    JSON_parse "example.edu".toList = none ∧
    (getWorldUniversities JSON_parse (tableRange [sampleUniversity]) 1).map
        (fun p => p.1) =
      some ⟨200, JSValue.arr [JSValue.obj
        [("name".toList, JSValue.str "Example University".toList),
          ("domains".toList, JSValue.arr [JSValue.str "example.edu".toList]),
          ("web_pages".toList, JSValue.arr [JSValue.str "http://example.edu".toList]),
          ("state-province".toList, JSValue.null)]]⟩ ∧
    getProp (normalizeUniversity JSON_parse sampleUniversity) "domains".toList ≠
      getProp sampleUniversity "domains".toList := by
  refine ⟨by rfl, by rfl, ?_⟩
  intro h
  have h2 : getProp (normalizeUniversity JSON_parse sampleUniversity) "domains".toList =
      JSValue.arr [JSValue.str "example.edu".toList] := by rfl
  rw [h2] at h
  cases h

/-- C14, amended. A JSON-encoded text field that fails to decode raises no error in the
listing endpoints. GET /opportunities keeps the original string in each of its four
fields. GET /world-universities does not keep it: a `domains` or `web_pages` that is a
string and fails to parse is returned as a one-element array holding the original
string. -/
theorem decode_failure_results (parse : JSString → Option JSValue) (item : Row)
    (s : JSString) :
    (∀ f, f ∈ arrayFields → getProp item f = JSValue.str s → parse (trim s) = none →
      getProp (decodeOpportunity parse item) f = JSValue.str s) ∧
    (getProp item "domains".toList = JSValue.str s → parse s = none →
      getProp (normalizeUniversity parse item) "domains".toList =
        JSValue.arr [JSValue.str s]) ∧
    (getProp item "web_pages".toList = JSValue.str s → parse s = none →
      getProp (normalizeUniversity parse item) "web_pages".toList =
        JSValue.arr [JSValue.str s]) := by
  refine ⟨?_, ?_, ?_⟩
  · intro f hf hv hp
    rw [getProp_decodeOpportunity parse item f hf, hv]
    simp only [parseIfJSON, hp]
    split_ifs <;> rfl
  · intro hv hp
    rw [getProp_normalizeUniversity_domains, hv]
    simp only [parseOrWrap, hp]
  · intro hv hp
    rw [getProp_normalizeUniversity_web_pages, hv]
    simp only [parseOrWrap, hp]

/-- Witness of the amended C14: the text `[1,` in `tags` of an opportunity is kept, the text
`example.edu` in `domains` of a directory row is wrapped. -/
theorem decode_failure_results_witness :
    getProp (decodeOpportunity JSON_parse [("tags".toList, JSValue.str "[1,".toList)])
      "tags".toList = JSValue.str "[1,".toList ∧
    getProp (normalizeUniversity JSON_parse sampleUniversity) "domains".toList =
      JSValue.arr [JSValue.str "example.edu".toList] :=
  ⟨(decode_failure_results JSON_parse [("tags".toList, JSValue.str "[1,".toList)]
      "[1,".toList).1 "tags".toList (by decide) rfl (by rfl),
    (decode_failure_results JSON_parse sampleUniversity "example.edu".toList).2.1 rfl
      (by rfl)⟩

theorem trim_isEmpty_iff (s : JSString) :
    (trim s).isEmpty = true ↔ ∀ c ∈ s, isJSWhiteSpace c = true := by
  rw [List.isEmpty_iff]
  unfold trim
  rw [List.rdropWhile_eq_nil_iff]
  constructor
  · intro h
    by_cases hd : s.dropWhile isJSWhiteSpace = []
    · exact List.dropWhile_eq_nil_iff.mp hd
    · have h1 := List.head_dropWhile_not isJSWhiteSpace s hd
      have h2 := h _ (List.head_mem hd)
      rw [h2] at h1
      exact absurd h1 (by decide)
  · intro h x hx
    exact h x ((List.dropWhile_sublist isJSWhiteSpace).subset hx)

/-- C15. For every university-directory row, the returned `state-province` is `null`
exactly when the stored value is `null` or a string that is empty or consists only of
whitespace; every other stored value is returned unchanged; and every field other than
`domains`, `web_pages` and `state-province` is returned unchanged. -/
theorem stateProvince_normalized (parse : JSString → Option JSValue) (item : Row) :
    (getProp (normalizeUniversity parse item) "state-province".toList = JSValue.null ↔
      (getProp item "state-province".toList = JSValue.null ∨
        ∃ s, getProp item "state-province".toList = JSValue.str s ∧
          ∀ c ∈ s, isJSWhiteSpace c = true)) ∧
    (¬ (∃ s, getProp item "state-province".toList = JSValue.str s ∧
          ∀ c ∈ s, isJSWhiteSpace c = true) →
      getProp (normalizeUniversity parse item) "state-province".toList =
        getProp item "state-province".toList) ∧
    (∀ k, k ≠ "domains".toList → k ≠ "web_pages".toList → k ≠ "state-province".toList →
      getProp (normalizeUniversity parse item) k = getProp item k) := by
  refine ⟨?_, ?_, fun k h1 h2 h3 => getProp_normalizeUniversity_other parse item k h1 h2 h3⟩
  · rw [getProp_normalizeUniversity_state]
    cases hv : getProp item "state-province".toList with
    | str s =>
      simp only [normalizeStateProvince]
      by_cases he : (trim s).isEmpty = true
      · simp only [he, if_true, true_iff]
        exact Or.inr ⟨s, rfl, (trim_isEmpty_iff s).mp he⟩
      · simp only [he, if_false]
        constructor
        · intro h; cases h
        · rintro (h | ⟨s2, h2, hall⟩)
          · cases h
          · cases h2
            exact absurd ((trim_isEmpty_iff s).mpr hall) he
    | null => simp [normalizeStateProvince]
    | undefined => simp [normalizeStateProvince]
    | bool b => simp [normalizeStateProvince]
    | num n => simp [normalizeStateProvince]
    | arr xs => simp [normalizeStateProvince]
    | obj kvs => simp [normalizeStateProvince]
  · intro hno
    rw [getProp_normalizeUniversity_state]
    cases hv : getProp item "state-province".toList with
    | str s =>
      have he : ¬ (trim s).isEmpty = true := by
        intro he
        exact hno ⟨s, hv, (trim_isEmpty_iff s).mp he⟩
      simp only [normalizeStateProvince, he, if_false, Bool.false_eq_true]
    | null => rfl
    | undefined => rfl
    | bool b => rfl
    | num n => rfl
    | arr xs => rfl
    | obj kvs => rfl

/-- Witness of C15: the example row stores two spaces in `state-province` and gets `null`;
its `name` is returned unchanged; a row that stores `Bavaria` keeps it. -/
theorem stateProvince_normalized_witness :
    getProp (normalizeUniversity JSON_parse sampleUniversity) "state-province".toList =
      JSValue.null ∧
    getProp (normalizeUniversity JSON_parse sampleUniversity) "name".toList =
      getProp sampleUniversity "name".toList ∧
    getProp (normalizeUniversity JSON_parse
        [("state-province".toList, JSValue.str "Bavaria".toList)]) "state-province".toList =
      getProp [("state-province".toList, JSValue.str "Bavaria".toList)]
        "state-province".toList :=
  ⟨(stateProvince_normalized JSON_parse sampleUniversity).1.mpr
      (Or.inr ⟨"  ".toList, rfl, by decide⟩),
    (stateProvince_normalized JSON_parse sampleUniversity).2.2 "name".toList
      (by decide) (by decide) (by decide),
    (stateProvince_normalized JSON_parse
      [("state-province".toList, JSValue.str "Bavaria".toList)]).2.1 (by
        rintro ⟨s, hs, hall⟩
        have hs2 : s = "Bavaria".toList := by
          have : JSValue.str "Bavaria".toList = JSValue.str s := hs
          cases this; rfl
        subst hs2
        exact absurd (hall 'B' (by decide)) (by decide))⟩

theorem fetchAllPages_trace (table : List Row) (limit : Nat) (hl : 0 < limit) :
    ∀ (fuel k offset : Nat) (allData : List Row) (trace : List ExtCall),
      offset = k * limit → allData = table.take offset → offset ≤ table.length →
      table.length / limit + 1 - k ≤ fuel →
      fetchAllPages (tableRange table) limit fuel offset allData trace =
        some (DbResult.ok table,
          trace ++ (List.range' k (table.length / limit + 1 - k)).map (pageRequest limit)) := by
  intro fuel
  induction fuel with
  | zero =>
    intro k offset allData trace ho _ hle hf
    have hk : k ≤ table.length / limit := by
      rw [Nat.le_div_iff_mul_le hl, ← ho]; exact hle
    omega
  | succ f ih =>
    intro k offset allData trace ho ha hle hf
    have hk : k ≤ table.length / limit := by
      rw [Nat.le_div_iff_mul_le hl, ← ho]; exact hle
    rw [fetchAllPages]
    simp only [tableRange_page table offset limit hl]
    have hlen : ((table.drop offset).take limit).length = min limit (table.length - offset) := by
      simp
    have hcall : ExtCall.dbSelectRange universitiesTable (offset : Int)
        ((offset : Int) + (limit : Int) - 1) = pageRequest limit k := by
      rw [pageRequest, ho]
    have hcat : allData ++ (table.drop offset).take limit = table.take (offset + limit) := by
      rw [ha, List.take_add]
    have hlast : table.length - offset < limit → table.length / limit = k := by
      intro hlt
      apply Nat.le_antisymm _ hk
      apply Nat.le_of_lt_succ
      rw [Nat.div_lt_iff_lt_mul hl, Nat.succ_mul, ← ho]
      omega
    by_cases h0 : ((table.drop offset).take limit).length = 0
    · simp only [h0, if_true]
      have hoff : offset = table.length := by rw [hlen] at h0; omega
      have hall : allData = table := by rw [ha, hoff, List.take_length]
      have hq := hlast (by omega)
      rw [hall, hcall, hq]
      simp [List.range']
    · simp only [h0, if_false]
      by_cases h1 : ((table.drop offset).take limit).length < limit
      · simp only [h1, if_true]
        have hq := hlast (by rw [hlen] at h1; omega)
        rw [hcat, List.take_of_length_le (by rw [hlen] at h1; omega), hcall, hq]
        simp [List.range']
      · simp only [h1, if_false]
        have hge : limit ≤ table.length - offset := by rw [hlen] at h1; omega
        have hk1 : k + 1 ≤ table.length / limit := by
          rw [Nat.le_div_iff_mul_le hl, Nat.succ_mul, ← ho]; omega
        rw [ih (k + 1) (offset + limit) _ _ (by rw [Nat.succ_mul, ho]) hcat (by omega)
          (by omega), hcall]
        have hr : table.length / limit + 1 - k = (table.length / limit + 1 - (k + 1)) + 1 := by
          omega
        rw [hr, List.range'_succ]
        simp

/-- C16. The pagination loop of GET /world-universities terminates for every finite table
and every positive page size: given at least `n / L + 1` iterations for a table of `n` rows
and page size `L`, it ends without error with the whole table, having issued exactly
`n / L + 1` page requests, at the offsets `0`, `L`, `2 L`, ... in this order. Every page
before the last one is full and the last one is shorter than the page size (possibly
empty): the loop stops at the first such page. -/
theorem pagination_request_count (table : List Row) (limit fuel : Nat) (hl : 0 < limit)
    (hf : table.length / limit + 1 ≤ fuel) :
    fetchAllPages (tableRange table) limit fuel 0 [] [] =
      some (DbResult.ok table,
        (List.range (table.length / limit + 1)).map (pageRequest limit)) ∧
    ((List.range (table.length / limit + 1)).map (pageRequest limit)).length =
      table.length / limit + 1 ∧
    (∀ i, i < table.length / limit →
      ((table.drop (i * limit)).take limit).length = limit) ∧
    ((table.drop (table.length / limit * limit)).take limit).length < limit := by
  refine ⟨?_, by simp, ?_, ?_⟩
  · have h := fetchAllPages_trace table limit hl fuel 0 0 [] [] (by simp) rfl (Nat.zero_le _)
      (by simpa using hf)
    rw [h, List.nil_append, Nat.sub_zero, List.range_eq_range']
  · intro i hi
    have h1 : (i + 1) * limit ≤ table.length := by
      rw [← Nat.le_div_iff_mul_le hl]; exact hi
    rw [Nat.succ_mul] at h1
    simp only [List.length_take, List.length_drop]
    omega
  · have h1 : table.length / limit * limit + table.length % limit = table.length :=
      Nat.div_add_mod' _ _
    have h2 : table.length % limit < limit := Nat.mod_lt _ hl
    simp only [List.length_take, List.length_drop]
    omega

/-- Witness of C16: a table of three rows fetched in pages of two takes two requests, at
the offsets 0 and 2. -/
theorem pagination_request_count_witness :
    fetchAllPages (tableRange [[("id".toList, JSValue.num 1)],
        [("id".toList, JSValue.num 2)], [("id".toList, JSValue.num 3)]]) 2 5 0 [] [] =
      some (DbResult.ok [[("id".toList, JSValue.num 1)], [("id".toList, JSValue.num 2)],
        [("id".toList, JSValue.num 3)]],
        [ExtCall.dbSelectRange universitiesTable 0 1,
          ExtCall.dbSelectRange universitiesTable 2 3]) :=
  (pagination_request_count [[("id".toList, JSValue.num 1)],
    [("id".toList, JSValue.num 2)], [("id".toList, JSValue.num 3)]] 2 5 (by decide)
    (by decide)).1

theorem findUser_none (accountsData : List Row) (app : Row)
    (h : ∀ acc ∈ accountsData,
      strictEq (getProp acc "id".toList) (getProp app "user_id".toList) = false) :
    findUser accountsData app = [] := by
  have hnone : accountsData.find? (fun acc => strictEq (getProp acc "id".toList)
      (getProp app "user_id".toList)) = none := by
    rw [List.find?_eq_none]
    intro a ha
    rw [h a ha]; decide
  simp only [findUser, hnone]
  rfl

theorem findOpportunity_none (opportunitiesData : List Row) (app : Row)
    (h : ∀ opp ∈ opportunitiesData,
      looseEq (getProp opp "id".toList) (getProp app "opportunity_id".toList) = false) :
    findOpportunity opportunitiesData app = [] := by
  have hnone : opportunitiesData.find? (fun opp => looseEq (getProp opp "id".toList)
      (getProp app "opportunity_id".toList)) = none := by
    rw [List.find?_eq_none]
    intro a ha
    rw [h a ha]; decide
  simp only [findOpportunity, hnone]
  rfl

theorem smartSearch_trace (body : Row) (w : SearchWorld) (accountsData opportunitiesData
    applicationsData : List Row)
    (hq : truthy (getProp body "query".toList) = true)
    (ha : w.accounts = DbResult.ok accountsData)
    (ho : w.opportunities = DbResult.ok opportunitiesData)
    (hap : w.applications = DbResult.ok applicationsData) :
    (smartSearch body w).2 =
      [ExtCall.dbSelect "accounts".toList, ExtCall.dbSelect "opportunities".toList,
        ExtCall.dbSelect "applications".toList,
        ExtCall.inference (buildPrompt (getProp body "query".toList)
          (applicationsData.map (documentLine accountsData opportunitiesData)))] := by
  simp only [smartSearch, hq, Bool.not_true, Bool.false_eq_true, if_false, ha, ho, hap]
  repeat' split
  all_goals rfl

/-- C17. For a truthy query and any snapshot of the three tables, the prompt POST
/smart-search sends to the inference endpoint is the preamble, then one descriptive line
per application, in the order of the applications snapshot and separated by line feeds,
then the closing instructions. The line of an application begins with
`[ID: <application_id>]`. It is produced for every application: when no account matches,
every field read from the account is rendered as the text `undefined`, likewise for the
opportunity, and when neither matches the line is the one spelled out below. The inference
call is reached, so no error is raised on the way. -/
theorem prompt_lines (body : Row) (w : SearchWorld) (accountsData opportunitiesData
    applicationsData : List Row)
    (hq : truthy (getProp body "query".toList) = true)
    (ha : w.accounts = DbResult.ok accountsData)
    (ho : w.opportunities = DbResult.ok opportunitiesData)
    (hap : w.applications = DbResult.ok applicationsData) :
    (smartSearch body w).2 =
      [ExtCall.dbSelect "accounts".toList, ExtCall.dbSelect "opportunities".toList,
        ExtCall.dbSelect "applications".toList,
        ExtCall.inference
          ("Find the most relevant matches for this query: \"".toList ++
            toStr (getProp body "query".toList) ++
            "\". Here are the applications:\n".toList ++
            joinWith '\n' (applicationsData.map (documentLine accountsData opportunitiesData)) ++
            ("\n\nPlease return only the application IDs that match the query. " ++
              "Provide the IDs in the following format:\n\n\"Matching IDs: [1, 2, 3]\"").toList)] ∧
    (applicationsData.map (documentLine accountsData opportunitiesData)).length =
      applicationsData.length ∧
    (∀ (i : Nat) (app : Row), applicationsData[i]? = some app →
      (applicationsData.map (documentLine accountsData opportunitiesData))[i]? =
        some (documentLine accountsData opportunitiesData app)) ∧
    (∀ app : Row, ∃ rest, documentLine accountsData opportunitiesData app =
      "[ID: ".toList ++ toStr (getProp app "application_id".toList) ++ "]".toList ++ rest) ∧
    (∀ app : Row,
      (∀ acc ∈ accountsData,
        strictEq (getProp acc "id".toList) (getProp app "user_id".toList) = false) →
      ∀ k, toStr (getProp (findUser accountsData app) k) = "undefined".toList) ∧
    (∀ app : Row,
      (∀ opp ∈ opportunitiesData,
        looseEq (getProp opp "id".toList) (getProp app "opportunity_id".toList) = false) →
      ∀ k, toStr (getProp (findOpportunity opportunitiesData app) k) = "undefined".toList) ∧
    (∀ app : Row,
      (∀ acc ∈ accountsData,
        strictEq (getProp acc "id".toList) (getProp app "user_id".toList) = false) →
      (∀ opp ∈ opportunitiesData,
        looseEq (getProp opp "id".toList) (getProp app "opportunity_id".toList) = false) →
      documentLine accountsData opportunitiesData app =
        "[ID: ".toList ++ toStr (getProp app "application_id".toList) ++
          ("] Applicant \"undefined\" from University \"undefined\" located at " ++
            "\"undefined\" applied for \"undefined\" opportunity from \"undefined\" " ++
            "on application date of \"").toList ++
          toStr (getProp app "application_date".toList) ++ "\".".toList) := by
  refine ⟨?_, by simp, ?_, ?_, ?_, ?_, ?_⟩
  · rw [smartSearch_trace body w accountsData opportunitiesData applicationsData hq ha ho hap]
    rfl
  · intro i app hi
    rw [List.getElem?_map, hi]
    rfl
  · intro app
    refine ⟨" Applicant \"".toList ++
      (toStr (getProp (findUser accountsData app) "name_and_surname".toList) ++
      ("\" from University \"".toList ++
      (toStr (getProp (findUser accountsData app) "university_name".toList) ++
      ("\" located at \"".toList ++
      (toStr (getProp (findUser accountsData app) "university_location".toList) ++
      ("\" applied for \"".toList ++
      (toStr (getProp (findOpportunity opportunitiesData app) "title".toList) ++
      ("\" opportunity from \"".toList ++
      (toStr (getProp (findOpportunity opportunitiesData app) "location".toList) ++
      ("\" on application date of \"".toList ++
      (toStr (getProp app "application_date".toList) ++ "\".".toList))))))))))), ?_⟩
    simp only [documentLine, List.append_assoc]
    rfl
  · intro app hno k
    rw [findUser_none accountsData app hno]
    rfl
  · intro app hno k
    rw [findOpportunity_none opportunitiesData app hno]
    rfl
  · intro app hu hopp
    simp only [documentLine, findUser_none accountsData app hu,
      findOpportunity_none opportunitiesData app hopp]
    simp [getProp, toStr, List.append_assoc]

/-- Witness of C17: the example tables give one line per application, and an application
without account and opportunity gets the line with `undefined` fields. -/
theorem prompt_lines_witness :
    (sampleApplications.map (documentLine sampleAccounts sampleOpportunities)).length =
      sampleApplications.length ∧
    documentLine [] [] [("application_id".toList, JSValue.str "9".toList),
        ("application_date".toList, JSValue.str "2024-01-02".toList)] =
      ("[ID: 9] Applicant \"undefined\" from University \"undefined\" located at " ++
        "\"undefined\" applied for \"undefined\" opportunity from \"undefined\" " ++
        "on application date of \"2024-01-02\".").toList :=
  ⟨(prompt_lines [("query".toList, JSValue.str "rust".toList)] (sampleWorld "none".toList)
      sampleAccounts sampleOpportunities sampleApplications rfl rfl rfl rfl).2.1,
    ((prompt_lines [("query".toList, JSValue.str "rust".toList)] emptyWorld [] [] []
      rfl rfl rfl rfl).2.2.2.2.2.2
      [("application_id".toList, JSValue.str "9".toList),
        ("application_date".toList, JSValue.str "2024-01-02".toList)]
      (fun _ h => absurd h (List.not_mem_nil _))
      (fun _ h => absurd h (List.not_mem_nil _))).trans (by rfl)⟩

theorem splitComma_ne_nil (s : JSString) : splitComma s ≠ [] := by
  cases s with
  | nil => simp [splitComma]
  | cons c rest =>
    rw [splitComma]
    split_ifs
    · simp
    · cases splitComma rest <;> simp

/-- Where the pattern matches nowhere inside a prefix, the leftmost match is the leftmost
match of the rest. -/
theorem regexMatch_skip (pre s : JSString)
    (h : ∀ k, k < pre.length → matchAt ((pre ++ s).drop k) = none) :
    regexMatch (pre ++ s) = regexMatch s := by
  induction pre with
  | nil => rfl
  | cons c tl ih =>
    have h0 := h 0 (by simp)
    rw [List.drop_zero] at h0
    rw [List.cons_append] at h0 ⊢
    rw [regexMatch, h0]
    apply ih
    intro k hk
    have := h (k + 1) (by simpa using hk)
    simpa using this

theorem includes_empty_token (v : JSValue) :
    includes [[]] v = true ↔ v = JSValue.str [] := by
  rw [includes_eq]
  cases v with
  | str s =>
    simp only [List.mem_singleton, decide_eq_true_eq, JSValue.str.injEq]
  | _ => simp

/-- C18. Whenever the pattern matches the inference reply, the parsed token list is not
empty. When the captured text is empty, as for a reply whose first match is
`Matching IDs: []`, the token list is the single token `""`, and the result of POST
/smart-search is then the empty array if and only if no application has the empty string
as its `application_id`. -/
theorem matched_tokens_nonempty (body : Row) (w : SearchWorld) (accountsData
    opportunitiesData applicationsData : List Row) (data : JSValue) (reply c : JSString)
    (hq : truthy (getProp body "query".toList) = true)
    (ha : w.accounts = DbResult.ok accountsData)
    (ho : w.opportunities = DbResult.ok opportunitiesData)
    (hap : w.applications = DbResult.ok applicationsData)
    (hi : w.inference (buildPrompt (getProp body "query".toList)
      (applicationsData.map (documentLine accountsData opportunitiesData))) =
        InferenceOutcome.ok data)
    (hr : replyText data = some reply)
    (hc : regexMatch reply = some c) :
    matchingIds reply ≠ [] ∧
    (c = [] → matchingIds reply = [[]]) ∧
    (c = [] → ((smartSearch body w).1.body = JSValue.arr [] ↔
      ∀ app ∈ applicationsData, getProp app "application_id".toList ≠ JSValue.str [])) ∧
    (∀ pre post : JSString,
      (∀ k, k < pre.length →
        matchAt ((pre ++ (matchLiteral ++ ']' :: post)).drop k) = none) →
      matchingIds (pre ++ (matchLiteral ++ ']' :: post)) = [[]]) := by
  have hm : matchingIds reply = (splitComma c).map trim := by
    unfold matchingIds; rw [hc]
  have hempty : c = [] → matchingIds reply = [[]] := by
    intro h0
    rw [hm, h0]
    rfl
  refine ⟨?_, hempty, ?_, ?_⟩
  · rw [hm]
    intro h
    exact splitComma_ne_nil c (List.map_eq_nil_iff.mp h)
  · intro h0
    rw [smartSearch_reply body w accountsData opportunitiesData applicationsData data reply
      hq ha ho hap hi hr, hempty h0]
    simp only [JSValue.arr.injEq, List.map_eq_nil_iff, List.filter_eq_nil_iff]
    constructor
    · intro h app happ heq
      exact h app happ ((includes_empty_token _).mpr heq)
    · intro h app happ hinc
      exact h app happ ((includes_empty_token _).mp hinc)
  · intro pre post hfirst
    have hlead := regexMatch_leading_segment [] post
      (fun ch hch => absurd hch (List.not_mem_nil _))
    rw [List.append_nil] at hlead
    unfold matchingIds
    rw [regexMatch_skip pre _ hfirst, hlead]
    rfl

/-- Witness of C18: the reply `Matching IDs: []` on the example tables, none of whose
applications has the empty string as identifier, gives the token list `[""]` and the empty
result. -/
theorem matched_tokens_nonempty_witness :
    matchingIds "Matching IDs: []".toList = [[]] ∧
    (smartSearch [("query".toList, JSValue.str "rust".toList)]
      (sampleWorld "Matching IDs: []".toList)).1.body = JSValue.arr [] :=
  ⟨(matched_tokens_nonempty [("query".toList, JSValue.str "rust".toList)]
      (sampleWorld "Matching IDs: []".toList) sampleAccounts sampleOpportunities
      sampleApplications
      (JSValue.obj [("response".toList, JSValue.str "Matching IDs: []".toList)])
      "Matching IDs: []".toList [] rfl rfl rfl rfl rfl rfl (by decide)).2.1 rfl,
    ((matched_tokens_nonempty [("query".toList, JSValue.str "rust".toList)]
      (sampleWorld "Matching IDs: []".toList) sampleAccounts sampleOpportunities
      sampleApplications
      (JSValue.obj [("response".toList, JSValue.str "Matching IDs: []".toList)])
      "Matching IDs: []".toList [] rfl rfl rfl rfl rfl rfl (by decide)).2.2.1 rfl).mpr (by
        intro app happ
        simp only [sampleApplications, List.mem_cons, List.mem_singleton,
          List.not_mem_nil, or_false] at happ
        rcases happ with rfl | rfl
        · intro h; cases h
        · intro h; cases h)⟩

end Server
